import Mathlib

/-!
# Occupancy grid of `simple_sensor_simulator`

A shallow embedding of
`simulation/simple_sensor_simulator/src/sensor_simulation/occupancy_grid/grid.cpp`
and of the geometry helpers it calls, and of `Entities::flatten` of the
scenario interpreter, followed by theorems about them.

Conventions of the embedding:

* a `double` value is a rational number. The arithmetic of the rasterisation
  (`transformToPixel`, `getSlope`, `getIntercept` and the two line equations of
  `fillByIntersection`) is that of IEEE 754: the result of every operation is
  rounded on its own to the nearest `double`, ties to even (`binary64.round`),
  with no fused multiplication and addition. An integer converted to `double`
  is itself (dimensions and indices are below `2 ^ 53`), a result beyond the
  largest `double` stays finite, and a quotient by zero is zero. The rotation
  and translation by the pose (`transformToGrid`, `transformToWorld`), whose
  matrices come from library calls, the end points of the rays and the
  intersection tests are computed without rounding: at the identity pose, where
  the rasterisation is evaluated below, and at a half turn with the dyadic
  coordinates used below, `double` arithmetic gives the same values;
* where C++ would produce a not-a-number coordinate (a ray without direction,
  the crossing of two segments on one line) the model has no value, `none`;
* `size_t` is modelled by `Nat` and `int` by `Int`. The conversion of an `int`
  argument to a `size_t` parameter is the explicit reduction modulo `2 ^ 64`
  (`toSizeT`), so that a negative index becomes a huge one, as in C++. Pixel
  indices and grid dimensions are taken to fit the type `int`: `std::floor`
  converted to `int` is the floor, `static_cast<int>(width)` is `width`;
  the products `height * width` and `width * col + row` are taken not to wrap,
  as on every grid whose array can be allocated;
* `int8_t` costs are modelled by `Int`; no arithmetic is done on them;
* a member function of `Grid` that changes the grid returns the new grid;
* indexing a `std::vector` past its end is undefined behaviour in C++ and is
  modelled by the result `none`; the cost array itself is written with
  `List.set`, at a position that is inside the array whenever the array has
  `height * width` entries (`Grid.cellIndex_lt`);
* the loop of `Entities::flatten`
  (`openscenario/openscenario_interpreter/src/syntax/entities.cpp`) is run with
  a bound on the number of tests of its condition; the result `none` says that
  the bound was reached before the loop ended.
-/

/-! ## Messages (`geometry_msgs::msg`) -/

namespace geometry_msgs

/-- The message `geometry_msgs::msg::Point`. -/
structure Point where
  x : ℚ
  y : ℚ
  z : ℚ
deriving DecidableEq

/-- The message `geometry_msgs::msg::Vector3`. -/
structure Vector3 where
  x : ℚ
  y : ℚ
  z : ℚ
deriving DecidableEq

/-- The message `geometry_msgs::msg::Quaternion`. -/
structure Quaternion where
  x : ℚ
  y : ℚ
  z : ℚ
  w : ℚ
deriving DecidableEq

/-- The message `geometry_msgs::msg::Pose`. -/
structure Pose where
  position : Point
  orientation : Quaternion
deriving DecidableEq

end geometry_msgs

/-! ## Linear algebra (`Eigen`) -/

namespace Eigen

/-- The type `Eigen::Vector3d`. -/
structure Vector3d where
  x : ℚ
  y : ℚ
  z : ℚ
deriving DecidableEq

/-- The type `Eigen::Matrix3d`, row by row. -/
structure Matrix3d where
  m00 : ℚ
  m01 : ℚ
  m02 : ℚ
  m10 : ℚ
  m11 : ℚ
  m12 : ℚ
  m20 : ℚ
  m21 : ℚ
  m22 : ℚ
deriving DecidableEq

/-- Matrix times vector, `rot * p`. -/
def Matrix3d.mulVec (m : Matrix3d) (p : Vector3d) : Vector3d :=
  { x := m.m00 * p.x + m.m01 * p.y + m.m02 * p.z
    y := m.m10 * p.x + m.m11 * p.y + m.m12 * p.z
    z := m.m20 * p.x + m.m21 * p.y + m.m22 * p.z }

/-- Vector sum, `p + q`. -/
def Vector3d.add (p q : Vector3d) : Vector3d :=
  { x := p.x + q.x, y := p.y + q.y, z := p.z + q.z }

/-- Vector difference, `p - q`. -/
def Vector3d.sub (p q : Vector3d) : Vector3d :=
  { x := p.x - q.x, y := p.y - q.y, z := p.z - q.z }

end Eigen

/-! ## Quaternions (`quaternion_operation`) -/

namespace quaternion_operation

open geometry_msgs

/-- Modelled from the spec: `quaternion_operation::conjugate` belongs to a
library outside `src/`; the spec calls the rotation by its result "the inverse
of the orientation". The conjugate negates the vector part. -/
def conjugate (quat : Quaternion) : Quaternion :=
  { x := -quat.x, y := -quat.y, z := -quat.z, w := quat.w }

/-- Modelled from the spec: `quaternion_operation::getRotationMatrix` belongs
to a library outside `src/`; the spec says the matrix "rotates by the
orientation". This is the rotation matrix of a quaternion `(x, y, z, w)`. -/
def getRotationMatrix (quat : Quaternion) : Eigen.Matrix3d :=
  let x := quat.x
  let y := quat.y
  let z := quat.z
  let w := quat.w
  { m00 := x * x - y * y - z * z + w * w
    m01 := 2 * (x * y - z * w)
    m02 := 2 * (z * x + w * y)
    m10 := 2 * (x * y + z * w)
    m11 := -(x * x) + y * y - z * z + w * w
    m12 := 2 * (y * z - x * w)
    m20 := 2 * (z * x - w * y)
    m21 := 2 * (y * z + w * x)
    m22 := -(x * x) - y * y + z * z + w * w }

end quaternion_operation

/-! ## Double-precision arithmetic (`double`) -/

namespace binary64

/-- The natural number nearest to `n / d`; of two equally near ones, the even
one. -/
def roundHalfEven (n d : Nat) : Nat :=
  if 2 * (n % d) < d then n / d
  else if d < 2 * (n % d) then n / d + 1
  else if (n / d) % 2 = 0 then n / d else n / d + 1

/-- The number of halvings that bring `n` below two, with `fuel` steps at
most. -/
def log2Aux : Nat → Nat → Nat
  | 0, _ => 0
  | fuel + 1, n => if n < 2 then 0 else log2Aux fuel (n / 2) + 1

/-- The floor of the binary logarithm of a positive natural number. -/
def log2 (n : Nat) : Nat := log2Aux n n

/-- The floor of the binary logarithm of `n / d`, for positive `n` and `d`. -/
def log2Floor (n d : Nat) : Int :=
  if log2 d ≤ log2 n then
    if d * 2 ^ (log2 n - log2 d) ≤ n then ((log2 n - log2 d : Nat) : Int)
    else ((log2 n - log2 d : Nat) : Int) - 1
  else
    if d ≤ n * 2 ^ (log2 d - log2 n) then -((log2 d - log2 n : Nat) : Int)
    else -((log2 d - log2 n : Nat) : Int) - 1

/-- The binary exponent of the `double` format at the magnitude of `q`: the
floor of the binary logarithm of `|q|`, and `-1022` for the subnormal
numbers. -/
def exponent (q : ℚ) : Int :=
  if log2Floor q.num.natAbs q.den < -1022 then -1022 else log2Floor q.num.natAbs q.den

/-- The `double` nearest to a rational number: IEEE 754 binary64, rounded to
nearest with ties to even, a significand of 53 bits and gradual underflow.
The exponent has no upper bound here: a result beyond the largest `double`
stays finite. -/
def round (q : ℚ) : ℚ :=
  if q = 0 then 0
  else
    let r : ℚ :=
      if exponent q ≤ 52 then
        (roundHalfEven (q.num.natAbs * 2 ^ (52 - exponent q).toNat) q.den : ℚ) /
          ((2 ^ (52 - exponent q).toNat : Nat) : ℚ)
      else
        ((roundHalfEven q.num.natAbs (q.den * 2 ^ (exponent q - 52).toNat) *
          2 ^ (exponent q - 52).toNat : Nat) : ℚ)
    if q < 0 then -r else r

/-- The sum of two `double` values. -/
def add (a b : ℚ) : ℚ := round (a + b)

/-- The difference of two `double` values. -/
def sub (a b : ℚ) : ℚ := round (a - b)

/-- The product of two `double` values. -/
def mul (a b : ℚ) : ℚ := round (a * b)

/-- The quotient of two `double` values. -/
def div (a b : ℚ) : ℚ := round (a / b)

end binary64

/-! ## Line segments (`math::geometry`) -/

namespace math.geometry

open geometry_msgs

/-- Search for the integer square root between `lo` and `hi`, halving the
interval at each step. -/
def isqrtAux (n : Nat) : Nat → Nat → Nat → Nat
  | 0, lo, _ => lo
  | fuel + 1, lo, hi =>
    if hi ≤ lo + 1 then lo
    else
      let mid := (lo + hi) / 2
      if mid * mid ≤ n then isqrtAux n fuel mid hi else isqrtAux n fuel lo mid

/-- The integer square root, rounded down. -/
def isqrt (n : Nat) : Nat := isqrtAux n (n + 1) 0 (n + 1)

/-- Modelled from the spec: `std::hypot` of the C++ library, "the longest
possible ray" length `hypot(width, height)`. The rational stand-in is exact
whenever `x * x + y * y` is the square of a rational, and otherwise rounds the
root down to a multiple of the reciprocal of the denominator. -/
def hypot (x y : ℚ) : ℚ :=
  let s := x * x + y * y
  (isqrt (s.num.toNat * s.den) : ℚ) / (s.den : ℚ)

/-- The class `math::geometry::LineSegment`: an ordered pair of points. -/
structure LineSegment where
  start_point : Point
  end_point : Point
deriving DecidableEq

/-- Modelled from the spec: the constructor of `LineSegment` "from a start
point, a unit direction, and a length (used for synthesized rays)" is declared
outside `src/`. The direction `vec` is scaled to unit length in the plane;
a direction with no planar part has no unit vector (the C++ coordinates would
be not-a-number), which is the result `none`. -/
def LineSegment.fromVector (start_point : Point) (vec : Vector3) (length : ℚ) :
    Option LineSegment :=
  let vec_size := hypot vec.x vec.y
  if vec_size = 0 then none
  else
    some
      { start_point := start_point
        end_point :=
          { x := start_point.x + vec.x / vec_size * length
            y := start_point.y + vec.y / vec_size * length
            z := start_point.z + vec.z / vec_size * length } }

/-- Modelled from the spec: `LineSegment::get2DVector` is declared outside
`src/`; it is the "2D direction vector" from the start to the end point. -/
def LineSegment.get2DVector (l : LineSegment) : Vector3 :=
  { x := l.end_point.x - l.start_point.x
    y := l.end_point.y - l.start_point.y
    z := 0 }

/-- Modelled from the spec: `LineSegment::getSlope` is declared outside
`src/`; the slope of the segment in the plane, the quotient of the differences
of the end points, each operation in `double`. It is only used on segments
that are not vertical. -/
def LineSegment.getSlope (l : LineSegment) : ℚ :=
  binary64.div (binary64.sub l.end_point.y l.start_point.y)
    (binary64.sub l.end_point.x l.start_point.x)

/-- Modelled from the spec: `LineSegment::getIntercept` is declared outside
`src/`; the intercept of the line through the segment, computed in `double`
from the slope and the end point. -/
def LineSegment.getIntercept (l : LineSegment) : ℚ :=
  binary64.sub l.end_point.y (binary64.mul l.getSlope l.end_point.x)

/-- The slope of the straight line through the end points of the segment, as a
rational number: what `getSlope` computes up to rounding. -/
def LineSegment.lineSlope (l : LineSegment) : ℚ :=
  (l.end_point.y - l.start_point.y) / (l.end_point.x - l.start_point.x)

/-- The intercept of the straight line through the end points of the segment,
as a rational number: what `getIntercept` computes up to rounding. -/
def LineSegment.lineIntercept (l : LineSegment) : ℚ :=
  l.end_point.y - l.lineSlope * l.end_point.x

/-- Cross product of two planar vectors. -/
def cross (ax ay bx _by : ℚ) : ℚ := ax * _by - ay * bx

/-- The determinant of the directions of two segments. -/
def determinant (a b : LineSegment) : ℚ :=
  cross (a.end_point.x - a.start_point.x) (a.end_point.y - a.start_point.y)
    (b.end_point.x - b.start_point.x) (b.end_point.y - b.start_point.y)

/-- Parameter `t` along `a` of the crossing with the line of `b`. -/
def paramT (a b : LineSegment) : ℚ :=
  cross (b.start_point.x - a.start_point.x) (b.start_point.y - a.start_point.y)
    (b.end_point.x - b.start_point.x) (b.end_point.y - b.start_point.y) / determinant a b

/-- Parameter `u` along `b` of the crossing with the line of `a`. -/
def paramU (a b : LineSegment) : ℚ :=
  cross (b.start_point.x - a.start_point.x) (b.start_point.y - a.start_point.y)
    (a.end_point.x - a.start_point.x) (a.end_point.y - a.start_point.y) / determinant a b

/-- Both segments lie on one line. -/
def collinear (a b : LineSegment) : Bool :=
  decide (cross (b.start_point.x - a.start_point.x) (b.start_point.y - a.start_point.y)
      (a.end_point.x - a.start_point.x) (a.end_point.y - a.start_point.y) = 0) &&
  decide (cross (b.start_point.x - a.start_point.x) (b.start_point.y - a.start_point.y)
      (b.end_point.x - b.start_point.x) (b.end_point.y - b.start_point.y) = 0)

/-- The coordinate ranges of two segments meet, in `x` and in `y`. -/
def rangesOverlap (a b : LineSegment) : Bool :=
  decide (min a.start_point.x a.end_point.x ≤ max b.start_point.x b.end_point.x) &&
  decide (min b.start_point.x b.end_point.x ≤ max a.start_point.x a.end_point.x) &&
  decide (min a.start_point.y a.end_point.y ≤ max b.start_point.y b.end_point.y) &&
  decide (min b.start_point.y b.end_point.y ≤ max a.start_point.y a.end_point.y)

/-- Modelled from the spec: `isIntersect2D(a, b)` is defined outside `src/`
(only its tests are there). "Solve the 2×2 linear system for parameters
`t, u ∈ [0,1]` along each segment using the standard cross-product determinant
form; parallel non-collinear segments never intersect; collinear overlapping
segments are treated as intersecting." -/
def isIntersect2D (a b : LineSegment) : Bool :=
  if determinant a b = 0 then collinear a b && rangesOverlap a b
  else
    decide (0 ≤ paramT a b) && decide (paramT a b ≤ 1) &&
    decide (0 ≤ paramU a b) && decide (paramU a b ≤ 1)

/-- The result of `getIntersection2D`, an optional point: absent, an ordinary
point, or present with not-a-number coordinates. -/
inductive Intersection where
  | absent : Intersection
  | point (p : Point) : Intersection
  | undefined : Intersection
deriving DecidableEq

/-- Modelled from the spec: `getIntersection2D(a, b)` is defined outside
`src/` (only its tests are there). It "returns the unique intersection point
when segments cross transversally"; when infinitely many points could be
meant "the result is present but its coordinates are the undefined sentinel";
"when segments are disjoint or strictly parallel without overlap, the result
is absent." -/
def getIntersection2D (a b : LineSegment) : Intersection :=
  if isIntersect2D a b then
    if determinant a b = 0 then Intersection.undefined
    else
      let t := paramT a b
      Intersection.point
        { x := a.start_point.x + t * (a.end_point.x - a.start_point.x)
          y := a.start_point.y + t * (a.end_point.y - a.start_point.y)
          z := a.start_point.z + t * (a.end_point.z - a.start_point.z) }
  else Intersection.absent

/-- The member `LineSegment::getIntersection2D`, the pairwise query with this
segment first. -/
def LineSegment.getIntersection2D (l other : LineSegment) : Intersection :=
  math.geometry.getIntersection2D l other

/-- Modelled from the spec: `getLineSegments(hull)` is defined outside
`src/`. It gives "the primitive's convex hull edges": consecutive points are
joined and the last point is joined to the first; "a primitive with fewer than
2 hull points yields no edges". -/
def getLineSegments (points : List Point) : List LineSegment :=
  match points with
  | [] => []
  | [_] => []
  | p :: q :: rest =>
    (List.zipWith LineSegment.mk (p :: q :: rest) (q :: rest)) ++
      [LineSegment.mk ((q :: rest).getLast (by simp)) p]

/-- A line segment of the plane, through its end points. -/
def segment (x0 y0 x1 y1 : ℚ) : LineSegment :=
  LineSegment.mk ⟨x0, y0, 0⟩ ⟨x1, y1, 0⟩

/-- A point `(x, y)` lies on the segment, in the plane. -/
def LineSegment.contains (l : LineSegment) (x y : ℚ) : Prop :=
  ∃ t : ℚ, 0 ≤ t ∧ t ≤ 1 ∧
    x = l.start_point.x + t * (l.end_point.x - l.start_point.x) ∧
    y = l.start_point.y + t * (l.end_point.y - l.start_point.y)

/-- Modelled from the spec: the batch form `isIntersect2D(segments)` is
defined outside `src/` (only its tests are there). It "is true iff some
unordered pair `(i, j), i ≠ j` intersects", the same segment at two positions
counting as an intersecting pair; "an empty or single-element sequence is
defined as not intersecting". -/
def isIntersect2DVector (lines : List LineSegment) : Bool :=
  (List.range lines.length).any fun i =>
    (List.range lines.length).any fun m =>
      match lines[i]?, lines[m]? with
      | some a, some b => decide (i ≠ m) && isIntersect2D a b
      | _, _ => false

/-- Modelled from the spec: the batch form `getIntersection2D(segments)` is
defined outside `src/` (only its tests are there). It "returns one point per
intersecting pair found" and "on an empty input it returns an empty
sequence"; the pairs are taken with the first position before the second, and
a result is an ordinary point or the undefined point, never absent. -/
def getIntersection2DVector (lines : List LineSegment) : List Intersection :=
  (List.range lines.length).flatMap fun i =>
    (List.range lines.length).filterMap fun m =>
      match lines[i]?, lines[m]? with
      | some a, some b =>
        if i < m then
          match getIntersection2D a b with
          | Intersection.absent => none
          | r => some r
        else none
      | _, _ => none

end math.geometry

/-! ## The entity table of the scenario interpreter (`openscenario_interpreter`) -/

namespace openscenario_interpreter

/-- The type `EntityRef`, the name of an entity. -/
abbrev EntityRef := String

/-- What `Entities::flatten` asks of an `Object` of the table: whether it is a
`ScenarioObject`, an `EntitySelection`, or of another type (with the name of
that type). -/
inductive Object where
  | ScenarioObject : Object
  | EntitySelection : Object
  | other (type_name : String) : Object
deriving DecidableEq

/-- The errors `Entities::flatten` throws. -/
inductive FlattenError where
  | undeclared (entity_ref : EntityRef) : FlattenError
  | unsupported (type_name : String) : FlattenError
deriving DecidableEq

/-- The class `Entities`: the table `entities` from names to objects. -/
structure Entities where
  entities : List (String × Object)

/-- The lookup `entities.find(key)`: the entry of the table with that key. -/
def Entities.find (e : Entities) (key : String) : Option (String × Object) :=
  e.entities.find? (fun entry => entry.1 == key)

/-- The loop of `Entities::flatten` on the list `entity_refs`, split at the
iterator into the references before it and those from it on. Each unit of
`fuel` pays for one test of the loop condition; the result is `none` when the
fuel runs out before the loop ends. -/
def Entities.flattenLoop (e : Entities) (entity_ref : EntityRef) :
    Nat → List EntityRef → List EntityRef → Option (Except FlattenError (List EntityRef))
  | 0, _, _ => none
  | _ + 1, before, [] => some (Except.ok before)
  | fuel + 1, before, current :: after =>
    match e.find current with
    | none => some (Except.error (FlattenError.undeclared entity_ref))
    | some (key, Object.ScenarioObject) =>
      e.flattenLoop entity_ref fuel (before ++ [current]) (after ++ [key])
    | some (_, Object.EntitySelection) => e.flattenLoop entity_ref fuel before after
    | some (_, Object.other type_name) =>
      some (Except.error (FlattenError.unsupported type_name))

/-- `Entities::flatten`, run with a bound on the number of loop tests. -/
def Entities.flatten (e : Entities) (entity_ref : EntityRef) (fuel : Nat) :
    Option (Except FlattenError (List EntityRef)) :=
  e.flattenLoop entity_ref fuel [] [entity_ref]

/-- A table that declares the scenario object `ego` and nothing else. -/
def egoEntities : Entities := { entities := [("ego", Object.ScenarioObject)] }

end openscenario_interpreter

/-! ## The occupancy grid (`simple_sensor_simulator`) -/

namespace simple_sensor_simulator

open geometry_msgs math.geometry

namespace primitives

/-- The class `primitives::Primitive`, of which the grid only uses the planar
convex hull, in world coordinates. -/
structure Primitive where
  get2DConvexHull : List Point

end primitives

/-- The class `Grid`: the constant members `resolution`, `height`, `width`,
`occupied_cost` and `invisible_cost`, the origin pose and the cost array. -/
structure Grid where
  resolution : ℚ
  height : Nat
  width : Nat
  occupied_cost : Int
  invisible_cost : Int
  origin_ : Pose
  values_ : List Int
deriving DecidableEq

/-- A value-initialised `geometry_msgs::msg::Pose`: zero position and the
identity orientation. -/
def defaultPose : Pose :=
  { position := { x := 0, y := 0, z := 0 }
    orientation := { x := 0, y := 0, z := 0, w := 1 } }

/-- The constructor `Grid::Grid`: the cost array is value-initialised with
`height * width` entries. -/
def Grid.new (resolution : ℚ) (height width : Nat) (occupied_cost invisible_cost : Int) :
    Grid :=
  { resolution := resolution
    height := height
    width := width
    occupied_cost := occupied_cost
    invisible_cost := invisible_cost
    origin_ := defaultPose
    values_ := List.replicate (height * width) 0 }

/-- `Grid::getDiagonalLength`. -/
def Grid.getDiagonalLength (g : Grid) : ℚ :=
  hypot (g.width : ℚ) (g.height : ℚ) * g.resolution

/-- `Grid::transformToGrid` on a point. -/
def Grid.transformToGrid (g : Grid) (world_point : Point) : Point :=
  let conj := quaternion_operation.conjugate g.origin_.orientation
  let rot := quaternion_operation.getRotationMatrix conj
  let p : Eigen.Vector3d := ⟨world_point.x, world_point.y, world_point.z⟩
  let q : Eigen.Vector3d := ⟨g.origin_.position.x, g.origin_.position.y, g.origin_.position.z⟩
  let p := (rot.mulVec p).sub q
  { x := p.x, y := p.y, z := p.z }

/-- `Grid::transformToGrid` on a line segment. -/
def Grid.transformToGridLine (g : Grid) (line : LineSegment) : LineSegment :=
  LineSegment.mk (g.transformToGrid line.start_point) (g.transformToGrid line.end_point)

/-- `Grid::transformToWorld`. -/
def Grid.transformToWorld (g : Grid) (grid_point : Point) : Point :=
  let rot := quaternion_operation.getRotationMatrix g.origin_.orientation
  let p : Eigen.Vector3d := ⟨grid_point.x, grid_point.y, grid_point.z⟩
  let q : Eigen.Vector3d := ⟨g.origin_.position.x, g.origin_.position.y, g.origin_.position.z⟩
  let p := (rot.mulVec p).add q
  { x := p.x, y := p.y, z := p.z }

/-- `Grid::transformToPixel` on a point, each operation in `double`. -/
def Grid.transformToPixel (g : Grid) (grid_point : Point) : Point :=
  { x := binary64.div
      (binary64.add grid_point.x
        (binary64.mul (binary64.mul (g.height : ℚ) g.resolution) (1 / 2))) g.resolution
    y := binary64.div
      (binary64.add grid_point.y
        (binary64.mul (binary64.mul (g.width : ℚ) g.resolution) (1 / 2))) g.resolution
    z := 0 }

/-- `Grid::transformToPixel` on a line segment. -/
def Grid.transformToPixelLine (g : Grid) (line : LineSegment) : LineSegment :=
  LineSegment.mk (g.transformToPixel line.start_point) (g.transformToPixel line.end_point)

/-- `Grid::getInvisibleRay` on one point of the hull. -/
def Grid.getInvisibleRay (g : Grid) (point_on_polygon : Point) : Option LineSegment :=
  LineSegment.fromVector point_on_polygon
    (LineSegment.mk g.origin_.position point_on_polygon).get2DVector g.getDiagonalLength

/-- `Grid::getInvisibleRay` on the points of the hull: one ray per point. -/
def Grid.getInvisibleRays (g : Grid) : List Point → Option (List LineSegment)
  | [] => some []
  | point :: points =>
    match g.getInvisibleRay point, g.getInvisibleRays points with
    | some ray, some ret => some (ray :: ret)
    | _, _ => none

/-- `Grid::getRayToGridCorner`. -/
def Grid.getRayToGridCorner (g : Grid) : List LineSegment :=
  let left_up := g.transformToWorld
    { x := (g.width : ℚ) * g.resolution * (1 / 2)
      y := (g.height : ℚ) * g.resolution * (1 / 2), z := 0 }
  let left_down := g.transformToWorld
    { x := (g.width : ℚ) * g.resolution * (1 / 2)
      y := -(g.height : ℚ) * g.resolution * (1 / 2), z := 0 }
  let right_up := g.transformToWorld
    { x := -(g.width : ℚ) * g.resolution * (1 / 2)
      y := (g.height : ℚ) * g.resolution * (1 / 2), z := 0 }
  let right_down := g.transformToWorld
    { x := -(g.width : ℚ) * g.resolution * (1 / 2)
      y := -(g.height : ℚ) * g.resolution * (1 / 2), z := 0 }
  [ LineSegment.mk g.origin_.position left_up
  , LineSegment.mk g.origin_.position left_down
  , LineSegment.mk g.origin_.position right_down
  , LineSegment.mk g.origin_.position right_up ]

/-- `Grid::getData`. -/
def Grid.getData (g : Grid) : List Int := g.values_

/-- `Grid::fillByRowCol`: the bounds-checked setter, with its `bool` result. -/
def Grid.fillByRowCol (g : Grid) (row col : Nat) (data : Int) : Grid × Bool :=
  if row ≥ g.width ∨ col ≥ g.height then (g, false)
  else ({ g with values_ := g.values_.set (g.width * col + row) data }, true)

/-- `Grid::reset`. -/
def Grid.reset (g : Grid) (origin : Pose) : Grid :=
  { g with origin_ := origin, values_ := List.replicate g.values_.length 0 }

/-- Conversion of an `int` argument to a `size_t` parameter. -/
def toSizeT (i : Int) : Nat := (i % (2 : Int) ^ 64).toNat

/-- The integers `lo, lo + 1, ..., hi` visited by
`for (int i = lo; i <= hi; i++)`. -/
def intRange (lo hi : Int) : List Int :=
  (List.range (hi + 1 - lo).toNat).map (fun (k : Nat) => lo + (k : Int))

/-- The indices `lo, lo + 1, ..., hi` visited by
`for (auto i = lo; i <= hi; ++i)`. -/
def natRange (lo hi : Nat) : List Nat :=
  (List.range (hi + 1 - lo)).map (fun (k : Nat) => lo + k)

/-- Lexicographic order on cells, the `operator<` of `std::pair`. -/
def cellLt (a b : Nat × Nat) : Bool :=
  decide (a.1 < b.1) || (decide (a.1 = b.1) && decide (a.2 < b.2))

/-- Insertion of a cell into a sorted list without repetition. -/
def insertCell (a : Nat × Nat) : List (Nat × Nat) → List (Nat × Nat)
  | [] => [a]
  | b :: rest =>
    if cellLt a b then a :: b :: rest
    else if a = b then b :: rest
    else b :: insertCell a rest

/-- The helper `sortAndUnique`: `std::sort` followed by `std::unique`. -/
def sortAndUnique (data : List (Nat × Nat)) : List (Nat × Nat) :=
  data.foldr insertCell []

/-- The statement `if (fillByRowCol(row, col, data)) ret.emplace_back(row, col);`
of `fillByIntersection`, on the pair of the grid and `ret`. -/
def Grid.fillAndRecord (s : Grid × List (Nat × Nat)) (row col : Int) (data : Int) :
    Grid × List (Nat × Nat) :=
  let r := s.1.fillByRowCol (toSizeT row) (toSizeT col) data
  if r.2 then (r.1, s.2 ++ [(toSizeT row, toSizeT col)]) else (r.1, s.2)

/-- Body of the loop over rows of `Grid::fillByIntersection`. -/
def Grid.rowPassBody (g : Grid) (line_segment_pixel : LineSegment) (start_row end_row : Int)
    (data : Int) (s : Grid × List (Nat × Nat)) (row : Int) : Grid × List (Nat × Nat) :=
  if 0 ≤ row ∧ row < (g.width : Int) then
    let col : Int :=
      ⌊binary64.add (binary64.mul line_segment_pixel.getSlope (row : ℚ))
        line_segment_pixel.getIntercept⌋
    if 0 ≤ col ∧ col < (g.height : Int) then
      let s1 := Grid.fillAndRecord s row col data
      if row ≠ max start_row end_row then Grid.fillAndRecord s1 (row - 1) col data else s1
    else s
  else s

/-- Body of the loop over columns of `Grid::fillByIntersection`. -/
def Grid.colPassBody (g : Grid) (line_segment_pixel : LineSegment) (start_col end_col : Int)
    (data : Int) (s : Grid × List (Nat × Nat)) (col : Int) : Grid × List (Nat × Nat) :=
  if 0 ≤ col ∧ col < (g.height : Int) then
    let row : Int :=
      ⌊binary64.div (binary64.sub (col : ℚ) line_segment_pixel.getIntercept)
        line_segment_pixel.getSlope⌋
    if 0 ≤ row ∧ row < (g.width : Int) then
      let s1 := Grid.fillAndRecord s row col data
      if col ≠ max start_col end_col then Grid.fillAndRecord s1 row (col - 1) data else s1
    else s
  else s

/-- `Grid::fillByIntersection` on one line segment: the new grid and the
returned cells. -/
def Grid.fillByIntersection (g : Grid) (line_segment : LineSegment) (data : Int) :
    Grid × List (Nat × Nat) :=
  let line_segment_pixel := g.transformToPixelLine (g.transformToGridLine line_segment)
  let start_row : Int := ⌊line_segment_pixel.start_point.x⌋
  let start_col : Int := ⌊line_segment_pixel.start_point.y⌋
  let end_row : Int := ⌊line_segment_pixel.end_point.x⌋
  let end_col : Int := ⌊line_segment_pixel.end_point.y⌋
  if start_row = end_row then
    let s := (intRange start_col end_col).foldl
      (fun s col => Grid.fillAndRecord s start_row col data) (g, [])
    (s.1, sortAndUnique s.2)
  else if start_col = end_col then
    let s := (intRange start_row end_row).foldl
      (fun s row => Grid.fillAndRecord s row start_col data) (g, [])
    (s.1, sortAndUnique s.2)
  else
    let s1 := (intRange (min start_row end_row + 1) (max start_row end_row)).foldl
      (g.rowPassBody line_segment_pixel start_row end_row data) (g, [])
    let s2 := (intRange (min start_col end_col + 1) (max start_col end_col)).foldl
      (g.colPassBody line_segment_pixel start_col end_col data) s1
    (s2.1, sortAndUnique s2.2)

/-- `Grid::fillByIntersection` on a list of line segments: the returned lists
are appended one after the other. -/
def Grid.fillByIntersections (g : Grid) (line_segments : List LineSegment) (data : Int) :
    Grid × List (Nat × Nat) :=
  line_segments.foldl
    (fun s line =>
      let r := s.1.fillByIntersection line data
      (r.1, s.2 ++ r.2))
    (g, [])

/-- The statement `table[index].emplace_back(value)` on a vector of vectors;
an index past the end is undefined behaviour. -/
def pushAt (table : List (List Nat)) (index value : Nat) : Option (List (List Nat)) :=
  if index < table.length then some (table.set index (table.getD index [] ++ [value]))
  else none

/-- The smallest element, `*std::min_element`. -/
def minElement (l : List Nat) : Nat := l.foldl min (l.headD 0)

/-- The largest element, `*std::max_element`. -/
def maxElement (l : List Nat) : Nat := l.foldl max (l.headD 0)

/-- Body of the loop over rows of `Grid::fillInside`. -/
def Grid.fillRowSpan (data : Int) (group_by_row : List (List Nat)) (g : Grid) (row : Nat) :
    Grid :=
  let cols := group_by_row.getD row []
  if cols.length > 1 then
    (natRange (minElement cols) (maxElement cols)).foldl
      (fun g col => (g.fillByRowCol row col data).1) g
  else g

/-- Body of the loop over columns of `Grid::fillInside`. -/
def Grid.fillColSpan (data : Int) (group_by_col : List (List Nat)) (g : Grid) (col : Nat) :
    Grid :=
  let rows := group_by_col.getD col []
  if rows.length > 1 then
    (natRange (minElement rows) (maxElement rows)).foldl
      (fun g row => (g.fillByRowCol row col data).1) g
  else g

/-- The table `group_by_row` of `Grid::fillInside`: `height` lists, the columns
of the cells of each row. -/
def Grid.groupByRow (g : Grid) (row_and_cols : List (Nat × Nat)) : Option (List (List Nat)) :=
  row_and_cols.foldlM (fun table rc => pushAt table rc.1 rc.2) (List.replicate g.height [])

/-- The table `group_by_col` of `Grid::fillInside`: `width` lists, the rows
of the cells of each column. -/
def Grid.groupByCol (g : Grid) (row_and_cols : List (Nat × Nat)) : Option (List (List Nat)) :=
  row_and_cols.foldlM (fun table rc => pushAt table rc.2 rc.1) (List.replicate g.width [])

/-- `Grid::fillInside`. -/
def Grid.fillInside (g : Grid) (row_and_cols : List (Nat × Nat)) (data : Int) : Option Grid :=
  match g.groupByRow row_and_cols with
  | none => none
  | some group_by_row =>
    let g1 := (List.range g.height).foldl (Grid.fillRowSpan data group_by_row) g
    match g.groupByCol row_and_cols with
    | none => none
    | some group_by_col =>
      some ((List.range g.width).foldl (Grid.fillColSpan data group_by_col) g1)

/-- The rays of `Grid::addPrimitive` that continue one ray to a grid corner
behind each hull edge it meets. A crossing with not-a-number coordinates has
no pixel, which is the result `none`. -/
def Grid.raysBehind (g : Grid) (ray : LineSegment) :
    List LineSegment → Option (List LineSegment)
  | [] => some []
  | line_segment :: rest =>
    match ray.getIntersection2D line_segment with
    | Intersection.absent => g.raysBehind ray rest
    | Intersection.undefined => none
    | Intersection.point p =>
      match LineSegment.fromVector p ray.get2DVector g.getDiagonalLength,
        g.raysBehind ray rest with
      | some r, some ret => some (r :: ret)
      | _, _ => none

/-- The list `rays_to_grid_corner` of `Grid::addPrimitive`. -/
def Grid.raysToGridCorner (g : Grid) (line_segments_on_hull : List LineSegment) :
    List LineSegment → Option (List LineSegment)
  | [] => some []
  | ray :: rays =>
    match g.raysBehind ray line_segments_on_hull, g.raysToGridCorner line_segments_on_hull rays with
    | some r, some ret => some (r ++ ret)
    | _, _ => none

/-- `Grid::addPrimitive`. -/
def Grid.addPrimitive (g : Grid) (primitive : primitives.Primitive) : Option Grid :=
  let hull := primitive.get2DConvexHull
  let line_segments_on_hull := getLineSegments hull
  match g.raysToGridCorner line_segments_on_hull g.getRayToGridCorner with
  | none => none
  | some rays_to_grid_corner =>
    match g.getInvisibleRays hull with
    | none => none
    | some invisible_rays =>
      let invisible_edges := line_segments_on_hull ++ invisible_rays ++ rays_to_grid_corner
      let r1 := g.fillByIntersections invisible_edges g.invisible_cost
      match r1.1.fillInside r1.2 g.invisible_cost with
      | none => none
      | some g2 =>
        let r3 := g2.fillByIntersections line_segments_on_hull g.occupied_cost
        r3.1.fillInside r3.2 g.occupied_cost

/-! ### The cells an operation writes

The sequence of cells handed to the setter by `fillByIntersection` and by
`fillInside` does not depend on the contents of the cost array; the
definitions below list those cells, and the theorems relate them to the
operations. -/

/-- Position of the cell `(row, col)` in the cost array, `width * col + row`. -/
def Grid.cellIndex (g : Grid) (rc : Nat × Nat) : Nat := g.width * rc.2 + rc.1

/-- The cells the setter `fillByRowCol` accepts. -/
def Grid.accepts (g : Grid) (rc : Nat × Nat) : Bool :=
  decide (rc.1 < g.width) && decide (rc.2 < g.height)

/-- The value of the cell `(row, col)`, when the array has it. -/
def Grid.cell (g : Grid) (row col : Nat) : Option Int := g.values_[g.width * col + row]?

/-- Successive calls of the setter `fillByRowCol` on a list of cells. -/
def Grid.fillCells (g : Grid) (cells : List (Nat × Nat)) (data : Int) : Grid :=
  cells.foldl (fun g rc => (g.fillByRowCol rc.1 rc.2 data).1) g

/-- Conversion of a pair of `int` indices to a pair of `size_t` indices. -/
def toCell (rc : Int × Int) : Nat × Nat := (toSizeT rc.1, toSizeT rc.2)

/-- The cells one step of the loop over rows of `fillByIntersection` hands to
the setter. -/
def Grid.rowPassAttempts (g : Grid) (line_segment_pixel : LineSegment) (start_row end_row : Int)
    (row : Int) : List (Int × Int) :=
  if 0 ≤ row ∧ row < (g.width : Int) then
    let col : Int :=
      ⌊binary64.add (binary64.mul line_segment_pixel.getSlope (row : ℚ))
        line_segment_pixel.getIntercept⌋
    if 0 ≤ col ∧ col < (g.height : Int) then
      if row ≠ max start_row end_row then [(row, col), (row - 1, col)] else [(row, col)]
    else []
  else []

/-- The cells one step of the loop over columns of `fillByIntersection` hands
to the setter. -/
def Grid.colPassAttempts (g : Grid) (line_segment_pixel : LineSegment) (start_col end_col : Int)
    (col : Int) : List (Int × Int) :=
  if 0 ≤ col ∧ col < (g.height : Int) then
    let row : Int :=
      ⌊binary64.div (binary64.sub (col : ℚ) line_segment_pixel.getIntercept)
        line_segment_pixel.getSlope⌋
    if 0 ≤ row ∧ row < (g.width : Int) then
      if col ≠ max start_col end_col then [(row, col), (row, col - 1)] else [(row, col)]
    else []
  else []

/-- The cells `fillByIntersection` hands to the setter for one line segment,
in order. -/
def Grid.attempts (g : Grid) (line_segment : LineSegment) : List (Int × Int) :=
  let line_segment_pixel := g.transformToPixelLine (g.transformToGridLine line_segment)
  let start_row : Int := ⌊line_segment_pixel.start_point.x⌋
  let start_col : Int := ⌊line_segment_pixel.start_point.y⌋
  let end_row : Int := ⌊line_segment_pixel.end_point.x⌋
  let end_col : Int := ⌊line_segment_pixel.end_point.y⌋
  if start_row = end_row then (intRange start_col end_col).map (fun col => (start_row, col))
  else if start_col = end_col then (intRange start_row end_row).map (fun row => (row, start_col))
  else
    (intRange (min start_row end_row + 1) (max start_row end_row)).flatMap
        (g.rowPassAttempts line_segment_pixel start_row end_row) ++
      (intRange (min start_col end_col + 1) (max start_col end_col)).flatMap
        (g.colPassAttempts line_segment_pixel start_col end_col)

/-- The cells `fillByIntersection` hands to the setter for a list of line
segments, in order. -/
def Grid.attemptsAll (g : Grid) (line_segments : List LineSegment) : List (Int × Int) :=
  line_segments.flatMap g.attempts

/-- The cells one step of the loop over rows of `fillInside` hands to the
setter. -/
def rowSpanCells (group_by_row : List (List Nat)) (row : Nat) : List (Nat × Nat) :=
  let cols := group_by_row.getD row []
  if cols.length > 1 then
    (natRange (minElement cols) (maxElement cols)).map (fun col => (row, col))
  else []

/-- The cells one step of the loop over columns of `fillInside` hands to the
setter. -/
def colSpanCells (group_by_col : List (List Nat)) (col : Nat) : List (Nat × Nat) :=
  let rows := group_by_col.getD col []
  if rows.length > 1 then
    (natRange (minElement rows) (maxElement rows)).map (fun row => (row, col))
  else []

/-- The cells `fillInside` hands to the setter, in order; `none` when one of
its tables is indexed past its end. -/
def Grid.spanCells (g : Grid) (row_and_cols : List (Nat × Nat)) : Option (List (Nat × Nat)) :=
  match g.groupByRow row_and_cols, g.groupByCol row_and_cols with
  | some group_by_row, some group_by_col =>
    some ((List.range g.height).flatMap (rowSpanCells group_by_row) ++
      (List.range g.width).flatMap (colSpanCells group_by_col))
  | _, _ => none

/-- A pose turned by half a turn about the vertical axis (a unit quaternion),
one unit away from the world origin. -/
def halfTurnPose : Pose :=
  { position := { x := 1, y := 0, z := 0 }
    orientation := { x := 0, y := 0, z := 1, w := 0 } }

/-- A grid of four by four cells of size one, reset to `halfTurnPose`. -/
def halfTurnGrid : Grid := (Grid.new 1 4 4 100 50).reset halfTurnPose

/-- A grid of four by four cells of size one, as constructed. -/
def squareGrid : Grid := Grid.new 1 4 4 100 50

/-- The position of the origin, turned by the orientation of the origin. -/
def originTurned (g : Grid) : Eigen.Vector3d :=
  (quaternion_operation.getRotationMatrix g.origin_.orientation).mulVec
    ⟨g.origin_.position.x, g.origin_.position.y, g.origin_.position.z⟩

/-- Two grids with the same constant members and the same origin: they differ
at most in the contents of the cost array. -/
def Grid.sameFrame (g g' : Grid) : Prop :=
  g'.resolution = g.resolution ∧ g'.height = g.height ∧ g'.width = g.width ∧
    g'.occupied_cost = g.occupied_cost ∧ g'.invisible_cost = g.invisible_cost ∧
    g'.origin_ = g.origin_

/-- The line segment in pixel space, as `fillByIntersection` computes it. -/
def Grid.pixelLine (g : Grid) (line_segment : LineSegment) : LineSegment :=
  g.transformToPixelLine (g.transformToGridLine line_segment)

/-- The local `start_row` of `fillByIntersection`. -/
def Grid.startRow (g : Grid) (line_segment : LineSegment) : Int :=
  ⌊(g.pixelLine line_segment).start_point.x⌋

/-- The local `start_col` of `fillByIntersection`. -/
def Grid.startCol (g : Grid) (line_segment : LineSegment) : Int :=
  ⌊(g.pixelLine line_segment).start_point.y⌋

/-- The local `end_row` of `fillByIntersection`. -/
def Grid.endRow (g : Grid) (line_segment : LineSegment) : Int :=
  ⌊(g.pixelLine line_segment).end_point.x⌋

/-- The local `end_col` of `fillByIntersection`. -/
def Grid.endCol (g : Grid) (line_segment : LineSegment) : Int :=
  ⌊(g.pixelLine line_segment).end_point.y⌋

/-- The column `fillByIntersection` computes in its loop over rows: the floor
of `slope * row + intercept`, evaluated in `double`. -/
def Grid.colAt (g : Grid) (line_segment : LineSegment) (row : Int) : Int :=
  ⌊binary64.add (binary64.mul (g.pixelLine line_segment).getSlope (row : ℚ))
    (g.pixelLine line_segment).getIntercept⌋

/-- The row `fillByIntersection` computes in its loop over columns: the floor
of `(col - intercept) / slope`, evaluated in `double`. -/
def Grid.rowAt (g : Grid) (line_segment : LineSegment) (col : Int) : Int :=
  ⌊binary64.div (binary64.sub (col : ℚ) (g.pixelLine line_segment).getIntercept)
    (g.pixelLine line_segment).getSlope⌋

/-- The column of the point of the straight line through the pixel segment at
the row line `row`. -/
def Grid.lineColAt (g : Grid) (line_segment : LineSegment) (row : Int) : Int :=
  ⌊(g.pixelLine line_segment).lineSlope * (row : ℚ) + (g.pixelLine line_segment).lineIntercept⌋

/-- The row of the point of the straight line through the pixel segment at the
column line `col`. -/
def Grid.lineRowAt (g : Grid) (line_segment : LineSegment) (col : Int) : Int :=
  ⌊((col : ℚ) - (g.pixelLine line_segment).lineIntercept) /
    (g.pixelLine line_segment).lineSlope⌋

/-- At every row line and column line its loops visit, `fillByIntersection`
computes the column, or the row, of the point of the straight line: rounding
moves no crossing into another cell. -/
def Grid.floorsAgree (g : Grid) (line_segment : LineSegment) : Prop :=
  (∀ r : Int, min (g.startRow line_segment) (g.endRow line_segment) < r →
    r ≤ max (g.startRow line_segment) (g.endRow line_segment) →
    g.colAt line_segment r = g.lineColAt line_segment r) ∧
  (∀ c : Int, min (g.startCol line_segment) (g.endCol line_segment) < c →
    c ≤ max (g.startCol line_segment) (g.endCol line_segment) →
    g.rowAt line_segment c = g.lineRowAt line_segment c)

/-- The cells the occupied pass of `addPrimitive` writes: the cells returned
for the edges of the hull, and the accepted cells of their span fill. -/
def Grid.occupiedPassCells (g : Grid) (primitive : primitives.Primitive) : List (Nat × Nat) :=
  (g.fillByIntersections (getLineSegments primitive.get2DConvexHull) g.occupied_cost).2 ++
    ((g.spanCells
      (g.fillByIntersections (getLineSegments primitive.get2DConvexHull)
        g.occupied_cost).2).getD []).filter g.accepts

/-- A pose turned by half a turn about the vertical axis, ten units away from
the world origin. -/
def farPose : Pose :=
  { position := { x := 10, y := 0, z := 0 }
    orientation := { x := 0, y := 0, z := 1, w := 0 } }

/-- A grid of four by four cells of size one, reset to `farPose`. -/
def farGrid : Grid := (Grid.new 1 4 4 100 50).reset farPose

/-- A triangle whose pixel rows are all negative on `farGrid`. -/
def outsideTriangle : primitives.Primitive :=
  { get2DConvexHull := [⟨-13 / 2, 0, 0⟩, ⟨-15 / 2, 1 / 2, 0⟩, ⟨-15 / 2, -1 / 2, 0⟩] }

/-- A triangle inside `squareGrid`. -/
def insideTriangle : primitives.Primitive :=
  { get2DConvexHull := [⟨1 / 4, 1 / 4, 0⟩, ⟨5 / 4, 1 / 4, 0⟩, ⟨1 / 4, 5 / 4, 0⟩] }

/-- A grid of one row of cells along `x` by two along `y`: `height = 1`,
`width = 2`. -/
def wideGrid : Grid := Grid.new 1 1 2 100 50

/-- A grid with `height = 2` and `width = 1`. -/
def tallGrid : Grid := Grid.new 1 2 1 100 50

/-- The grid `squareGrid` after `addPrimitive` on `insideTriangle`. -/
def insideTriangleGrid : Grid :=
  { squareGrid with values_ := [0, 0, 0, 0, 0, 0, 0, 0, 0, 0, 100, 100, 0, 0, 100, 50] }

/-- A primitive whose hull is the single point `(1/2, 0)`. -/
def singlePoint : primitives.Primitive :=
  { get2DConvexHull := [⟨1 / 2, 0, 0⟩] }

/-- The grid `squareGrid` after `addPrimitive` on `singlePoint`. -/
def singlePointGrid : Grid :=
  { squareGrid with values_ := [0, 0, 0, 0, 0, 0, 0, 0, 0, 0, 50, 50, 0, 0, 0, 0] }

/-- The states of a grid reachable from its construction by calls of `reset`
and of `addPrimitive`. -/
inductive Grid.Reachable : Grid → Prop where
  | construct (resolution : ℚ) (height width : Nat) (occupied_cost invisible_cost : Int) :
      Grid.Reachable (Grid.new resolution height width occupied_cost invisible_cost)
  | reset (g : Grid) (origin : Pose) : Grid.Reachable g → Grid.Reachable (g.reset origin)
  | addPrimitive (g g' : Grid) (primitive : primitives.Primitive) :
      Grid.Reachable g → g.addPrimitive primitive = some g' → Grid.Reachable g'

/-- The list `fillByIntersection` returns for a list of line segments: for
each segment the accepted cells, sorted and without repetition. -/
def Grid.returnedCells (g : Grid) (line_segments : List LineSegment) : List (Nat × Nat) :=
  line_segments.flatMap
    (fun line => sortAndUnique (((g.attempts line).map toCell).filter g.accepts))

/-- The cells `addPrimitive` hands to the setter: first those of the shadow
pass, written with `invisible_cost`, then those of the occupied pass, written
with `occupied_cost`; `none` where `addPrimitive` has no result. -/
def Grid.addPrimitiveCells (g : Grid) (primitive : primitives.Primitive) :
    Option (List (Nat × Nat) × List (Nat × Nat)) :=
  match g.raysToGridCorner (getLineSegments primitive.get2DConvexHull) g.getRayToGridCorner,
    g.getInvisibleRays primitive.get2DConvexHull with
  | some rays_to_grid_corner, some invisible_rays =>
    match g.spanCells (g.returnedCells (getLineSegments primitive.get2DConvexHull ++
        invisible_rays ++ rays_to_grid_corner)),
      g.spanCells (g.returnedCells (getLineSegments primitive.get2DConvexHull)) with
    | some shadow_span, some occupied_span =>
      some ((g.attemptsAll (getLineSegments primitive.get2DConvexHull ++ invisible_rays ++
          rays_to_grid_corner)).map toCell ++ shadow_span,
        (g.attemptsAll (getLineSegments primitive.get2DConvexHull)).map toCell ++ occupied_span)
    | _, _ => none
  | _, _ => none

/-- The end points of the rays of `getRayToGridCorner`, mapped to pixel space
through `transformToGrid` and `transformToPixel`. -/
def Grid.cornerPixels (g : Grid) : List Point :=
  g.getRayToGridCorner.map (fun ray => g.transformToPixel (g.transformToGrid ray.end_point))


/-- Two cells differ by at most one in row and by at most one in column. -/
def adjacent8 (a b : Nat × Nat) : Prop :=
  a.1 ≤ b.1 + 1 ∧ b.1 ≤ a.1 + 1 ∧ a.2 ≤ b.2 + 1 ∧ b.2 ≤ a.2 + 1

/-- The cells `a` and `b` are joined by a chain of cells of the list `cells` in
which consecutive cells differ by at most one in row and in column. -/
def joined8 (cells : List (Nat × Nat)) (a b : Nat × Nat) : Prop :=
  ∃ chain : List (Nat × Nat), chain.head? = some a ∧ chain.getLast? = some b ∧
    (∀ c ∈ chain, c ∈ cells) ∧ chain.Chain' adjacent8

/-- A segment of the grid frame of `wideGrid` whose pixels `(1/2, 1/2)` and
`(3/2, 1/2)` lie in the cells `(0, 0)` and `(1, 0)`. -/
def wideSegment : LineSegment := segment 0 (-1 / 2) 1 (-1 / 2)

/-- A segment of the grid frame of `squareGrid` from the pixel `(1/2, 1/2)` to
the pixel `(7/2, 5/2)`. -/
def slantedSegment : LineSegment := segment (-3 / 2) (-3 / 2) (3 / 2) (1 / 2)

/-- The pixel segment has a point in the rectangle `[0, width) × [0, height)`. -/
def Grid.meetsGrid (g : Grid) (line_segment : LineSegment) : Prop :=
  ∃ x y : ℚ, (g.pixelLine line_segment).contains x y ∧
    0 ≤ x ∧ x < (g.width : ℚ) ∧ 0 ≤ y ∧ y < (g.height : ℚ)

/-- The segment from `(1.2, -0.8)` to `(0, 0)`, the coordinates being the
`double` values of these decimals. -/
def gapSegment : LineSegment := segment (binary64.round (6 / 5)) (binary64.round (-4 / 5)) 0 0

/-- The segment from `(3.5, -1.4)` to `(2, 1)`, the coordinates being the
`double` values of these decimals. -/
def straySegment : LineSegment := segment (7 / 2) (binary64.round (-7 / 5)) 2 1

/-- Two cells with `int` indices differ by at most one in row and by at most
one in column. -/
def adjacentInt (a b : Int × Int) : Prop :=
  a.1 ≤ b.1 + 1 ∧ b.1 ≤ a.1 + 1 ∧ a.2 ≤ b.2 + 1 ∧ b.2 ≤ a.2 + 1

/-- The cells of the two passes of `fillByIntersection` when no guard refuses
a line: for the rows `r` with `m < r ≤ M` the cell `(r, C r)` and, when `r` is
not `M`, the cell `(r - 1, C r)`; for the columns `c` with `n < c ≤ N` the
cell `(Rho c, c)` and, when `c` is not `N`, the cell `(Rho c, c - 1)`. -/
def passCells (C Rho : Int → Int) (m M n N : Int) (a : Int × Int) : Prop :=
  (∃ r : Int, (m < r ∧ r ≤ M) ∧ (a = (r, C r) ∨ (r ≠ M ∧ a = (r - 1, C r)))) ∨
  (∃ c : Int, (n < c ∧ c ≤ N) ∧ (a = (Rho c, c) ∨ (c ≠ N ∧ a = (Rho c, c - 1))))

/-- The pixel segment lies entirely inside the rectangle
`[0, width) × [0, height)` of the grid. -/
def Grid.liesInside (g : Grid) (line_segment : LineSegment) : Prop :=
  ∀ x y : ℚ, (g.pixelLine line_segment).contains x y →
    0 ≤ x ∧ x < (g.width : ℚ) ∧ 0 ≤ y ∧ y < (g.height : ℚ)


/-! ## The setter and sequences of writes -/

theorem Grid.sameFrame_refl (g : Grid) : g.sameFrame g :=
  ⟨rfl, rfl, rfl, rfl, rfl, rfl⟩

theorem Grid.sameFrame_trans {g g' g'' : Grid} (h : g.sameFrame g') (h' : g'.sameFrame g'') :
    g.sameFrame g'' := by
  obtain ⟨a1, a2, a3, a4, a5, a6⟩ := h
  obtain ⟨b1, b2, b3, b4, b5, b6⟩ := h'
  exact ⟨b1.trans a1, b2.trans a2, b3.trans a3, b4.trans a4, b5.trans a5, b6.trans a6⟩

theorem Grid.accepts_iff (g : Grid) (rc : Nat × Nat) :
    g.accepts rc = true ↔ rc.1 < g.width ∧ rc.2 < g.height := by
  simp [Grid.accepts]

theorem Grid.accepts_congr {g g' : Grid} (h : g.sameFrame g') : g'.accepts = g.accepts := by
  funext rc
  simp [Grid.accepts, h.2.1, h.2.2.1]

theorem Grid.fillByRowCol_fst (g : Grid) (row col : Nat) (data : Int) :
    (g.fillByRowCol row col data).1 =
      if g.accepts (row, col) then
        { g with values_ := g.values_.set (g.cellIndex (row, col)) data }
      else g := by
  unfold Grid.fillByRowCol Grid.accepts Grid.cellIndex
  by_cases h1 : row < g.width <;> by_cases h2 : col < g.height <;>
    simp [h1, h2, Nat.not_le.mpr, Nat.le_of_not_lt]

theorem Grid.fillByRowCol_snd (g : Grid) (row col : Nat) (data : Int) :
    (g.fillByRowCol row col data).2 = g.accepts (row, col) := by
  unfold Grid.fillByRowCol Grid.accepts
  by_cases h1 : row < g.width <;> by_cases h2 : col < g.height <;>
    simp [h1, h2, Nat.not_le.mpr, Nat.le_of_not_lt]

theorem Grid.fillByRowCol_sameFrame (g : Grid) (row col : Nat) (data : Int) :
    g.sameFrame (g.fillByRowCol row col data).1 := by
  rw [Grid.fillByRowCol_fst]
  split
  · exact ⟨rfl, rfl, rfl, rfl, rfl, rfl⟩
  · exact g.sameFrame_refl

theorem Grid.fillByRowCol_length (g : Grid) (row col : Nat) (data : Int) :
    (g.fillByRowCol row col data).1.values_.length = g.values_.length := by
  rw [Grid.fillByRowCol_fst]
  split
  · simp
  · rfl

theorem Grid.fillByRowCol_get (g : Grid) (row col : Nat) (data : Int) (i : Nat) :
    (g.fillByRowCol row col data).1.values_[i]? =
      if g.accepts (row, col) = true ∧ g.cellIndex (row, col) = i ∧ i < g.values_.length then
        some data
      else g.values_[i]? := by
  rw [Grid.fillByRowCol_fst]
  by_cases ha : g.accepts (row, col) = true
  · simp only [ha, if_true, true_and]
    rw [List.getElem?_set]
    by_cases hi : g.cellIndex (row, col) = i
    · subst hi
      by_cases hl : g.cellIndex (row, col) < g.values_.length
      · simp [hl]
      · simp [hl]
        exact Nat.le_of_not_lt hl
    · simp [hi]
  · simp [ha]

theorem Grid.fillCells_nil (g : Grid) (data : Int) : g.fillCells [] data = g := rfl

theorem Grid.fillCells_cons (g : Grid) (rc : Nat × Nat) (cells : List (Nat × Nat))
    (data : Int) :
    g.fillCells (rc :: cells) data = (g.fillByRowCol rc.1 rc.2 data).1.fillCells cells data :=
  rfl

theorem Grid.fillCells_append (g : Grid) (a b : List (Nat × Nat)) (data : Int) :
    g.fillCells (a ++ b) data = (g.fillCells a data).fillCells b data := by
  simp [Grid.fillCells, List.foldl_append]

theorem Grid.fillCells_sameFrame (g : Grid) (cells : List (Nat × Nat)) (data : Int) :
    g.sameFrame (g.fillCells cells data) := by
  induction cells generalizing g with
  | nil => exact g.sameFrame_refl
  | cons rc cells ih =>
    rw [Grid.fillCells_cons]
    exact Grid.sameFrame_trans (g.fillByRowCol_sameFrame rc.1 rc.2 data) (ih _)

theorem Grid.fillCells_length (g : Grid) (cells : List (Nat × Nat)) (data : Int) :
    (g.fillCells cells data).values_.length = g.values_.length := by
  induction cells generalizing g with
  | nil => rfl
  | cons rc cells ih =>
    rw [Grid.fillCells_cons, ih, Grid.fillByRowCol_length]

theorem Grid.cellIndex_congr {g g' : Grid} (h : g.sameFrame g') : g'.cellIndex = g.cellIndex := by
  funext rc
  simp [Grid.cellIndex, h.2.2.1]

/-- After a sequence of writes of one value, a position holds that value or
what it held before. -/
theorem Grid.fillCells_get_or (g : Grid) (cells : List (Nat × Nat)) (data : Int) (i : Nat) :
    (g.fillCells cells data).values_[i]? = some data ∨
      (g.fillCells cells data).values_[i]? = g.values_[i]? := by
  induction cells generalizing g with
  | nil => exact Or.inr rfl
  | cons rc cells ih =>
    rw [Grid.fillCells_cons]
    rcases ih (g.fillByRowCol rc.1 rc.2 data).1 with h | h
    · exact Or.inl h
    · rw [h, Grid.fillByRowCol_get]
      split
      · exact Or.inl rfl
      · exact Or.inr rfl

/-- A position that no accepted cell of the sequence is stored at keeps its
value. -/
theorem Grid.fillCells_get_of_not_mem (g : Grid) (cells : List (Nat × Nat)) (data : Int)
    (i : Nat) (h : ∀ rc ∈ cells, g.accepts rc = true → g.cellIndex rc ≠ i) :
    (g.fillCells cells data).values_[i]? = g.values_[i]? := by
  induction cells generalizing g with
  | nil => rfl
  | cons rc cells ih =>
    rw [Grid.fillCells_cons]
    have hf := g.fillByRowCol_sameFrame rc.1 rc.2 data
    rw [ih, Grid.fillByRowCol_get]
    · have := h rc (List.mem_cons_self _ _)
      split
      · next hc => exact absurd hc.2.1 (this hc.1)
      · rfl
    · intro rc' hrc' hacc
      rw [Grid.accepts_congr hf] at hacc
      rw [Grid.cellIndex_congr hf]
      exact h rc' (List.mem_cons_of_mem _ hrc') hacc

/-- An accepted cell of the sequence holds the written value afterwards. -/
theorem Grid.fillCells_get_of_mem (g : Grid) (cells : List (Nat × Nat)) (data : Int)
    (rc : Nat × Nat) (hmem : rc ∈ cells) (hacc : g.accepts rc = true)
    (hlen : g.cellIndex rc < g.values_.length) :
    (g.fillCells cells data).values_[g.cellIndex rc]? = some data := by
  induction cells generalizing g with
  | nil => cases hmem
  | cons a cells ih =>
    rw [Grid.fillCells_cons]
    have hf := g.fillByRowCol_sameFrame a.1 a.2 data
    rcases List.mem_cons.mp hmem with rfl | hin
    · rcases Grid.fillCells_get_or (g.fillByRowCol rc.1 rc.2 data).1 cells data
        (g.cellIndex rc) with h | h
      · exact h
      · rw [h, Grid.fillByRowCol_get]
        simp [hacc, hlen]
    · have := ih (g.fillByRowCol a.1 a.2 data).1 hin
        (by rw [Grid.accepts_congr hf]; exact hacc)
        (by rw [Grid.cellIndex_congr hf, Grid.fillByRowCol_length]; exact hlen)
      rw [Grid.cellIndex_congr hf] at this
      exact this

/-- The position of an accepted cell is inside an array of `height * width`
entries. -/
theorem Grid.cellIndex_lt (g : Grid) (rc : Nat × Nat) (hacc : g.accepts rc = true) :
    g.cellIndex rc < g.height * g.width := by
  rw [Grid.accepts_iff] at hacc
  unfold Grid.cellIndex
  calc g.width * rc.2 + rc.1 < g.width * rc.2 + g.width := by omega
    _ = g.width * (rc.2 + 1) := by ring
    _ ≤ g.width * g.height := Nat.mul_le_mul_left _ hacc.2
    _ = g.height * g.width := by ring

/-! ## `fillByIntersection` as a sequence of writes -/

theorem Grid.fillAndRecord_eq (s : Grid × List (Nat × Nat)) (rc : Int × Int) (data : Int) :
    Grid.fillAndRecord s rc.1 rc.2 data =
      ((s.1.fillByRowCol (toCell rc).1 (toCell rc).2 data).1,
        s.2 ++ [toCell rc].filter s.1.accepts) := by
  unfold Grid.fillAndRecord
  simp only [Grid.fillByRowCol_snd, toCell]
  by_cases h : s.1.accepts (toSizeT rc.1, toSizeT rc.2) = true
  · simp [h]
  · simp [h]

theorem Grid.foldl_fillAndRecord (g : Grid) (acc : List (Nat × Nat)) (l : List (Int × Int))
    (data : Int) :
    l.foldl (fun s rc => Grid.fillAndRecord s rc.1 rc.2 data) (g, acc) =
      (g.fillCells (l.map toCell) data, acc ++ (l.map toCell).filter g.accepts) := by
  induction l generalizing g acc with
  | nil => simp [Grid.fillCells]
  | cons rc l ih =>
    rw [List.foldl_cons, Grid.fillAndRecord_eq, ih]
    have hf := g.fillByRowCol_sameFrame (toCell rc).1 (toCell rc).2 data
    simp only [Grid.accepts_congr hf, List.map_cons, Grid.fillCells_cons, List.filter_cons,
      List.filter_nil]
    by_cases h : g.accepts (toCell rc) = true
    · simp [h]
    · simp [h]

theorem Grid.rowPassBody_eq (g : Grid) (px : LineSegment) (start_row end_row : Int) (data : Int)
    (s : Grid × List (Nat × Nat)) (row : Int) :
    g.rowPassBody px start_row end_row data s row =
      (g.rowPassAttempts px start_row end_row row).foldl
        (fun s rc => Grid.fillAndRecord s rc.1 rc.2 data) s := by
  unfold Grid.rowPassBody Grid.rowPassAttempts
  by_cases h1 : 0 ≤ row ∧ row < (g.width : Int)
  · simp only [h1, and_self, if_true]
    split
    · split <;> rfl
    · rfl
  · simp only [h1, if_false]
    rfl

theorem Grid.colPassBody_eq (g : Grid) (px : LineSegment) (start_col end_col : Int) (data : Int)
    (s : Grid × List (Nat × Nat)) (col : Int) :
    g.colPassBody px start_col end_col data s col =
      (g.colPassAttempts px start_col end_col col).foldl
        (fun s rc => Grid.fillAndRecord s rc.1 rc.2 data) s := by
  unfold Grid.colPassBody Grid.colPassAttempts
  by_cases h1 : 0 ≤ col ∧ col < (g.height : Int)
  · simp only [h1, and_self, if_true]
    split
    · split <;> rfl
    · rfl
  · simp only [h1, if_false]
    rfl

theorem foldl_flatMap_eq {α β γ : Type} (f : γ → β → γ) (h : α → List β) (l : List α)
    (init : γ) :
    l.foldl (fun s x => (h x).foldl f s) init = (l.flatMap h).foldl f init := by
  induction l generalizing init with
  | nil => rfl
  | cons a l ih => simp [List.flatMap_cons, List.foldl_append, ih]

theorem foldl_map_eq {α β γ : Type} (f : γ → β → γ) (h : α → β) (l : List α) (init : γ) :
    l.foldl (fun s x => f s (h x)) init = (l.map h).foldl f init := by
  induction l generalizing init with
  | nil => rfl
  | cons a l ih => simp [ih]

/-- The operation `fillByIntersection` writes the cells of `attempts` in order
and returns the accepted ones, sorted and without repetition. -/
theorem Grid.fillByIntersection_eq (g : Grid) (line_segment : LineSegment) (data : Int) :
    g.fillByIntersection line_segment data =
      (g.fillCells ((g.attempts line_segment).map toCell) data,
        sortAndUnique (((g.attempts line_segment).map toCell).filter g.accepts)) := by
  unfold Grid.fillByIntersection Grid.attempts
  simp only
  split
  · rw [foldl_map_eq (fun s (rc : Int × Int) => Grid.fillAndRecord s rc.1 rc.2 data)
      (fun col => (_, col)), Grid.foldl_fillAndRecord]
    simp
  · split
    · rw [foldl_map_eq (fun s (rc : Int × Int) => Grid.fillAndRecord s rc.1 rc.2 data)
        (fun row => (row, _)), Grid.foldl_fillAndRecord]
      simp
    · have hr : ∀ px sr er, g.rowPassBody px sr er data = fun s row =>
          (g.rowPassAttempts px sr er row).foldl
            (fun s rc => Grid.fillAndRecord s rc.1 rc.2 data) s := fun px sr er =>
        funext (fun s => funext (fun row => Grid.rowPassBody_eq g px sr er data s row))
      have hc : ∀ px sc ec, g.colPassBody px sc ec data = fun s col =>
          (g.colPassAttempts px sc ec col).foldl
            (fun s rc => Grid.fillAndRecord s rc.1 rc.2 data) s := fun px sc ec =>
        funext (fun s => funext (fun col => Grid.colPassBody_eq g px sc ec data s col))
      rw [hr, hc, foldl_flatMap_eq, foldl_flatMap_eq, ← List.foldl_append,
        Grid.foldl_fillAndRecord]
      simp

theorem Grid.eq_of_sameFrame {g g' : Grid} (h : g.sameFrame g') :
    g' = { g with values_ := g'.values_ } := by
  obtain ⟨h1, h2, h3, h4, h5, h6⟩ := h
  cases g
  cases g'
  simp only at h1 h2 h3 h4 h5 h6
  subst h1 h2 h3 h4 h5 h6
  rfl

theorem Grid.attempts_setValues (g : Grid) (values : List Int) (line_segment : LineSegment) :
    Grid.attempts { g with values_ := values } line_segment = g.attempts line_segment :=
  rfl

/-- The cells handed to the setter depend on the constant members and the
origin only, not on the contents of the cost array. -/
theorem Grid.attempts_congr {g g' : Grid} (h : g.sameFrame g') (line_segment : LineSegment) :
    g'.attempts line_segment = g.attempts line_segment := by
  rw [Grid.eq_of_sameFrame h]
  exact Grid.attempts_setValues g _ line_segment

theorem mem_insertCell (a b : Nat × Nat) (l : List (Nat × Nat)) :
    b ∈ insertCell a l ↔ b = a ∨ b ∈ l := by
  induction l with
  | nil => simp [insertCell]
  | cons c l ih =>
    unfold insertCell
    split
    · simp
    · split
      · next h => subst h; simp
      · simp only [List.mem_cons, ih]
        tauto

/-- The helper `sortAndUnique` keeps exactly the cells of its argument. -/
theorem mem_sortAndUnique (b : Nat × Nat) (l : List (Nat × Nat)) :
    b ∈ sortAndUnique l ↔ b ∈ l := by
  induction l with
  | nil => simp [sortAndUnique]
  | cons a l ih =>
    have : sortAndUnique (a :: l) = insertCell a (sortAndUnique l) := rfl
    rw [this, mem_insertCell, ih, List.mem_cons]

/-- The cells returned by `fillByIntersection` for one line segment. -/
theorem Grid.fillByIntersection_snd (g : Grid) (line_segment : LineSegment) (data : Int)
    (rc : Nat × Nat) :
    rc ∈ (g.fillByIntersection line_segment data).2 ↔
      rc ∈ (g.attempts line_segment).map toCell ∧ g.accepts rc = true := by
  rw [Grid.fillByIntersection_eq]
  simp only [mem_sortAndUnique, List.mem_filter]

theorem Grid.fillByIntersection_sameFrame (g : Grid) (line_segment : LineSegment) (data : Int) :
    g.sameFrame (g.fillByIntersection line_segment data).1 := by
  rw [Grid.fillByIntersection_eq]
  exact g.fillCells_sameFrame _ _

theorem foldl_acc {σ α β : Type} (step : σ → α → σ × List β) (l : List α) (s : σ)
    (acc : List β) :
    l.foldl (fun st x => ((step st.1 x).1, st.2 ++ (step st.1 x).2)) (s, acc) =
      ((l.foldl (fun st x => ((step st.1 x).1, st.2 ++ (step st.1 x).2)) (s, [])).1,
        acc ++ (l.foldl (fun st x => ((step st.1 x).1, st.2 ++ (step st.1 x).2)) (s, [])).2) := by
  induction l generalizing s acc with
  | nil => simp
  | cons x l ih =>
    rw [List.foldl_cons, List.foldl_cons, ih, ih (step s x).1 ([] ++ (step s x).2)]
    simp [List.append_assoc]

theorem Grid.fillByIntersections_nil (g : Grid) (data : Int) :
    g.fillByIntersections [] data = (g, []) := rfl

theorem Grid.fillByIntersections_cons (g : Grid) (line : LineSegment)
    (rest : List LineSegment) (data : Int) :
    g.fillByIntersections (line :: rest) data =
      (((g.fillByIntersection line data).1.fillByIntersections rest data).1,
        (g.fillByIntersection line data).2 ++
          ((g.fillByIntersection line data).1.fillByIntersections rest data).2) := by
  unfold Grid.fillByIntersections
  rw [List.foldl_cons]
  exact foldl_acc (fun (s : Grid) line => s.fillByIntersection line data) rest _ _

theorem Grid.attemptsAll_nil (g : Grid) : g.attemptsAll [] = [] := by
  unfold Grid.attemptsAll
  exact List.flatMap_nil _

theorem Grid.attemptsAll_cons (g : Grid) (line : LineSegment) (rest : List LineSegment) :
    g.attemptsAll (line :: rest) = g.attempts line ++ g.attemptsAll rest := by
  unfold Grid.attemptsAll
  exact List.flatMap_cons _ _ _

theorem Grid.attemptsAll_congr {g g' : Grid} (h : g.sameFrame g')
    (line_segments : List LineSegment) :
    g'.attemptsAll line_segments = g.attemptsAll line_segments := by
  induction line_segments with
  | nil => rw [Grid.attemptsAll_nil, Grid.attemptsAll_nil]
  | cons l rest ih => rw [Grid.attemptsAll_cons, Grid.attemptsAll_cons, ih, Grid.attempts_congr h]

/-- The operation `fillByIntersection` on a list of segments writes the cells
of `attemptsAll` in order. -/
theorem Grid.fillByIntersections_fst (g : Grid) (line_segments : List LineSegment)
    (data : Int) :
    (g.fillByIntersections line_segments data).1 =
      g.fillCells ((g.attemptsAll line_segments).map toCell) data := by
  induction line_segments generalizing g with
  | nil => rw [Grid.fillByIntersections_nil, Grid.attemptsAll_nil, List.map_nil, Grid.fillCells_nil]
  | cons line rest ih =>
    rw [Grid.fillByIntersections_cons, Grid.attemptsAll_cons, List.map_append,
      Grid.fillCells_append]
    show ((g.fillByIntersection line data).1.fillByIntersections rest data).1 = _
    rw [ih, Grid.attemptsAll_congr (g.fillByIntersection_sameFrame line data),
      Grid.fillByIntersection_eq]

/-- The cells returned by `fillByIntersection` on a list of segments. -/
theorem Grid.fillByIntersections_snd (g : Grid) (line_segments : List LineSegment)
    (data : Int) (rc : Nat × Nat) :
    rc ∈ (g.fillByIntersections line_segments data).2 ↔
      rc ∈ (g.attemptsAll line_segments).map toCell ∧ g.accepts rc = true := by
  induction line_segments generalizing g with
  | nil => simp [Grid.fillByIntersections_nil, Grid.attemptsAll_nil]
  | cons line rest ih =>
    rw [Grid.fillByIntersections_cons, Grid.attemptsAll_cons, List.map_append]
    show rc ∈ (g.fillByIntersection line data).2 ++
      ((g.fillByIntersection line data).1.fillByIntersections rest data).2 ↔ _
    have hf := g.fillByIntersection_sameFrame line data
    rw [List.mem_append, ih, Grid.attemptsAll_congr hf, Grid.accepts_congr hf,
      Grid.fillByIntersection_snd, List.mem_append]
    tauto

theorem Grid.fillByIntersections_sameFrame (g : Grid) (line_segments : List LineSegment)
    (data : Int) : g.sameFrame (g.fillByIntersections line_segments data).1 := by
  rw [Grid.fillByIntersections_fst]
  exact g.fillCells_sameFrame _ _

/-! ## `fillInside` as a sequence of writes -/

theorem Grid.fillRowSpan_eq (data : Int) (group_by_row : List (List Nat)) (g : Grid)
    (row : Nat) :
    Grid.fillRowSpan data group_by_row g row = g.fillCells (rowSpanCells group_by_row row) data := by
  unfold Grid.fillRowSpan rowSpanCells
  simp only
  split
  · unfold Grid.fillCells
    rw [← foldl_map_eq (fun (g : Grid) (rc : Nat × Nat) => (g.fillByRowCol rc.1 rc.2 data).1)
      (fun col => (row, col))]
  · rw [Grid.fillCells_nil]

theorem Grid.fillColSpan_eq (data : Int) (group_by_col : List (List Nat)) (g : Grid)
    (col : Nat) :
    Grid.fillColSpan data group_by_col g col = g.fillCells (colSpanCells group_by_col col) data := by
  unfold Grid.fillColSpan colSpanCells
  simp only
  split
  · unfold Grid.fillCells
    rw [← foldl_map_eq (fun (g : Grid) (rc : Nat × Nat) => (g.fillByRowCol rc.1 rc.2 data).1)
      (fun row => (row, col))]
  · rw [Grid.fillCells_nil]

theorem Grid.foldl_fillCells (g : Grid) (data : Int) {α : Type} (h : α → List (Nat × Nat))
    (l : List α) :
    l.foldl (fun g x => g.fillCells (h x) data) g = g.fillCells (l.flatMap h) data := by
  unfold Grid.fillCells
  exact foldl_flatMap_eq (fun (g : Grid) (rc : Nat × Nat) => (g.fillByRowCol rc.1 rc.2 data).1)
    h l g

/-- The operation `fillInside` writes the cells of `spanCells` in order, and is
undefined exactly when `spanCells` is. -/
theorem Grid.fillInside_eq (g : Grid) (row_and_cols : List (Nat × Nat)) (data : Int) :
    g.fillInside row_and_cols data =
      (g.spanCells row_and_cols).map (fun cells => g.fillCells cells data) := by
  unfold Grid.fillInside Grid.spanCells
  cases h1 : g.groupByRow row_and_cols with
  | none => rfl
  | some group_by_row =>
    cases h2 : g.groupByCol row_and_cols with
    | none => rfl
    | some group_by_col =>
      simp only [Option.map_some']
      have hr : Grid.fillRowSpan data group_by_row = fun g row =>
          g.fillCells (rowSpanCells group_by_row row) data :=
        funext (fun g => funext (fun row => Grid.fillRowSpan_eq data group_by_row g row))
      have hc : Grid.fillColSpan data group_by_col = fun g col =>
          g.fillCells (colSpanCells group_by_col col) data :=
        funext (fun g => funext (fun col => Grid.fillColSpan_eq data group_by_col g col))
      rw [hr, hc, Grid.foldl_fillCells, Grid.foldl_fillCells, Grid.fillCells_append]

theorem Grid.spanCells_congr {g g' : Grid} (h : g.sameFrame g')
    (row_and_cols : List (Nat × Nat)) :
    g'.spanCells row_and_cols = g.spanCells row_and_cols := by
  unfold Grid.spanCells Grid.groupByRow Grid.groupByCol
  rw [h.2.1, h.2.2.1]

theorem Grid.fillInside_sameFrame (g g' : Grid) (row_and_cols : List (Nat × Nat)) (data : Int)
    (h : g.fillInside row_and_cols data = some g') : g.sameFrame g' := by
  rw [Grid.fillInside_eq] at h
  cases hs : g.spanCells row_and_cols with
  | none => rw [hs] at h; cases h
  | some cells =>
    rw [hs] at h
    simp only [Option.map_some', Option.some.injEq] at h
    rw [← h]
    exact g.fillCells_sameFrame _ _

theorem Grid.fillInside_length (g g' : Grid) (row_and_cols : List (Nat × Nat)) (data : Int)
    (h : g.fillInside row_and_cols data = some g') :
    g'.values_.length = g.values_.length := by
  rw [Grid.fillInside_eq] at h
  cases hs : g.spanCells row_and_cols with
  | none => rw [hs] at h; cases h
  | some cells =>
    rw [hs] at h
    simp only [Option.map_some', Option.some.injEq] at h
    rw [← h]
    exact g.fillCells_length _ _

theorem Grid.fillByIntersection_length (g : Grid) (line_segment : LineSegment) (data : Int) :
    (g.fillByIntersection line_segment data).1.values_.length = g.values_.length := by
  rw [Grid.fillByIntersection_eq]
  exact g.fillCells_length _ _

theorem Grid.fillByIntersections_length (g : Grid) (line_segments : List LineSegment)
    (data : Int) :
    (g.fillByIntersections line_segments data).1.values_.length = g.values_.length := by
  rw [Grid.fillByIntersections_fst]
  exact g.fillCells_length _ _

/-- The list returned by `fillByIntersection` on a list of segments: the lists
of the segments one after the other. -/
theorem Grid.fillByIntersections_snd_eq (g : Grid) (line_segments : List LineSegment)
    (data : Int) :
    (g.fillByIntersections line_segments data).2 =
      line_segments.flatMap
        (fun line => sortAndUnique (((g.attempts line).map toCell).filter g.accepts)) := by
  induction line_segments generalizing g with
  | nil => rw [Grid.fillByIntersections_nil, List.flatMap_nil]
  | cons line rest ih =>
    rw [Grid.fillByIntersections_cons, List.flatMap_cons]
    show (g.fillByIntersection line data).2 ++
      ((g.fillByIntersection line data).1.fillByIntersections rest data).2 = _
    have hf := g.fillByIntersection_sameFrame line data
    rw [ih, Grid.accepts_congr hf, Grid.fillByIntersection_eq]
    congr 1
    clear ih
    induction rest with
    | nil => rw [List.flatMap_nil, List.flatMap_nil]
    | cons l rest ih2 =>
      rw [List.flatMap_cons, List.flatMap_cons, ih2]
      have := g.attempts_congr (g.fillCells_sameFrame ((g.attempts line).map toCell) data) l
      rw [this]

/-- The list returned by `fillByIntersection` depends neither on the contents
of the cost array nor on the value written. -/
theorem Grid.fillByIntersections_snd_congr {g g' : Grid} (h : g.sameFrame g')
    (line_segments : List LineSegment) (data data' : Int) :
    (g'.fillByIntersections line_segments data').2 =
      (g.fillByIntersections line_segments data).2 := by
  rw [Grid.fillByIntersections_snd_eq, Grid.fillByIntersections_snd_eq, Grid.accepts_congr h]
  induction line_segments with
  | nil => rw [List.flatMap_nil, List.flatMap_nil]
  | cons l rest ih => rw [List.flatMap_cons, List.flatMap_cons, ih, Grid.attempts_congr h]

/-! ## `addPrimitive` as two sequences of writes -/

theorem rowSpanCells_replicate_nil (n row : Nat) :
    rowSpanCells (List.replicate n []) row = [] := by
  unfold rowSpanCells
  have : (List.replicate n ([] : List Nat)).getD row [] = [] := by
    rw [List.getD_eq_getElem?_getD, List.getElem?_replicate]
    split <;> rfl
  rw [this]
  rfl

theorem colSpanCells_replicate_nil (n col : Nat) :
    colSpanCells (List.replicate n []) col = [] := by
  unfold colSpanCells
  have : (List.replicate n ([] : List Nat)).getD col [] = [] := by
    rw [List.getD_eq_getElem?_getD, List.getElem?_replicate]
    split <;> rfl
  rw [this]
  rfl

theorem flatMap_eq_nil_of_forall {α β : Type} (f : α → List β) (l : List α)
    (h : ∀ a, f a = []) : l.flatMap f = [] := by
  induction l with
  | nil => rfl
  | cons a l ih => rw [List.flatMap_cons, h a, ih]; rfl

/-- Without boundary cells `fillInside` has no cell to write. -/
theorem Grid.spanCells_nil (g : Grid) : g.spanCells [] = some [] := by
  unfold Grid.spanCells Grid.groupByRow Grid.groupByCol
  simp only [List.foldlM_nil, pure]
  rw [flatMap_eq_nil_of_forall _ _ (rowSpanCells_replicate_nil g.height),
    flatMap_eq_nil_of_forall _ _ (colSpanCells_replicate_nil g.width)]
  rfl

theorem Grid.fillInside_nil (g : Grid) (data : Int) : g.fillInside [] data = some g := by
  rw [Grid.fillInside_eq, Grid.spanCells_nil]
  rfl

theorem Grid.raysToGridCorner_nil (g : Grid) (rays : List LineSegment) :
    g.raysToGridCorner [] rays = some [] := by
  induction rays with
  | nil => rfl
  | cons ray rays ih =>
    unfold Grid.raysToGridCorner
    rw [ih]
    rfl

/-- The result of `addPrimitive`, when it has one: a sequence of writes of
`invisible_cost` followed by the writes of `occupied_cost` for the edges of
the hull and for their span fill. -/
theorem Grid.addPrimitive_eq_some (g g' : Grid) (primitive : primitives.Primitive)
    (h : g.addPrimitive primitive = some g') :
    ∃ (shadow span : List (Nat × Nat)),
      g.spanCells
          (g.fillByIntersections (getLineSegments primitive.get2DConvexHull)
            g.occupied_cost).2 = some span ∧
      g' = (g.fillCells shadow g.invisible_cost).fillCells
        ((g.attemptsAll (getLineSegments primitive.get2DConvexHull)).map toCell ++ span)
        g.occupied_cost := by
  unfold Grid.addPrimitive at h
  simp only at h
  split at h
  · cases h
  · next rays_to_grid_corner _ =>
    split at h
    · cases h
    · next invisible_rays _ =>
      split at h
      · cases h
      · next g2 h2 =>
        rw [Grid.fillInside_eq] at h2 h
        rw [Grid.fillByIntersections_fst] at h2 h
        cases hs1 : (g.fillCells
            ((g.attemptsAll (getLineSegments primitive.get2DConvexHull ++ invisible_rays ++
              rays_to_grid_corner)).map toCell) g.invisible_cost).spanCells
            (g.fillByIntersections (getLineSegments primitive.get2DConvexHull ++ invisible_rays ++
              rays_to_grid_corner) g.invisible_cost).2 with
        | none => rw [hs1] at h2; cases h2
        | some span1 =>
          rw [hs1] at h2
          simp only [Option.map_some', Option.some.injEq] at h2
          rw [← Grid.fillCells_append] at h2
          have hf2 : g.sameFrame g2 := by
            rw [← h2]
            exact g.fillCells_sameFrame _ _
          have hf3 : g.sameFrame
              (g2.fillCells ((g2.attemptsAll
                (getLineSegments primitive.get2DConvexHull)).map toCell) g.occupied_cost) :=
            Grid.sameFrame_trans hf2 (g2.fillCells_sameFrame _ _)
          rw [Grid.spanCells_congr hf3,
            Grid.fillByIntersections_snd_congr hf2 _ g.occupied_cost g.occupied_cost,
            Grid.attemptsAll_congr hf2] at h
          cases hs : g.spanCells
              (g.fillByIntersections (getLineSegments primitive.get2DConvexHull)
                g.occupied_cost).2 with
          | none => rw [hs] at h; cases h
          | some span =>
            rw [hs] at h
            simp only [Option.map_some', Option.some.injEq] at h
            refine ⟨(g.attemptsAll (getLineSegments primitive.get2DConvexHull ++ invisible_rays ++
              rays_to_grid_corner)).map toCell ++ span1, span, rfl, ?_⟩
            rw [← h, h2, Grid.fillCells_append]

/-- The cells of the occupied pass are the same whether they are computed on
the grid before `addPrimitive` or on the grid the shadow pass leaves. -/
theorem Grid.occupiedPassCells_congr {g g' : Grid} (h : g.sameFrame g')
    (primitive : primitives.Primitive) :
    g'.occupiedPassCells primitive = g.occupiedPassCells primitive := by
  unfold Grid.occupiedPassCells
  rw [Grid.fillByIntersections_snd_congr h _ g.occupied_cost g'.occupied_cost,
    Grid.spanCells_congr h, Grid.accepts_congr h]

/-! ## Which cells a line segment marks -/

theorem mem_intRange (lo hi i : Int) : i ∈ intRange lo hi ↔ lo ≤ i ∧ i ≤ hi := by
  unfold intRange
  simp only [List.mem_map, List.mem_range]
  constructor
  · rintro ⟨k, hk, rfl⟩
    omega
  · rintro ⟨h1, h2⟩
    exact ⟨(i - lo).toNat, by omega, by omega⟩

theorem Grid.attempts_eq (g : Grid) (ls : LineSegment) :
    g.attempts ls =
      if g.startRow ls = g.endRow ls then
        (intRange (g.startCol ls) (g.endCol ls)).map (fun col => (g.startRow ls, col))
      else if g.startCol ls = g.endCol ls then
        (intRange (g.startRow ls) (g.endRow ls)).map (fun row => (row, g.startCol ls))
      else
        (intRange (min (g.startRow ls) (g.endRow ls) + 1)
            (max (g.startRow ls) (g.endRow ls))).flatMap
            (g.rowPassAttempts (g.pixelLine ls) (g.startRow ls) (g.endRow ls)) ++
          (intRange (min (g.startCol ls) (g.endCol ls) + 1)
            (max (g.startCol ls) (g.endCol ls))).flatMap
            (g.colPassAttempts (g.pixelLine ls) (g.startCol ls) (g.endCol ls)) :=
  rfl

theorem floor_between (a b t : ℚ) (ht0 : 0 ≤ t) (ht1 : t ≤ 1) :
    min ⌊a⌋ ⌊b⌋ ≤ ⌊a + t * (b - a)⌋ ∧ ⌊a + t * (b - a)⌋ ≤ max ⌊a⌋ ⌊b⌋ := by
  rcases le_total a b with hab | hab
  · have h1 : a ≤ a + t * (b - a) := by nlinarith [mul_nonneg ht0 (sub_nonneg.mpr hab)]
    have h2 : a + t * (b - a) ≤ b := by
      nlinarith [mul_nonneg (sub_nonneg.mpr ht1) (sub_nonneg.mpr hab)]
    exact ⟨le_trans (min_le_left _ _) (Int.floor_mono h1),
      le_trans (Int.floor_mono h2) (le_max_right _ _)⟩
  · have h1 : b ≤ a + t * (b - a) := by
      nlinarith [mul_nonneg (sub_nonneg.mpr ht1) (sub_nonneg.mpr hab)]
    have h2 : a + t * (b - a) ≤ a := by nlinarith [mul_nonneg ht0 (sub_nonneg.mpr hab)]
    exact ⟨le_trans (min_le_right _ _) (Int.floor_mono h1),
      le_trans (Int.floor_mono h2) (le_max_left _ _)⟩

/-- A point of a segment that is not vertical lies on the straight line given
by the slope and the intercept of the line through its end points. -/
theorem LineSegment_slope_intercept (l : LineSegment) (x y t : ℚ)
    (hne : l.start_point.x ≠ l.end_point.x)
    (hx : x = l.start_point.x + t * (l.end_point.x - l.start_point.x))
    (hy : y = l.start_point.y + t * (l.end_point.y - l.start_point.y)) :
    l.lineSlope * x + l.lineIntercept = y := by
  unfold LineSegment.lineIntercept LineSegment.lineSlope
  have hd : l.end_point.x - l.start_point.x ≠ 0 := sub_ne_zero.mpr (Ne.symm hne)
  rw [hx, hy]
  field_simp
  ring

/-- A point of a segment that is neither vertical nor horizontal has its `x`
given by its `y`, the intercept and the slope of the line through the end
points. -/
theorem LineSegment_inverse_slope (l : LineSegment) (x y t : ℚ)
    (hne : l.start_point.x ≠ l.end_point.x) (hne' : l.start_point.y ≠ l.end_point.y)
    (hx : x = l.start_point.x + t * (l.end_point.x - l.start_point.x))
    (hy : y = l.start_point.y + t * (l.end_point.y - l.start_point.y)) :
    (y - l.lineIntercept) / l.lineSlope = x := by
  have hs : l.lineSlope ≠ 0 := by
    unfold LineSegment.lineSlope
    exact div_ne_zero (sub_ne_zero.mpr (Ne.symm hne')) (sub_ne_zero.mpr (Ne.symm hne))
  rw [div_eq_iff hs, ← LineSegment_slope_intercept l x y t hne hx hy]
  ring

theorem floor_ne_imp_ne {a b : ℚ} (h : ⌊a⌋ ≠ ⌊b⌋) : a ≠ b := fun hab => h (by rw [hab])

theorem Grid.mem_rowPassAttempts_iff (g : Grid) (ls : LineSegment) (sr er r : Int)
    (a : Int × Int) :
    a ∈ g.rowPassAttempts (g.pixelLine ls) sr er r ↔
      (0 ≤ r ∧ r < (g.width : Int)) ∧
        (0 ≤ g.colAt ls r ∧ g.colAt ls r < (g.height : Int)) ∧
        (a = (r, g.colAt ls r) ∨ (r ≠ max sr er ∧ a = (r - 1, g.colAt ls r))) := by
  unfold Grid.rowPassAttempts Grid.colAt
  by_cases h1 : 0 ≤ r ∧ r < (g.width : Int)
  · by_cases h2 : 0 ≤ ⌊binary64.add (binary64.mul (g.pixelLine ls).getSlope (r : ℚ))
          (g.pixelLine ls).getIntercept⌋ ∧
        ⌊binary64.add (binary64.mul (g.pixelLine ls).getSlope (r : ℚ))
          (g.pixelLine ls).getIntercept⌋ < (g.height : Int)
    · by_cases h3 : r = max sr er
      · simp [h1, h2, h3]
      · simp [h1, h2, h3]
    · simp [h1, h2]
  · simp [h1]

theorem Grid.mem_colPassAttempts_iff (g : Grid) (ls : LineSegment) (sc ec c : Int)
    (a : Int × Int) :
    a ∈ g.colPassAttempts (g.pixelLine ls) sc ec c ↔
      (0 ≤ c ∧ c < (g.height : Int)) ∧
        (0 ≤ g.rowAt ls c ∧ g.rowAt ls c < (g.width : Int)) ∧
        (a = (g.rowAt ls c, c) ∨ (c ≠ max sc ec ∧ a = (g.rowAt ls c, c - 1))) := by
  unfold Grid.colPassAttempts Grid.rowAt
  by_cases h1 : 0 ≤ c ∧ c < (g.height : Int)
  · by_cases h2 : 0 ≤ ⌊binary64.div (binary64.sub (c : ℚ) (g.pixelLine ls).getIntercept)
          (g.pixelLine ls).getSlope⌋ ∧
        ⌊binary64.div (binary64.sub (c : ℚ) (g.pixelLine ls).getIntercept)
          (g.pixelLine ls).getSlope⌋ < (g.width : Int)
    · by_cases h3 : c = max sc ec
      · simp [h1, h2, h3]
      · simp [h1, h2, h3]
    · simp [h1, h2]
  · simp [h1]

/-- The cells handed to the setter for a segment whose end points differ in
row and in column. -/
theorem Grid.mem_attempts_general (g : Grid) (ls : LineSegment)
    (hrow : g.startRow ls ≠ g.endRow ls) (hcol : g.startCol ls ≠ g.endCol ls)
    (a : Int × Int) :
    a ∈ g.attempts ls ↔
      (∃ r : Int, (min (g.startRow ls) (g.endRow ls) < r ∧ r ≤ max (g.startRow ls) (g.endRow ls)) ∧
        (0 ≤ r ∧ r < (g.width : Int)) ∧
        (0 ≤ g.colAt ls r ∧ g.colAt ls r < (g.height : Int)) ∧
        (a = (r, g.colAt ls r) ∨
          (r ≠ max (g.startRow ls) (g.endRow ls) ∧ a = (r - 1, g.colAt ls r)))) ∨
      (∃ c : Int, (min (g.startCol ls) (g.endCol ls) < c ∧ c ≤ max (g.startCol ls) (g.endCol ls)) ∧
        (0 ≤ c ∧ c < (g.height : Int)) ∧
        (0 ≤ g.rowAt ls c ∧ g.rowAt ls c < (g.width : Int)) ∧
        (a = (g.rowAt ls c, c) ∨
          (c ≠ max (g.startCol ls) (g.endCol ls) ∧ a = (g.rowAt ls c, c - 1)))) := by
  rw [Grid.attempts_eq, if_neg hrow, if_neg hcol, List.mem_append, List.mem_flatMap,
    List.mem_flatMap]
  apply or_congr
  · constructor
    · rintro ⟨r, hr, ha⟩
      rw [mem_intRange] at hr
      exact ⟨r, ⟨by omega, hr.2⟩, (g.mem_rowPassAttempts_iff ls _ _ r a).mp ha⟩
    · rintro ⟨r, hr, ha⟩
      exact ⟨r, (mem_intRange _ _ _).mpr ⟨by omega, hr.2⟩,
        (g.mem_rowPassAttempts_iff ls _ _ r a).mpr ha⟩
  · constructor
    · rintro ⟨c, hc, ha⟩
      rw [mem_intRange] at hc
      exact ⟨c, ⟨by omega, hc.2⟩, (g.mem_colPassAttempts_iff ls _ _ c a).mp ha⟩
    · rintro ⟨c, hc, ha⟩
      exact ⟨c, (mem_intRange _ _ _).mpr ⟨by omega, hc.2⟩,
        (g.mem_colPassAttempts_iff ls _ _ c a).mpr ha⟩

theorem pushAt_eq_some (table table' : List (List Nat)) (index value : Nat)
    (h : pushAt table index value = some table') :
    index < table.length ∧ table' = table.set index (table.getD index [] ++ [value]) := by
  unfold pushAt at h
  split at h
  · next hlt => exact ⟨hlt, (Option.some.inj h).symm⟩
  · cases h

/-- The table built by the grouping loop of `fillInside`: entry `i` lists, in
order, the values of the cells with key `i`. -/
theorem foldlM_pushAt (key val : Nat × Nat → Nat) (cells : List (Nat × Nat))
    (init table : List (List Nat))
    (h : cells.foldlM (fun t rc => pushAt t (key rc) (val rc)) init = some table) :
    table.length = init.length ∧
      (∀ rc ∈ cells, key rc < init.length) ∧
      ∀ i, table.getD i [] = init.getD i [] ++ (cells.filter (fun rc => key rc = i)).map val := by
  induction cells generalizing init with
  | nil =>
    simp only [List.foldlM_nil, pure, Option.some.injEq] at h
    subst h
    simp
  | cons rc rest ih =>
    rw [List.foldlM_cons] at h
    cases hp : pushAt init (key rc) (val rc) with
    | none => rw [hp] at h; cases h
    | some t1 =>
      rw [hp] at h
      obtain ⟨hlt, ht1⟩ := pushAt_eq_some _ _ _ _ hp
      have hl1 : t1.length = init.length := by rw [ht1, List.length_set]
      obtain ⟨h1, h2, h3⟩ := ih t1 h
      refine ⟨h1.trans hl1, ?_, ?_⟩
      · intro rc' hrc'
        rcases List.mem_cons.mp hrc' with rfl | hin
        · exact hlt
        · rw [← hl1]
          exact h2 rc' hin
      · intro i
        rw [h3 i, ht1, List.getD_eq_getElem?_getD, List.getElem?_set]
        by_cases hi : key rc = i
        · subst hi
          simp [hlt, List.filter_cons, List.getD_eq_getElem?_getD]
        · simp [hi, List.filter_cons, List.getD_eq_getElem?_getD]

theorem foldlM_pushAt_isSome (key val : Nat × Nat → Nat) (cells : List (Nat × Nat))
    (init : List (List Nat)) (h : ∀ rc ∈ cells, key rc < init.length) :
    ∃ table, cells.foldlM (fun t rc => pushAt t (key rc) (val rc)) init = some table := by
  induction cells generalizing init with
  | nil => exact ⟨init, rfl⟩
  | cons rc rest ih =>
    rw [List.foldlM_cons]
    have hlt := h rc (List.mem_cons_self _ _)
    have hp : pushAt init (key rc) (val rc) =
        some (init.set (key rc) (init.getD (key rc) [] ++ [val rc])) := by
      unfold pushAt
      rw [if_pos hlt]
    rw [hp]
    apply ih
    intro rc' hrc'
    rw [List.length_set]
    exact h rc' (List.mem_cons_of_mem _ hrc')

theorem foldl_min_le (l : List Nat) (a x : Nat) (h : x = a ∨ x ∈ l) : l.foldl min a ≤ x := by
  induction l generalizing a x with
  | nil =>
    rcases h with rfl | h
    · exact le_refl _
    · cases h
  | cons b l ih =>
    rw [List.foldl_cons]
    rcases h with rfl | h
    · exact le_trans (ih (min x b) (min x b) (Or.inl rfl)) (min_le_left _ _)
    · rcases List.mem_cons.mp h with rfl | h
      · exact le_trans (ih (min a x) (min a x) (Or.inl rfl)) (min_le_right _ _)
      · exact ih _ x (Or.inr h)

theorem le_foldl_max (l : List Nat) (a x : Nat) (h : x = a ∨ x ∈ l) : x ≤ l.foldl max a := by
  induction l generalizing a x with
  | nil =>
    rcases h with rfl | h
    · exact le_refl _
    · cases h
  | cons b l ih =>
    rw [List.foldl_cons]
    rcases h with rfl | h
    · exact le_trans (le_max_left _ _) (ih (max x b) (max x b) (Or.inl rfl))
    · rcases List.mem_cons.mp h with rfl | h
      · exact le_trans (le_max_right _ _) (ih (max a x) (max a x) (Or.inl rfl))
      · exact ih _ x (Or.inr h)

theorem minElement_le (l : List Nat) (x : Nat) (h : x ∈ l) : minElement l ≤ x :=
  foldl_min_le l _ x (Or.inr h)

theorem le_maxElement (l : List Nat) (x : Nat) (h : x ∈ l) : x ≤ maxElement l :=
  le_foldl_max l _ x (Or.inr h)

theorem mem_natRange (lo hi i : Nat) : i ∈ natRange lo hi ↔ lo ≤ i ∧ i ≤ hi := by
  unfold natRange
  simp only [List.mem_map, List.mem_range]
  constructor
  · rintro ⟨k, hk, rfl⟩
    omega
  · rintro ⟨h1, h2⟩
    exact ⟨i - lo, by omega, by omega⟩

/-- A group with two different members spans every index between them. -/
theorem mem_span_of_group (group : List Nat) (a b c : Nat) (ha : a ∈ group) (hb : b ∈ group)
    (hab : a < b) (hac : a ≤ c) (hcb : c ≤ b) :
    group.length > 1 ∧ c ∈ natRange (minElement group) (maxElement group) := by
  constructor
  · match group, ha, hb with
    | [], ha, _ => cases ha
    | [x], ha, hb =>
      rw [List.mem_singleton] at ha hb
      omega
    | _ :: _ :: _, _, _ => simp
  · rw [mem_natRange]
    exact ⟨le_trans (minElement_le group a ha) hac, le_trans hcb (le_maxElement group b hb)⟩

/-- When `fillInside` has a result on a grid whose array has `height * width`
entries: whenever two listed in-bounds cells share a row, every cell of that
row whose column lies between theirs holds the value, and whenever two listed
in-bounds cells share a column, every cell of that column whose row lies
between theirs holds the value. -/
theorem Grid.fillInside_fills_spans (g g' : Grid) (cells : List (Nat × Nat)) (data : Int)
    (hlen : g.getData.length = g.height * g.width)
    (h : g.fillInside cells data = some g') :
    (∀ row c1 c2 col, (row, c1) ∈ cells → (row, c2) ∈ cells → g.accepts (row, c2) = true →
        c1 < c2 → c1 ≤ col → col ≤ c2 → g'.cell row col = some data) ∧
      (∀ col r1 r2 row, (r1, col) ∈ cells → (r2, col) ∈ cells → g.accepts (r2, col) = true →
        r1 < r2 → r1 ≤ row → row ≤ r2 → g'.cell row col = some data) := by
  rw [Grid.fillInside_eq] at h
  unfold Grid.spanCells at h
  cases h1 : g.groupByRow cells with
  | none => rw [h1] at h; cases h
  | some group_by_row =>
    cases h2 : g.groupByCol cells with
    | none => rw [h1, h2] at h; cases h
    | some group_by_col =>
      rw [h1, h2] at h
      simp only [Option.map_some', Option.some.injEq] at h
      unfold Grid.groupByRow at h1
      unfold Grid.groupByCol at h2
      obtain ⟨_, hr2, hr3⟩ := foldlM_pushAt (fun rc => rc.1) (fun rc => rc.2) cells _ _ h1
      obtain ⟨_, hc2, hc3⟩ := foldlM_pushAt (fun rc => rc.2) (fun rc => rc.1) cells _ _ h2
      rw [List.length_replicate] at hr2 hc2
      have hf := g.fillCells_sameFrame
        ((List.range g.height).flatMap (rowSpanCells group_by_row) ++
          (List.range g.width).flatMap (colSpanCells group_by_col)) data
      rw [h] at hf
      have hget : ∀ rc : Nat × Nat, g.accepts rc = true →
          rc ∈ (List.range g.height).flatMap (rowSpanCells group_by_row) ++
            (List.range g.width).flatMap (colSpanCells group_by_col) →
          g'.cell rc.1 rc.2 = some data := by
        intro rc hacc hmem
        have hidx : g.cellIndex rc < g.values_.length := by
          have := g.cellIndex_lt rc hacc
          unfold Grid.getData at hlen
          omega
        have key := g.fillCells_get_of_mem _ data rc hmem hacc hidx
        rw [h] at key
        unfold Grid.cell
        rw [hf.2.2.1]
        exact key
      have hrep : ∀ (n i : Nat), (List.replicate n ([] : List Nat)).getD i [] = [] := by
        intro n i
        rw [List.getD_eq_getElem?_getD, List.getElem?_replicate]
        split <;> rfl
      constructor
      · intro row c1 c2 col m1 m2 hacc hlt h1' h2'
        have hb := (g.accepts_iff (row, c2)).mp hacc
        simp only at hb
        have hrow : row < g.height := hr2 (row, c1) m1
        have hg1 : c1 ∈ group_by_row.getD row [] := by
          rw [hr3 row, hrep, List.nil_append, List.mem_map]
          exact ⟨(row, c1), List.mem_filter.mpr ⟨m1, by simp⟩, rfl⟩
        have hg2 : c2 ∈ group_by_row.getD row [] := by
          rw [hr3 row, hrep, List.nil_append, List.mem_map]
          exact ⟨(row, c2), List.mem_filter.mpr ⟨m2, by simp⟩, rfl⟩
        obtain ⟨hsz, hin⟩ := mem_span_of_group _ c1 c2 col hg1 hg2 hlt h1' h2'
        apply hget (row, col)
        · rw [Grid.accepts_iff]
          exact ⟨hb.1, by simp only; omega⟩
        · apply List.mem_append_left
          rw [List.mem_flatMap]
          refine ⟨row, List.mem_range.mpr hrow, ?_⟩
          unfold rowSpanCells
          simp only
          rw [if_pos hsz, List.mem_map]
          exact ⟨col, hin, rfl⟩
      · intro col r1 r2 row m1 m2 hacc hlt h1' h2'
        have hb := (g.accepts_iff (r2, col)).mp hacc
        simp only at hb
        have hcol : col < g.width := hc2 (r1, col) m1
        have hg1 : r1 ∈ group_by_col.getD col [] := by
          rw [hc3 col, hrep, List.nil_append, List.mem_map]
          exact ⟨(r1, col), List.mem_filter.mpr ⟨m1, by simp⟩, rfl⟩
        have hg2 : r2 ∈ group_by_col.getD col [] := by
          rw [hc3 col, hrep, List.nil_append, List.mem_map]
          exact ⟨(r2, col), List.mem_filter.mpr ⟨m2, by simp⟩, rfl⟩
        obtain ⟨hsz, hin⟩ := mem_span_of_group _ r1 r2 row hg1 hg2 hlt h1' h2'
        apply hget (row, col)
        · rw [Grid.accepts_iff]
          exact ⟨by simp only; omega, hb.2⟩
        · apply List.mem_append_right
          rw [List.mem_flatMap]
          refine ⟨col, List.mem_range.mpr hcol, ?_⟩
          unfold colSpanCells
          simp only
          rw [if_pos hsz, List.mem_map]
          exact ⟨row, hin, rfl⟩

/-- On a square grid `fillInside` has a result for every list of in-bounds
cells. -/
theorem Grid.fillInside_isSome_of_square (g : Grid) (cells : List (Nat × Nat)) (data : Int)
    (hsq : g.height = g.width) (hin : ∀ rc ∈ cells, g.accepts rc = true) :
    ∃ g', g.fillInside cells data = some g' := by
  rw [Grid.fillInside_eq]
  unfold Grid.spanCells Grid.groupByRow Grid.groupByCol
  obtain ⟨t1, h1⟩ := foldlM_pushAt_isSome (fun rc => rc.1) (fun rc => rc.2) cells
    (List.replicate g.height []) (by
      intro rc hrc
      rw [List.length_replicate, hsq]
      exact ((g.accepts_iff rc).mp (hin rc hrc)).1)
  obtain ⟨t2, h2⟩ := foldlM_pushAt_isSome (fun rc => rc.2) (fun rc => rc.1) cells
    (List.replicate g.width []) (by
      intro rc hrc
      rw [List.length_replicate, ← hsq]
      exact ((g.accepts_iff rc).mp (hin rc hrc)).2)
  rw [h1, h2]
  exact ⟨_, rfl⟩

/-! ## Which pixels the setter accepts -/

theorem toSizeT_lt_iff (i : Int) (n : Nat) (hn : n ≤ 2 ^ 63) (hlo : -(2 ^ 63) ≤ i)
    (hhi : i < 2 ^ 63) : toSizeT i < n ↔ 0 ≤ i ∧ i < (n : Int) := by
  unfold toSizeT
  have hn' : (n : Int) ≤ 2 ^ 63 := by exact_mod_cast hn
  rcases lt_or_le i 0 with hneg | hpos
  · have h1 : i % (2 : Int) ^ 64 = i + 2 ^ 64 := by omega
    rw [h1]
    constructor
    · intro h
      have : ((i + 2 ^ 64).toNat : Int) < (n : Int) := by exact_mod_cast h
      rw [Int.toNat_of_nonneg (by omega)] at this
      omega
    · intro h
      omega
  · rw [Int.emod_eq_of_lt hpos (by omega)]
    constructor
    · intro h
      have : ((i.toNat : Nat) : Int) < (n : Int) := by exact_mod_cast h
      rw [Int.toNat_of_nonneg hpos] at this
      exact ⟨hpos, this⟩
    · intro h
      have : ((i.toNat : Nat) : Int) < (n : Int) := by
        rw [Int.toNat_of_nonneg hpos]
        exact h.2
      exact_mod_cast this

/-- The setter, called with `int` indices in the range of `int`, accepts the
cell of a grid point exactly when the pixel of the point lies in
`[0, width) × [0, height)`: the row is bounded by `width` and the column by
`height`, although `transformToPixel` centres `x` on `height` cells and `y` on
`width` cells. -/
theorem Grid.fillByRowCol_accepts_pixel (g : Grid)
    (hw : g.width ≤ 2 ^ 63) (hh : g.height ≤ 2 ^ 63) (p : Point) (data : Int)
    (hx0 : -(2 ^ 63) ≤ ⌊(g.transformToPixel p).x⌋) (hx1 : ⌊(g.transformToPixel p).x⌋ < 2 ^ 63)
    (hy0 : -(2 ^ 63) ≤ ⌊(g.transformToPixel p).y⌋) (hy1 : ⌊(g.transformToPixel p).y⌋ < 2 ^ 63) :
    (g.fillByRowCol (toSizeT ⌊(g.transformToPixel p).x⌋) (toSizeT ⌊(g.transformToPixel p).y⌋)
        data).2 = true ↔
      (0 ≤ (g.transformToPixel p).x ∧ (g.transformToPixel p).x < (g.width : ℚ)) ∧
      (0 ≤ (g.transformToPixel p).y ∧ (g.transformToPixel p).y < (g.height : ℚ)) := by
  rw [Grid.fillByRowCol_snd, Grid.accepts_iff]
  simp only
  rw [toSizeT_lt_iff _ _ hw hx0 hx1, toSizeT_lt_iff _ _ hh hy0 hy1]
  have hxf : ∀ n : Nat, ⌊(g.transformToPixel p).x⌋ < (n : Int) ↔
      (g.transformToPixel p).x < (n : ℚ) := by
    intro n
    rw [Int.floor_lt]
    norm_cast
  have hyf : ∀ n : Nat, ⌊(g.transformToPixel p).y⌋ < (n : Int) ↔
      (g.transformToPixel p).y < (n : ℚ) := by
    intro n
    rw [Int.floor_lt]
    norm_cast
  rw [Int.floor_nonneg, Int.floor_nonneg, hxf, hyf]
/-! ## Frame transforms -/

/-- The round trip through `transformToGrid` and `transformToWorld`, for any
unit quaternion: the point comes back moved by `t - R t`, where `t` is the
position of the origin and `R` its rotation. -/
theorem transformToWorld_transformToGrid (g : Grid) (p : Point)
    (hq : g.origin_.orientation.x * g.origin_.orientation.x +
        g.origin_.orientation.y * g.origin_.orientation.y +
        g.origin_.orientation.z * g.origin_.orientation.z +
        g.origin_.orientation.w * g.origin_.orientation.w = 1) :
    g.transformToWorld (g.transformToGrid p) =
      { x := p.x + (g.origin_.position.x - (originTurned g).x)
        y := p.y + (g.origin_.position.y - (originTurned g).y)
        z := p.z + (g.origin_.position.z - (originTurned g).z) } := by
  obtain ⟨res, h, w, oc, ic, ⟨⟨tx, ty, tz⟩, ⟨qx, qy, qz, qw⟩⟩, vs⟩ := g
  obtain ⟨px, py, pz⟩ := p
  simp only at hq
  have h2 : (qx * qx + qy * qy + qz * qz + qw * qw) ^ 2 = 1 := by rw [hq]; norm_num
  simp only [Grid.transformToWorld, Grid.transformToGrid, quaternion_operation.conjugate,
    quaternion_operation.getRotationMatrix, Eigen.Matrix3d.mulVec, Eigen.Vector3d.add,
    Eigen.Vector3d.sub, Point.mk.injEq, originTurned]
  refine ⟨?_, ?_, ?_⟩
  · linear_combination px * h2
  · linear_combination py * h2
  · linear_combination pz * h2

/-- Claim C1, evaluated on the code: with the origin turned by half a turn
about the vertical axis and placed at `(1, 0, 0)`, the world point `(0, 0, 0)`
goes to the grid point `(-1, 0, 0)` and comes back as `(2, 0, 0)`: the round
trip does not return the point. -/
theorem transformToGrid_roundtrip_halfTurn :
    halfTurnGrid.transformToGrid ⟨0, 0, 0⟩ = ⟨-1, 0, 0⟩ ∧
    halfTurnGrid.transformToWorld (halfTurnGrid.transformToGrid ⟨0, 0, 0⟩) = ⟨2, 0, 0⟩ ∧
    halfTurnGrid.transformToWorld (halfTurnGrid.transformToGrid ⟨0, 0, 0⟩) ≠ ⟨0, 0, 0⟩ := by
  decide!

/-- Claim C2: with the identity pose as origin (identity orientation, zero
translation), `transformToWorld (transformToGrid p)` is `p` for every point. -/
theorem transformToWorld_transformToGrid_identity (g : Grid) (p : Point) :
    (g.reset defaultPose).transformToWorld ((g.reset defaultPose).transformToGrid p) = p := by
  obtain ⟨px, py, pz⟩ := p
  simp [Grid.transformToWorld, Grid.transformToGrid, Grid.reset, defaultPose,
    quaternion_operation.conjugate, quaternion_operation.getRotationMatrix,
    Eigen.Matrix3d.mulVec, Eigen.Vector3d.add, Eigen.Vector3d.sub]

/-! ## Rasterization of a line segment -/

/-- Claim C4, evaluated on the code: on the four by four grid the segment
from pixel `(1/2, 7/2)` to pixel `(1/2, 1/2)` lies in row `0` and runs from
column `3` down to column `0`; `fillByIntersection` marks no cell and returns
the empty list, whereas the same segment taken from `(1/2, 1/2)` to
`(1/2, 7/2)` marks the four cells of the row. -/
theorem fillByIntersection_descending_run :
    squareGrid.pixelLine (segment (-3 / 2) (3 / 2) (-3 / 2) (-3 / 2)) =
        segment (1 / 2) (7 / 2) (1 / 2) (1 / 2) ∧
      squareGrid.fillByIntersection (segment (-3 / 2) (3 / 2) (-3 / 2) (-3 / 2)) 7 =
        (squareGrid, []) ∧
      (squareGrid.fillByIntersection (segment (-3 / 2) (-3 / 2) (-3 / 2) (3 / 2)) 7).2 =
        [(0, 0), (0, 1), (0, 2), (0, 3)] := by
  decide!

/-- Claim C9, evaluated on the code: with `height = 1` and `width = 2` the
grid point `(1, -1/2)` has `x` beyond `height * resolution / 2 = 1/2`, yet its
cell `(1, 0)` is accepted by the setter; with `height = 2` and `width = 1` the
grid point `(1/2, 0)` is within both ranges of the claim, yet its cell `(1, 0)`
is refused. -/
theorem fillByRowCol_axes_swapped :
    (wideGrid.transformToPixel ⟨1, -1 / 2, 0⟩ = ⟨3 / 2, 1 / 2, 0⟩ ∧
      (wideGrid.fillByRowCol (toSizeT ⌊(3 / 2 : ℚ)⌋) (toSizeT ⌊(1 / 2 : ℚ)⌋) 7).2 = true ∧
      ¬ ((1 : ℚ) < (wideGrid.height : ℚ) * wideGrid.resolution / 2)) ∧
    (tallGrid.transformToPixel ⟨1 / 2, 0, 0⟩ = ⟨3 / 2, 1 / 2, 0⟩ ∧
      (tallGrid.fillByRowCol (toSizeT ⌊(3 / 2 : ℚ)⌋) (toSizeT ⌊(1 / 2 : ℚ)⌋) 7).2 = false ∧
      (-((tallGrid.height : ℚ) * tallGrid.resolution / 2) ≤ 1 / 2 ∧
        (1 / 2 : ℚ) < (tallGrid.height : ℚ) * tallGrid.resolution / 2 ∧
        -((tallGrid.width : ℚ) * tallGrid.resolution / 2) ≤ 0 ∧
        (0 : ℚ) < (tallGrid.width : ℚ) * tallGrid.resolution / 2)) := by
  decide!

/-! ## Span fill -/

/-- Claim C8, evaluated on the code: with `height = 1` and `width = 2` the
in-bounds cells `(0, 0)` and `(1, 0)` share column `0`, but `fillInside`
indexes its table of `height = 1` rows at row `1`, past its end. -/
theorem fillInside_wideGrid_undefined :
    wideGrid.accepts (0, 0) = true ∧ wideGrid.accepts (1, 0) = true ∧
      wideGrid.groupByRow [(0, 0), (1, 0)] = none ∧
      wideGrid.fillInside [(0, 0), (1, 0)] 7 = none := by
  decide!

/-! ## `addPrimitive` -/

/-- Claim C6 fails as stated: on the four by four grid at the identity pose a
hull of the single point `(1/2, 0)` has its invisible ray rasterized: the cells
`(2, 2)` and `(3, 2)` hold `invisible_cost` afterwards. -/
theorem addPrimitive_single_point_writes :
    (squareGrid.addPrimitive singlePoint).map Grid.getData =
        some [0, 0, 0, 0, 0, 0, 0, 0, 0, 0, 50, 50, 0, 0, 0, 0] ∧
      (squareGrid.addPrimitive singlePoint).map Grid.getData ≠ some squareGrid.getData := by
  decide!

/-- Claim C7, evaluated on the code: the grid is reset to a pose turned by half
a turn and placed at `(10, 0, 0)`; the three vertices of the triangle have
pixel rows `-3/2`, `-1/2` and `-1/2`, so the hull has no point in the grid, yet
`addPrimitive` writes `invisible_cost` into eight cells. The sensor position
itself is mapped to the grid point `(-20, 0, 0)`, not to the centre. -/
theorem addPrimitive_outside_hull_writes :
    farGrid.getData = List.replicate 16 0 ∧
      outsideTriangle.get2DConvexHull.map
          (fun p => farGrid.transformToPixel (farGrid.transformToGrid p)) =
        [⟨-3 / 2, 2, 0⟩, ⟨-1 / 2, 3 / 2, 0⟩, ⟨-1 / 2, 5 / 2, 0⟩] ∧
      farGrid.transformToGrid farGrid.origin_.position = ⟨-20, 0, 0⟩ ∧
      (farGrid.addPrimitive outsideTriangle).map Grid.getData =
        some [0, 0, 0, 0, 50, 50, 50, 50, 50, 50, 50, 50, 0, 0, 0, 0] := by
  decide!

/-- Claim C5: after `addPrimitive`, every cell written by the occupied pass
(the cells returned for the edges of the hull and the accepted cells of their
span fill) holds `occupied_cost`, and so does not hold `invisible_cost` when
the two costs differ, although the shadow pass wrote first. -/
theorem addPrimitive_occupied_precedence (g g' : Grid) (primitive : primitives.Primitive)
    (hlen : g.values_.length = g.height * g.width)
    (h : g.addPrimitive primitive = some g') (row col : Nat)
    (hmem : (row, col) ∈ g.occupiedPassCells primitive) :
    g'.cell row col = some g.occupied_cost ∧
      (g.occupied_cost ≠ g.invisible_cost → g'.cell row col ≠ some g.invisible_cost) := by
  obtain ⟨shadow, span, hs, hg'⟩ := Grid.addPrimitive_eq_some g g' primitive h
  have hf := g.fillCells_sameFrame shadow g.invisible_cost
  have hrc : (row, col) ∈
      (g.attemptsAll (getLineSegments primitive.get2DConvexHull)).map toCell ++ span ∧
      g.accepts (row, col) = true := by
    unfold Grid.occupiedPassCells at hmem
    rw [hs] at hmem
    rcases List.mem_append.mp hmem with h1 | h1
    · rw [Grid.fillByIntersections_snd] at h1
      exact ⟨List.mem_append_left _ h1.1, h1.2⟩
    · rw [Option.getD_some, List.mem_filter] at h1
      exact ⟨List.mem_append_right _ h1.1, h1.2⟩
  have hacc : (g.fillCells shadow g.invisible_cost).accepts (row, col) = true := by
    rw [Grid.accepts_congr hf]
    exact hrc.2
  have hidx : (g.fillCells shadow g.invisible_cost).cellIndex (row, col) <
      (g.fillCells shadow g.invisible_cost).values_.length := by
    rw [Grid.cellIndex_congr hf, Grid.fillCells_length, hlen]
    exact g.cellIndex_lt _ hrc.2
  have key := Grid.fillCells_get_of_mem (g.fillCells shadow g.invisible_cost) _ g.occupied_cost
    (row, col) hrc.1 hacc hidx
  rw [← hg'] at key
  have hw : g'.width = g.width := by
    rw [hg']
    exact (Grid.sameFrame_trans hf (Grid.fillCells_sameFrame _ _ _)).2.2.1
  have hcell : g'.cell row col = some g.occupied_cost := by
    unfold Grid.cell
    rw [hw]
    rw [Grid.cellIndex_congr hf] at key
    exact key
  refine ⟨hcell, fun hne heq => ?_⟩
  rw [hcell] at heq
  exact hne (Option.some.inj heq)

/-- The premises of `addPrimitive_occupied_precedence` hold on the four by
four grid and a triangle inside it: the cell `(3, 2)` is written by both
passes and holds `occupied_cost = 100`. -/
theorem addPrimitive_occupied_precedence_witness :
    (squareGrid.addPrimitive insideTriangle = some insideTriangleGrid ∧
      (3, 2) ∈ squareGrid.occupiedPassCells insideTriangle) ∧
    (insideTriangleGrid.cell 3 2 = some squareGrid.occupied_cost ∧
      (squareGrid.occupied_cost ≠ squareGrid.invisible_cost →
        insideTriangleGrid.cell 3 2 ≠ some squareGrid.invisible_cost)) :=
  ⟨by decide!,
    addPrimitive_occupied_precedence squareGrid insideTriangleGrid insideTriangle (by decide!)
      (by decide!) 3 2 (by decide!)⟩

/-- Claim C6, amended: `addPrimitive` on a hull without points leaves the grid
as it is; on a hull of one point it writes no occupied cell: the constant
members and the length of the array are kept, and every position keeps its
value or holds `invisible_cost`. -/
theorem addPrimitive_small_hull (g : Grid) :
    g.addPrimitive ⟨[]⟩ = some g ∧
      ∀ (p : Point) (g' : Grid), g.addPrimitive ⟨[p]⟩ = some g' →
        g.sameFrame g' ∧ g'.getData.length = g.getData.length ∧
          ∀ i : Nat, g'.getData[i]? = g.getData[i]? ∨ g'.getData[i]? = some g.invisible_cost := by
  constructor
  · unfold Grid.addPrimitive
    have h1 : getLineSegments ([] : List Point) = [] := rfl
    simp only [h1, Grid.raysToGridCorner_nil, Grid.getInvisibleRays, List.append_nil,
      Grid.fillByIntersections_nil, Grid.fillInside_nil]
  · intro p g' h
    obtain ⟨shadow, span, hs, hg'⟩ := Grid.addPrimitive_eq_some g g' ⟨[p]⟩ h
    have h1 : getLineSegments [p] = [] := rfl
    simp only [h1, Grid.fillByIntersections_nil, Grid.spanCells_nil, Option.some.injEq] at hs
    simp only [h1, Grid.attemptsAll_nil, List.map_nil, List.nil_append, ← hs,
      Grid.fillCells_nil] at hg'
    subst hg'
    refine ⟨g.fillCells_sameFrame _ _, g.fillCells_length _ _, fun i => ?_⟩
    rcases g.fillCells_get_or shadow g.invisible_cost i with h2 | h2
    · exact Or.inr h2
    · exact Or.inl h2

/-- The premise of `addPrimitive_small_hull` holds on the four by four grid and
the hull of the single point `(1/2, 0)`: position `10` of the array, the cell
`(2, 2)`, holds `invisible_cost` afterwards. -/
theorem addPrimitive_small_hull_witness :
    squareGrid.addPrimitive singlePoint = some singlePointGrid ∧
      (singlePointGrid.getData[10]? = squareGrid.getData[10]? ∨
        singlePointGrid.getData[10]? = some squareGrid.invisible_cost) :=
  ⟨by decide!,
    ((addPrimitive_small_hull squareGrid).2 ⟨1 / 2, 0, 0⟩ singlePointGrid (by decide!)).2.2 10⟩

/-! ## The length of the cost array -/

/-- Claim C10: the cost array has `height * width` entries after construction,
and every operation keeps this: `reset`, `fillByRowCol`, `fillByIntersection`
on one segment and on a list of segments, `fillInside` and `addPrimitive`
whenever they have a result. -/
theorem values_length_invariant (resolution : ℚ) (height width : Nat)
    (occupied_cost invisible_cost : Int) (g : Grid)
    (hlen : g.getData.length = g.height * g.width) (origin : Pose) (row col : Nat) (data : Int)
    (line : LineSegment) (lines : List LineSegment) (cells : List (Nat × Nat))
    (primitive : primitives.Primitive) :
    (Grid.new resolution height width occupied_cost invisible_cost).getData.length =
        (Grid.new resolution height width occupied_cost invisible_cost).height *
          (Grid.new resolution height width occupied_cost invisible_cost).width ∧
      (Grid.new resolution height width occupied_cost invisible_cost).height = height ∧
      (Grid.new resolution height width occupied_cost invisible_cost).width = width ∧
      (g.reset origin).getData.length = (g.reset origin).height * (g.reset origin).width ∧
      (g.fillByRowCol row col data).1.getData.length =
        (g.fillByRowCol row col data).1.height * (g.fillByRowCol row col data).1.width ∧
      (g.fillByIntersection line data).1.getData.length =
        (g.fillByIntersection line data).1.height * (g.fillByIntersection line data).1.width ∧
      (g.fillByIntersections lines data).1.getData.length =
        (g.fillByIntersections lines data).1.height *
          (g.fillByIntersections lines data).1.width ∧
      (∀ g' : Grid, g.fillInside cells data = some g' →
        g'.getData.length = g'.height * g'.width) ∧
      (∀ g' : Grid, g.addPrimitive primitive = some g' →
        g'.getData.length = g'.height * g'.width) := by
  unfold Grid.getData at hlen ⊢
  refine ⟨?_, rfl, rfl, ?_, ?_, ?_, ?_, ?_, ?_⟩
  · simp [Grid.new]
  · simp [Grid.reset, hlen]
  · have hf := g.fillByRowCol_sameFrame row col data
    rw [Grid.fillByRowCol_length, hf.2.1, hf.2.2.1, hlen]
  · have hf := g.fillByIntersection_sameFrame line data
    rw [Grid.fillByIntersection_length, hf.2.1, hf.2.2.1, hlen]
  · have hf := g.fillByIntersections_sameFrame lines data
    rw [Grid.fillByIntersections_length, hf.2.1, hf.2.2.1, hlen]
  · intro g' h
    have hf := g.fillInside_sameFrame g' cells data h
    rw [g.fillInside_length g' cells data h, hf.2.1, hf.2.2.1, hlen]
  · intro g' h
    obtain ⟨shadow, span, _, hg'⟩ := Grid.addPrimitive_eq_some g g' primitive h
    have hf := Grid.sameFrame_trans (g.fillCells_sameFrame shadow g.invisible_cost)
      (Grid.fillCells_sameFrame (g.fillCells shadow g.invisible_cost)
        ((g.attemptsAll (getLineSegments primitive.get2DConvexHull)).map toCell ++ span)
        g.occupied_cost)
    rw [← hg'] at hf
    rw [hf.2.1, hf.2.2.1, hg', Grid.fillCells_length, Grid.fillCells_length, hlen]

/-- The premise of `values_length_invariant` holds on the four by four grid,
and `addPrimitive` has a result there: the array of the result has sixteen
entries. -/
theorem values_length_invariant_witness :
    (squareGrid.getData.length = squareGrid.height * squareGrid.width ∧
      squareGrid.addPrimitive insideTriangle = some insideTriangleGrid) ∧
    insideTriangleGrid.getData.length = insideTriangleGrid.height * insideTriangleGrid.width :=
  ⟨⟨by decide!, by decide!⟩,
    (values_length_invariant 1 4 4 100 50 squareGrid (by decide!) defaultPose 0 0 0
      (segment 0 0 0 0) [] [] insideTriangle).2.2.2.2.2.2.2.2 insideTriangleGrid (by decide!)⟩

/-! ## The life cycle of the grid -/

/-- Claim C11: in every state reachable from construction by calls of `reset`
and `addPrimitive`, every entry of `getData()` is `0`, `occupied_cost` or
`invisible_cost`. -/
theorem reachable_values_sentinel (g : Grid) (h : g.Reachable) (v : Int)
    (hv : v ∈ g.getData) : v = 0 ∨ v = g.occupied_cost ∨ v = g.invisible_cost := by
  induction h generalizing v with
  | construct resolution height width oc ic =>
    left
    simp only [Grid.getData, Grid.new] at hv
    exact (List.mem_replicate.mp hv).2
  | reset g origin _ _ =>
    left
    simp only [Grid.getData, Grid.reset] at hv
    exact (List.mem_replicate.mp hv).2
  | addPrimitive g g' primitive _ hadd ih =>
    obtain ⟨shadow, span, _, hg'⟩ := Grid.addPrimitive_eq_some g g' primitive hadd
    have hf := Grid.sameFrame_trans (g.fillCells_sameFrame shadow g.invisible_cost)
      (Grid.fillCells_sameFrame (g.fillCells shadow g.invisible_cost)
        ((g.attemptsAll (getLineSegments primitive.get2DConvexHull)).map toCell ++ span)
        g.occupied_cost)
    rw [← hg'] at hf
    rw [hf.2.2.2.1, hf.2.2.2.2.1]
    unfold Grid.getData at hv
    obtain ⟨i, hi⟩ := List.mem_iff_getElem?.mp hv
    rw [hg'] at hi
    rcases Grid.fillCells_get_or (g.fillCells shadow g.invisible_cost) _ g.occupied_cost i
      with h1 | h1
    · rw [h1] at hi
      exact Or.inr (Or.inl (Option.some.inj hi).symm)
    · rw [h1] at hi
      rcases Grid.fillCells_get_or g shadow g.invisible_cost i with h2 | h2
      · rw [h2] at hi
        exact Or.inr (Or.inr (Option.some.inj hi).symm)
      · rw [h2] at hi
        exact ih v (List.mem_iff_getElem?.mpr ⟨i, hi⟩)

/-- The premises of `reachable_values_sentinel` hold for the four by four grid
after `addPrimitive` on a triangle: the grid is reachable and `50` is one of
its entries. -/
theorem reachable_values_sentinel_witness :
    (insideTriangleGrid.Reachable ∧ (50 : Int) ∈ insideTriangleGrid.getData) ∧
      ((50 : Int) = 0 ∨ (50 : Int) = insideTriangleGrid.occupied_cost ∨
        (50 : Int) = insideTriangleGrid.invisible_cost) :=
  have hr : insideTriangleGrid.Reachable :=
    Grid.Reachable.addPrimitive squareGrid insideTriangleGrid insideTriangle
      (Grid.Reachable.construct 1 4 4 100 50) (by decide!)
  ⟨⟨hr, by decide!⟩, reachable_values_sentinel insideTriangleGrid hr 50 (by decide!)⟩

/-- Claim C12: whatever the state of the grid, `reset(pose)` leaves every entry
equal to `0`, records `pose` as the origin and keeps the length of the array
(and the constant members); resetting twice with the same pose gives the same
state as resetting once. -/
theorem reset_clears (g : Grid) (pose : Pose) :
    (∀ v ∈ (g.reset pose).getData, v = 0) ∧
      (g.reset pose).getData = List.replicate g.getData.length 0 ∧
      (g.reset pose).origin_ = pose ∧
      (g.reset pose).getData.length = g.getData.length ∧
      (g.reset pose).height = g.height ∧ (g.reset pose).width = g.width ∧
      (g.reset pose).reset pose = g.reset pose := by
  refine ⟨?_, rfl, rfl, ?_, rfl, rfl, ?_⟩
  · intro v hv
    simp only [Grid.getData, Grid.reset] at hv
    exact (List.mem_replicate.mp hv).2
  · simp [Grid.getData, Grid.reset]
  · simp [Grid.reset]

/-- Claim C13: for every resolution, height, width and pair of costs,
`getData()` on a freshly constructed grid is an array of `height * width`
zeros. -/
theorem new_getData (resolution : ℚ) (height width : Nat)
    (occupied_cost invisible_cost : Int) :
    (Grid.new resolution height width occupied_cost invisible_cost).getData =
      List.replicate (height * width) 0 := rfl

/-! ## The setter and the cells a segment touches -/

/-- Two accepted cells stored at the same position are the same cell. -/
theorem Grid.cellIndex_injective (g : Grid) (rc rc' : Nat × Nat) (h : g.accepts rc = true)
    (h' : g.accepts rc' = true) (heq : g.cellIndex rc = g.cellIndex rc') : rc = rc' := by
  rw [Grid.accepts_iff] at h h'
  unfold Grid.cellIndex at heq
  have h1 : (g.width * rc.2 + rc.1) % g.width = rc.1 := by
    rw [Nat.mul_add_mod]
    exact Nat.mod_eq_of_lt h.1
  have h2 : (g.width * rc'.2 + rc'.1) % g.width = rc'.1 := by
    rw [Nat.mul_add_mod]
    exact Nat.mod_eq_of_lt h'.1
  have hr : rc.1 = rc'.1 := by rw [← h1, ← h2, heq]
  have hw : 0 < g.width := by omega
  have hc : rc.2 = rc'.2 := by
    rw [hr] at heq
    exact Nat.eq_of_mul_eq_mul_left hw (Nat.add_right_cancel heq)
  exact Prod.ext hr hc

theorem toSizeT_neg_not_lt (i : Int) (n : Nat) (hn : n ≤ 2 ^ 63) (hlo : -(2 ^ 63) ≤ i)
    (hneg : i < 0) : n ≤ toSizeT i := by
  have := (toSizeT_lt_iff i n hn hlo (by omega)).not
  rw [Nat.not_lt] at this
  exact this.mpr (fun h => by omega)

/-- Claim C14: `fillByRowCol(row, col, data)` returns `false` and leaves the
cost array unchanged if and only if `row >= width` or `col >= height`;
otherwise it returns `true` and writes inside the array. A negative `int`
index, converted to `size_t`, is out of range. The setter has a result for
every argument. -/
theorem fillByRowCol_contract (g : Grid) (row col : Nat) (data : Int) :
    (((g.fillByRowCol row col data).2 = false ∧
        (g.fillByRowCol row col data).1.getData = g.getData) ↔
      (row ≥ g.width ∨ col ≥ g.height)) ∧
    ((row ≥ g.width ∨ col ≥ g.height) → (g.fillByRowCol row col data).1 = g) ∧
    (¬ (row ≥ g.width ∨ col ≥ g.height) →
      (g.fillByRowCol row col data).2 = true ∧
        (g.fillByRowCol row col data).1.getData = g.getData.set (g.width * col + row) data ∧
        (g.getData.length = g.height * g.width → g.width * col + row < g.getData.length)) ∧
    (∀ i j : Int, g.width ≤ 2 ^ 63 → g.height ≤ 2 ^ 63 → -(2 ^ 63) ≤ i → -(2 ^ 63) ≤ j →
      (i < 0 ∨ j < 0) →
      (g.fillByRowCol (toSizeT i) (toSizeT j) data).2 = false ∧
        (g.fillByRowCol (toSizeT i) (toSizeT j) data).1 = g) := by
  have hout : ∀ r c : Nat, (r ≥ g.width ∨ c ≥ g.height) →
      (g.fillByRowCol r c data).2 = false ∧ (g.fillByRowCol r c data).1 = g := by
    intro r c h
    unfold Grid.fillByRowCol
    rw [if_pos h]
    exact ⟨rfl, rfl⟩
  have hin : ¬ (row ≥ g.width ∨ col ≥ g.height) →
      (g.fillByRowCol row col data).2 = true ∧
        (g.fillByRowCol row col data).1.getData = g.getData.set (g.width * col + row) data := by
    intro h
    unfold Grid.fillByRowCol
    rw [if_neg h]
    exact ⟨rfl, rfl⟩
  refine ⟨⟨fun h => ?_, fun h => ?_⟩, fun h => (hout row col h).2, fun h => ?_, ?_⟩
  · by_contra hn
    rw [(hin hn).1] at h
    exact Bool.noConfusion h.1
  · obtain ⟨h1, h2⟩ := hout row col h
    exact ⟨h1, by rw [h2]⟩
  · refine ⟨(hin h).1, (hin h).2, fun hlen => ?_⟩
    rw [hlen]
    apply g.cellIndex_lt (row, col)
    rw [Grid.accepts_iff]
    simp only
    omega
  · intro i j hw hh hi hj hneg
    apply hout
    rcases hneg with h | h
    · exact Or.inl (toSizeT_neg_not_lt i g.width hw hi h)
    · exact Or.inr (toSizeT_neg_not_lt j g.height hh hj h)

/-- The premises of `fillByRowCol_contract` hold on the four by four grid: the
row index `-1` is refused. -/
theorem fillByRowCol_contract_witness :
    (squareGrid.width ≤ 2 ^ 63 ∧ squareGrid.height ≤ 2 ^ 63 ∧ -(2 ^ 63) ≤ (-1 : Int) ∧
      -(2 ^ 63) ≤ (0 : Int) ∧ ((-1 : Int) < 0 ∨ (0 : Int) < 0)) ∧
    ((squareGrid.fillByRowCol (toSizeT (-1)) (toSizeT 0) 7).2 = false ∧
      (squareGrid.fillByRowCol (toSizeT (-1)) (toSizeT 0) 7).1 = squareGrid) :=
  ⟨by decide!,
    (fillByRowCol_contract squareGrid 0 0 7).2.2.2 (-1) 0 (by decide!) (by decide!)
      (by decide!) (by decide!) (by decide!)⟩

/-- Claim C15: `fillByIntersection(segment, cost)` returns exactly the cells it
touches. On a grid whose array has `height * width` entries, every returned
cell is in bounds and holds `cost` after the call, every cell of the grid that
is not returned keeps its value, and the constant members, the origin and the
length of the array are kept. -/
theorem fillByIntersection_touched_cells (g : Grid) (ls : LineSegment) (data : Int)
    (hlen : g.getData.length = g.height * g.width) (row col : Nat) :
    ((row, col) ∈ (g.fillByIntersection ls data).2 →
      row < g.width ∧ col < g.height ∧
        (g.fillByIntersection ls data).1.cell row col = some data) ∧
    (row < g.width → col < g.height → (row, col) ∉ (g.fillByIntersection ls data).2 →
      (g.fillByIntersection ls data).1.cell row col = g.cell row col) ∧
    g.sameFrame (g.fillByIntersection ls data).1 ∧
    (g.fillByIntersection ls data).1.getData.length = g.getData.length := by
  have hf := g.fillByIntersection_sameFrame ls data
  have hcell : (g.fillByIntersection ls data).1.cell row col =
      (g.fillCells ((g.attempts ls).map toCell) data).values_[g.cellIndex (row, col)]? := by
    unfold Grid.cell Grid.cellIndex
    rw [hf.2.2.1, Grid.fillByIntersection_eq]
  refine ⟨fun hmem => ?_, fun hr hc hnot => ?_, hf, g.fillByIntersection_length ls data⟩
  · rw [Grid.fillByIntersection_snd] at hmem
    have hb := (g.accepts_iff (row, col)).mp hmem.2
    refine ⟨hb.1, hb.2, ?_⟩
    rw [hcell]
    apply g.fillCells_get_of_mem _ data (row, col) hmem.1 hmem.2
    have := g.cellIndex_lt (row, col) hmem.2
    unfold Grid.getData at hlen
    omega
  · have hacc : g.accepts (row, col) = true := (g.accepts_iff (row, col)).mpr ⟨hr, hc⟩
    rw [hcell, g.fillCells_get_of_not_mem]
    · rfl
    · intro rc hrc hrcacc heq
      have := g.cellIndex_injective rc (row, col) hrcacc hacc heq
      subst this
      exact hnot ((g.fillByIntersection_snd ls data (row, col)).mpr ⟨hrc, hrcacc⟩)

/-- The premise of `fillByIntersection_touched_cells` holds on the four by
four grid; for the segment from pixel `(1/2, 1/2)` to pixel `(3/2, 7/4)` the
returned cell `(1, 1)` holds the value `7`. -/
theorem fillByIntersection_touched_cells_witness :
    (squareGrid.getData.length = squareGrid.height * squareGrid.width ∧
      (1, 1) ∈ (squareGrid.fillByIntersection (segment (-3 / 2) (-3 / 2) (-1 / 2) (-1 / 4)) 7).2) ∧
    (1 < squareGrid.width ∧ 1 < squareGrid.height ∧
      (squareGrid.fillByIntersection (segment (-3 / 2) (-3 / 2) (-1 / 2) (-1 / 4)) 7).1.cell 1 1 =
        some 7) :=
  ⟨by decide!,
    (fillByIntersection_touched_cells squareGrid (segment (-3 / 2) (-3 / 2) (-1 / 2) (-1 / 4)) 7
      (by decide!) 1 1).1 (by decide!)⟩

/-! ## `addPrimitive` does not read the cost array -/

theorem Grid.fillByIntersections_snd_returnedCells (g : Grid)
    (line_segments : List LineSegment) (data : Int) :
    (g.fillByIntersections line_segments data).2 = g.returnedCells line_segments :=
  g.fillByIntersections_snd_eq line_segments data

/-- The operation `addPrimitive` writes the cells of `addPrimitiveCells`, and
has a result exactly when `addPrimitiveCells` has one. -/
theorem Grid.addPrimitive_eq (g : Grid) (primitive : primitives.Primitive) :
    g.addPrimitive primitive =
      (g.addPrimitiveCells primitive).map
        (fun cells => (g.fillCells cells.1 g.invisible_cost).fillCells cells.2 g.occupied_cost) := by
  unfold Grid.addPrimitive Grid.addPrimitiveCells
  simp only
  cases g.raysToGridCorner (getLineSegments primitive.get2DConvexHull) g.getRayToGridCorner with
  | none => rfl
  | some rays_to_grid_corner =>
    cases g.getInvisibleRays primitive.get2DConvexHull with
    | none => rfl
    | some invisible_rays =>
      simp only
      rw [Grid.fillInside_eq, Grid.fillByIntersections_fst,
        Grid.fillByIntersections_snd_returnedCells,
        Grid.spanCells_congr (g.fillCells_sameFrame _ _)]
      cases g.spanCells (g.returnedCells (getLineSegments primitive.get2DConvexHull ++
          invisible_rays ++ rays_to_grid_corner)) with
      | none => rfl
      | some shadow_span =>
        simp only [Option.map_some']
        rw [← Grid.fillCells_append]
        have hf2 := g.fillCells_sameFrame
          ((g.attemptsAll (getLineSegments primitive.get2DConvexHull ++ invisible_rays ++
            rays_to_grid_corner)).map toCell ++ shadow_span) g.invisible_cost
        rw [Grid.fillInside_eq, Grid.fillByIntersections_fst,
          Grid.fillByIntersections_snd_returnedCells,
          Grid.spanCells_congr (Grid.fillCells_sameFrame _ _ _), Grid.attemptsAll_congr hf2,
          Grid.spanCells_congr hf2]
        have hret : Grid.returnedCells (g.fillCells
            ((g.attemptsAll (getLineSegments primitive.get2DConvexHull ++ invisible_rays ++
              rays_to_grid_corner)).map toCell ++ shadow_span) g.invisible_cost)
            (getLineSegments primitive.get2DConvexHull) =
            g.returnedCells (getLineSegments primitive.get2DConvexHull) := by
          rw [← Grid.fillByIntersections_snd_returnedCells _ _ 0,
            ← Grid.fillByIntersections_snd_returnedCells _ _ 0]
          exact Grid.fillByIntersections_snd_congr hf2 _ 0 0
        rw [hret]
        cases g.spanCells (g.returnedCells (getLineSegments primitive.get2DConvexHull)) with
        | none => rfl
        | some occupied_span =>
          simp only [Option.map_some']
          rw [← Grid.fillCells_append]

theorem Grid.getInvisibleRay_setValues (g : Grid) (values : List Int) (point : Point) :
    Grid.getInvisibleRay { g with values_ := values } point = g.getInvisibleRay point :=
  rfl

theorem Grid.getInvisibleRays_setValues (g : Grid) (values : List Int) (points : List Point) :
    Grid.getInvisibleRays { g with values_ := values } points = g.getInvisibleRays points := by
  induction points with
  | nil => rfl
  | cons point points ih =>
    unfold Grid.getInvisibleRays
    rw [ih, Grid.getInvisibleRay_setValues]

theorem Grid.getDiagonalLength_setValues (g : Grid) (values : List Int) :
    Grid.getDiagonalLength { g with values_ := values } = g.getDiagonalLength :=
  rfl

theorem Grid.getRayToGridCorner_setValues (g : Grid) (values : List Int) :
    Grid.getRayToGridCorner { g with values_ := values } = g.getRayToGridCorner :=
  rfl

theorem Grid.raysBehind_setValues (g : Grid) (values : List Int) (ray : LineSegment)
    (line_segments : List LineSegment) :
    Grid.raysBehind { g with values_ := values } ray line_segments =
      g.raysBehind ray line_segments := by
  induction line_segments with
  | nil => rfl
  | cons line_segment rest ih =>
    unfold Grid.raysBehind
    rw [ih, Grid.getDiagonalLength_setValues]

theorem Grid.raysToGridCorner_setValues (g : Grid) (values : List Int)
    (line_segments_on_hull rays : List LineSegment) :
    Grid.raysToGridCorner { g with values_ := values } line_segments_on_hull rays =
      g.raysToGridCorner line_segments_on_hull rays := by
  induction rays with
  | nil => rfl
  | cons ray rays ih =>
    unfold Grid.raysToGridCorner
    rw [ih, Grid.raysBehind_setValues]

theorem Grid.returnedCells_congr {g g' : Grid} (h : g.sameFrame g')
    (line_segments : List LineSegment) :
    g'.returnedCells line_segments = g.returnedCells line_segments := by
  rw [← Grid.fillByIntersections_snd_returnedCells _ _ 0,
    ← Grid.fillByIntersections_snd_returnedCells _ _ 0]
  exact Grid.fillByIntersections_snd_congr h _ 0 0

/-- The cells `addPrimitive` writes depend on the constant members and the
origin only, not on the contents of the cost array. -/
theorem Grid.addPrimitiveCells_congr {g g' : Grid} (h : g.sameFrame g')
    (primitive : primitives.Primitive) :
    g'.addPrimitiveCells primitive = g.addPrimitiveCells primitive := by
  unfold Grid.addPrimitiveCells
  have h1 : g'.raysToGridCorner (getLineSegments primitive.get2DConvexHull)
      g'.getRayToGridCorner =
      g.raysToGridCorner (getLineSegments primitive.get2DConvexHull) g.getRayToGridCorner := by
    rw [Grid.eq_of_sameFrame h, Grid.getRayToGridCorner_setValues,
      Grid.raysToGridCorner_setValues]
  have h2 : g'.getInvisibleRays primitive.get2DConvexHull =
      g.getInvisibleRays primitive.get2DConvexHull := by
    rw [Grid.eq_of_sameFrame h, Grid.getInvisibleRays_setValues]
  have h3 : g'.spanCells = g.spanCells := funext (Grid.spanCells_congr h)
  have h4 : g'.returnedCells = g.returnedCells := funext (Grid.returnedCells_congr h)
  have h5 : g'.attemptsAll = g.attemptsAll := funext (Grid.attemptsAll_congr h)
  rw [h1, h2, h3, h4, h5]

/-- The value of an accepted cell after a sequence of writes of one value. -/
theorem Grid.fillCells_cell (g : Grid) (cells : List (Nat × Nat)) (data : Int)
    (hlen : g.getData.length = g.height * g.width) (row col : Nat)
    (hacc : g.accepts (row, col) = true) :
    ((row, col) ∈ cells → (g.fillCells cells data).cell row col = some data) ∧
      ((row, col) ∉ cells → (g.fillCells cells data).cell row col = g.cell row col) := by
  have hf := g.fillCells_sameFrame cells data
  have hcell : (g.fillCells cells data).cell row col =
      (g.fillCells cells data).values_[g.cellIndex (row, col)]? := by
    unfold Grid.cell Grid.cellIndex
    rw [hf.2.2.1]
  rw [hcell]
  constructor
  · intro hmem
    apply g.fillCells_get_of_mem cells data (row, col) hmem hacc
    have := g.cellIndex_lt (row, col) hacc
    unfold Grid.getData at hlen
    omega
  · intro hnot
    rw [g.fillCells_get_of_not_mem]
    · rfl
    · intro rc hrc hrcacc heq
      have := g.cellIndex_injective rc (row, col) hrcacc hacc heq
      subst this
      exact hnot hrc

/-- Claim C16: `addPrimitive` composes by plain overwrite. For two grids with
the same constant members and origin, whatever their contents, `addPrimitive`
has a result on both or on neither and writes the same cells with the same
values: a cell of the occupied pass holds `occupied_cost` in both results, any
other cell of the shadow pass holds `invisible_cost` in both, and every other
cell of the grid keeps, in each result, the value it had before. -/
theorem addPrimitive_overwrites (g1 g2 g1' : Grid) (primitive : primitives.Primitive)
    (hf : g1.sameFrame g2) (hlen1 : g1.getData.length = g1.height * g1.width)
    (hlen2 : g2.getData.length = g2.height * g2.width)
    (h : g1.addPrimitive primitive = some g1') :
    ∃ (g2' : Grid) (shadow occupied : List (Nat × Nat)),
      g2.addPrimitive primitive = some g2' ∧
      g1.addPrimitiveCells primitive = some (shadow, occupied) ∧
      g2.addPrimitiveCells primitive = some (shadow, occupied) ∧
      ∀ row col : Nat, row < g1.width → col < g1.height →
        ((row, col) ∈ occupied →
          g1'.cell row col = some g1.occupied_cost ∧ g2'.cell row col = some g1.occupied_cost) ∧
        ((row, col) ∉ occupied → (row, col) ∈ shadow →
          g1'.cell row col = some g1.invisible_cost ∧
            g2'.cell row col = some g1.invisible_cost) ∧
        ((row, col) ∉ occupied → (row, col) ∉ shadow →
          g1'.cell row col = g1.cell row col ∧ g2'.cell row col = g2.cell row col) := by
  rw [Grid.addPrimitive_eq] at h
  cases hc : g1.addPrimitiveCells primitive with
  | none => rw [hc] at h; cases h
  | some cells =>
    obtain ⟨shadow, occupied⟩ := cells
    rw [hc] at h
    simp only [Option.map_some', Option.some.injEq] at h
    have hc2 : g2.addPrimitiveCells primitive = some (shadow, occupied) := by
      rw [Grid.addPrimitiveCells_congr hf, hc]
    refine ⟨(g2.fillCells shadow g1.invisible_cost).fillCells occupied g1.occupied_cost,
      shadow, occupied, ?_, rfl, hc2, ?_⟩
    · rw [Grid.addPrimitive_eq, hc2, hf.2.2.2.1, hf.2.2.2.2.1]
      rfl
    · have key : ∀ (g : Grid), g.getData.length = g.height * g.width →
          ∀ row col : Nat, row < g.width → col < g.height →
          ((row, col) ∈ occupied →
            ((g.fillCells shadow g.invisible_cost).fillCells occupied g.occupied_cost).cell
              row col = some g.occupied_cost) ∧
          ((row, col) ∉ occupied → (row, col) ∈ shadow →
            ((g.fillCells shadow g.invisible_cost).fillCells occupied g.occupied_cost).cell
              row col = some g.invisible_cost) ∧
          ((row, col) ∉ occupied → (row, col) ∉ shadow →
            ((g.fillCells shadow g.invisible_cost).fillCells occupied g.occupied_cost).cell
              row col = g.cell row col) := by
        intro g hlen row col hr hcl
        have hacc : g.accepts (row, col) = true := (g.accepts_iff (row, col)).mpr ⟨hr, hcl⟩
        have hfs := g.fillCells_sameFrame shadow g.invisible_cost
        have hlen' : (g.fillCells shadow g.invisible_cost).getData.length =
            (g.fillCells shadow g.invisible_cost).height *
              (g.fillCells shadow g.invisible_cost).width := by
          unfold Grid.getData at hlen ⊢
          rw [Grid.fillCells_length, hfs.2.1, hfs.2.2.1, hlen]
        have hacc' : (g.fillCells shadow g.invisible_cost).accepts (row, col) = true := by
          rw [Grid.accepts_congr hfs]
          exact hacc
        have h2 := Grid.fillCells_cell (g.fillCells shadow g.invisible_cost) occupied
          g.occupied_cost hlen' row col hacc'
        have h1 := g.fillCells_cell shadow g.invisible_cost hlen row col hacc
        refine ⟨h2.1, fun hno hs => ?_, fun hno hns => ?_⟩
        · rw [h2.2 hno]
          exact h1.1 hs
        · rw [h2.2 hno]
          exact h1.2 hns
      intro row col hr hcl
      have k1 := key g1 hlen1 row col hr hcl
      have k2 := key g2 hlen2 row col (by rw [hf.2.2.1]; exact hr) (by rw [hf.2.1]; exact hcl)
      rw [h] at k1
      rw [hf.2.2.2.1, hf.2.2.2.2.1] at k2
      exact ⟨fun ho => ⟨k1.1 ho, k2.1 ho⟩, fun hno hs => ⟨k1.2.1 hno hs, k2.2.1 hno hs⟩,
        fun hno hns => ⟨k1.2.2 hno hns, k2.2.2 hno hns⟩⟩

/-- The premises of `addPrimitive_overwrites` hold for the four by four grid
as constructed and the same grid with two cells already written, and
`addPrimitive` on the triangle has a result on the first. -/
theorem addPrimitive_overwrites_witness :
    (squareGrid.sameFrame singlePointGrid ∧
      squareGrid.getData.length = squareGrid.height * squareGrid.width ∧
      singlePointGrid.getData.length = singlePointGrid.height * singlePointGrid.width ∧
      squareGrid.addPrimitive insideTriangle = some insideTriangleGrid) ∧
    ∃ (g2' : Grid) (shadow occupied : List (Nat × Nat)),
      singlePointGrid.addPrimitive insideTriangle = some g2' ∧
      squareGrid.addPrimitiveCells insideTriangle = some (shadow, occupied) ∧
      singlePointGrid.addPrimitiveCells insideTriangle = some (shadow, occupied) ∧
      ∀ row col : Nat, row < squareGrid.width → col < squareGrid.height →
        ((row, col) ∈ occupied →
          insideTriangleGrid.cell row col = some squareGrid.occupied_cost ∧
            g2'.cell row col = some squareGrid.occupied_cost) ∧
        ((row, col) ∉ occupied → (row, col) ∈ shadow →
          insideTriangleGrid.cell row col = some squareGrid.invisible_cost ∧
            g2'.cell row col = some squareGrid.invisible_cost) ∧
        ((row, col) ∉ occupied → (row, col) ∉ shadow →
          insideTriangleGrid.cell row col = squareGrid.cell row col ∧
            g2'.cell row col = singlePointGrid.cell row col) :=
  ⟨⟨⟨rfl, rfl, rfl, rfl, rfl, rfl⟩, by decide!, by decide!, by decide!⟩,
    addPrimitive_overwrites squareGrid singlePointGrid insideTriangleGrid insideTriangle
      ⟨rfl, rfl, rfl, rfl, rfl, rfl⟩ (by decide!) (by decide!) (by decide!)⟩

/-! ## Intersection of two line segments -/

theorem between_ends (a0 a1 t : ℚ) (ht0 : 0 ≤ t) (ht1 : t ≤ 1) :
    min a0 a1 ≤ a0 + t * (a1 - a0) ∧ a0 + t * (a1 - a0) ≤ max a0 a1 := by
  rcases le_total a0 a1 with hab | hab
  · rw [min_eq_left hab, max_eq_right hab]
    constructor
    · nlinarith [mul_nonneg ht0 (sub_nonneg.mpr hab)]
    · nlinarith [mul_nonneg (sub_nonneg.mpr ht1) (sub_nonneg.mpr hab)]
  · rw [min_eq_right hab, max_eq_left hab]
    constructor
    · nlinarith [mul_nonneg (sub_nonneg.mpr ht1) (sub_nonneg.mpr hab)]
    · nlinarith [mul_nonneg ht0 (sub_nonneg.mpr hab)]

/-- Two intervals given in increasing order that reach each other have a
common point. -/
theorem interval_meet_ordered (a0 a1 b0 b1 : ℚ) (ha : a0 ≤ a1) (h1 : a0 ≤ b1)
    (h2 : b0 ≤ a1) :
    ∃ t u : ℚ, 0 ≤ t ∧ t ≤ 1 ∧ 0 ≤ u ∧ u ≤ 1 ∧ a0 + t * (a1 - a0) = b0 + u * (b1 - b0) := by
  rcases le_or_lt a0 b0 with h | h
  · rcases eq_or_lt_of_le ha with he | hl
    · refine ⟨0, 0, le_refl 0, zero_le_one, le_refl 0, zero_le_one, ?_⟩
      have : b0 = a0 := le_antisymm (by rw [he]; exact h2) h
      rw [this]
      ring
    · have hd : 0 < a1 - a0 := sub_pos.mpr hl
      refine ⟨(b0 - a0) / (a1 - a0), 0, div_nonneg (sub_nonneg.mpr h) (le_of_lt hd), ?_,
        le_refl 0, zero_le_one, ?_⟩
      · rw [div_le_one hd]
        linarith
      · field_simp
  · have hd : 0 < b1 - b0 := by linarith
    refine ⟨0, (a0 - b0) / (b1 - b0), le_refl 0, zero_le_one,
      div_nonneg (le_of_lt (sub_pos.mpr h)) (le_of_lt hd), ?_, ?_⟩
    · rw [div_le_one hd]
      linarith
    · field_simp

/-- Two intervals whose ranges reach each other have a common point, whatever
the order of their ends. -/
theorem interval_meet (a0 a1 b0 b1 : ℚ) (h1 : min a0 a1 ≤ max b0 b1)
    (h2 : min b0 b1 ≤ max a0 a1) :
    ∃ t u : ℚ, 0 ≤ t ∧ t ≤ 1 ∧ 0 ≤ u ∧ u ≤ 1 ∧ a0 + t * (a1 - a0) = b0 + u * (b1 - b0) := by
  rcases le_total a0 a1 with ha | ha <;> rcases le_total b0 b1 with hb | hb
  · rw [min_eq_left ha, max_eq_right hb] at h1
    rw [min_eq_left hb, max_eq_right ha] at h2
    exact interval_meet_ordered a0 a1 b0 b1 ha h1 h2
  · rw [min_eq_left ha, max_eq_left hb] at h1
    rw [min_eq_right hb, max_eq_right ha] at h2
    obtain ⟨t, u, ht0, ht1, hu0, hu1, he⟩ := interval_meet_ordered a0 a1 b1 b0 ha h1 h2
    exact ⟨t, 1 - u, ht0, ht1, by linarith, by linarith, by linear_combination he⟩
  · rw [min_eq_right ha, max_eq_right hb] at h1
    rw [min_eq_left hb, max_eq_left ha] at h2
    obtain ⟨t, u, ht0, ht1, hu0, hu1, he⟩ := interval_meet_ordered a1 a0 b0 b1 ha h1 h2
    exact ⟨1 - t, u, by linarith, by linarith, hu0, hu1, by linear_combination he⟩
  · rw [min_eq_right ha, max_eq_left hb] at h1
    rw [min_eq_right hb, max_eq_left ha] at h2
    obtain ⟨t, u, ht0, ht1, hu0, hu1, he⟩ := interval_meet_ordered a1 a0 b1 b0 ha h1 h2
    exact ⟨1 - t, 1 - u, by linarith, by linarith, by linarith, by linarith,
      by linear_combination he⟩

/-- Two segments share a point: there are parameters in `[0, 1]` along each
that give the same point of the plane. -/
theorem share_point_iff (a b : LineSegment) :
    (∃ x y : ℚ, a.contains x y ∧ b.contains x y) ↔
      ∃ t u : ℚ, 0 ≤ t ∧ t ≤ 1 ∧ 0 ≤ u ∧ u ≤ 1 ∧
        a.start_point.x + t * (a.end_point.x - a.start_point.x) =
          b.start_point.x + u * (b.end_point.x - b.start_point.x) ∧
        a.start_point.y + t * (a.end_point.y - a.start_point.y) =
          b.start_point.y + u * (b.end_point.y - b.start_point.y) := by
  constructor
  · rintro ⟨x, y, ⟨t, ht0, ht1, hx, hy⟩, ⟨u, hu0, hu1, hx', hy'⟩⟩
    exact ⟨t, u, ht0, ht1, hu0, hu1, by rw [← hx, ← hx'], by rw [← hy, ← hy']⟩
  · rintro ⟨t, u, ht0, ht1, hu0, hu1, hx, hy⟩
    exact ⟨_, _, ⟨t, ht0, ht1, rfl, rfl⟩, ⟨u, hu0, hu1, hx, hy⟩⟩

/-- The crossing of two segments that are not parallel: the parameters of the
common point of their lines. -/
theorem crossing_params (a b : LineSegment) (hdet : determinant a b ≠ 0) (t u : ℚ) :
    (a.start_point.x + t * (a.end_point.x - a.start_point.x) =
        b.start_point.x + u * (b.end_point.x - b.start_point.x) ∧
      a.start_point.y + t * (a.end_point.y - a.start_point.y) =
        b.start_point.y + u * (b.end_point.y - b.start_point.y)) ↔
      (t = paramT a b ∧ u = paramU a b) := by
  unfold paramT paramU
  unfold determinant cross at hdet ⊢
  constructor
  · rintro ⟨hx, hy⟩
    constructor
    · rw [eq_div_iff hdet]
      linear_combination (b.end_point.y - b.start_point.y) * hx -
        (b.end_point.x - b.start_point.x) * hy
    · rw [eq_div_iff hdet]
      linear_combination (a.end_point.y - a.start_point.y) * hx -
        (a.end_point.x - a.start_point.x) * hy
  · rintro ⟨ht, hu⟩
    rw [ht, hu]
    constructor
    · field_simp
      ring
    · field_simp
      ring

/-- Two parallel segments share a point exactly when they lie on one line and
their coordinate ranges meet. -/
theorem parallel_share_iff (a b : LineSegment) (hdet : determinant a b = 0) :
    (∃ t u : ℚ, 0 ≤ t ∧ t ≤ 1 ∧ 0 ≤ u ∧ u ≤ 1 ∧
        a.start_point.x + t * (a.end_point.x - a.start_point.x) =
          b.start_point.x + u * (b.end_point.x - b.start_point.x) ∧
        a.start_point.y + t * (a.end_point.y - a.start_point.y) =
          b.start_point.y + u * (b.end_point.y - b.start_point.y)) ↔
      (collinear a b = true ∧ rangesOverlap a b = true) := by
  unfold collinear rangesOverlap
  simp only [Bool.and_eq_true, decide_eq_true_eq]
  unfold determinant at hdet
  unfold cross at hdet ⊢
  constructor
  · rintro ⟨t, u, ht0, ht1, hu0, hu1, hx, hy⟩
    have bax := between_ends a.start_point.x a.end_point.x t ht0 ht1
    have bay := between_ends a.start_point.y a.end_point.y t ht0 ht1
    have bbx := between_ends b.start_point.x b.end_point.x u hu0 hu1
    have bby := between_ends b.start_point.y b.end_point.y u hu0 hu1
    rw [hx] at bax
    rw [hy] at bay
    refine ⟨⟨?_, ?_⟩, ⟨⟨⟨le_trans bax.1 bbx.2, le_trans bbx.1 bax.2⟩, le_trans bay.1 bby.2⟩,
      le_trans bby.1 bay.2⟩⟩
    · linear_combination (-(a.end_point.y - a.start_point.y)) * hx +
        (a.end_point.x - a.start_point.x) * hy + u * hdet
    · linear_combination (-(b.end_point.y - b.start_point.y)) * hx +
        (b.end_point.x - b.start_point.x) * hy + t * hdet
  · rintro ⟨⟨c1, c2⟩, ⟨⟨⟨rx1, rx2⟩, ry1⟩, ry2⟩⟩
    by_cases hxs : a.end_point.x - a.start_point.x ≠ 0 ∨ b.end_point.x - b.start_point.x ≠ 0
    · obtain ⟨t, u, ht0, ht1, hu0, hu1, hx⟩ :=
        interval_meet a.start_point.x a.end_point.x b.start_point.x b.end_point.x rx1 rx2
      refine ⟨t, u, ht0, ht1, hu0, hu1, hx, ?_⟩
      rcases hxs with hr | hs
      · apply mul_left_cancel₀ hr
        linear_combination (a.end_point.y - a.start_point.y) * hx - u * hdet + c1
      · apply mul_left_cancel₀ hs
        linear_combination (b.end_point.y - b.start_point.y) * hx - t * hdet + c2
    · rw [not_or, not_not, not_not] at hxs
      obtain ⟨hr0, hs0⟩ := hxs
      by_cases hys : a.end_point.y - a.start_point.y ≠ 0 ∨
          b.end_point.y - b.start_point.y ≠ 0
      · obtain ⟨t, u, ht0, ht1, hu0, hu1, hy⟩ :=
          interval_meet a.start_point.y a.end_point.y b.start_point.y b.end_point.y ry1 ry2
        refine ⟨t, u, ht0, ht1, hu0, hu1, ?_, hy⟩
        rw [hr0, hs0, mul_zero, mul_zero, add_zero, add_zero]
        rw [hr0, mul_zero, sub_zero] at c1
        rw [hs0, mul_zero, sub_zero] at c2
        rcases hys with hr | hs
        · rcases mul_eq_zero.mp c1 with h | h
          · linarith
          · exact absurd h hr
        · rcases mul_eq_zero.mp c2 with h | h
          · linarith
          · exact absurd h hs
      · rw [not_or, not_not, not_not] at hys
        obtain ⟨hr1, hs1⟩ := hys
        have ea : a.end_point.x = a.start_point.x := sub_eq_zero.mp hr0
        have eb : b.end_point.x = b.start_point.x := sub_eq_zero.mp hs0
        have ea' : a.end_point.y = a.start_point.y := sub_eq_zero.mp hr1
        have eb' : b.end_point.y = b.start_point.y := sub_eq_zero.mp hs1
        rw [ea, eb, min_self, max_self] at rx1 rx2
        rw [ea', eb', min_self, max_self] at ry1 ry2
        refine ⟨0, 0, le_refl 0, zero_le_one, le_refl 0, zero_le_one, ?_, ?_⟩
        · rw [zero_mul, zero_mul, add_zero, add_zero]
          exact le_antisymm rx1 rx2
        · rw [zero_mul, zero_mul, add_zero, add_zero]
          exact le_antisymm ry1 ry2

/-- The test `isIntersect2D` is true exactly when the two segments have a
point in common. -/
theorem isIntersect2D_iff (a b : LineSegment) :
    isIntersect2D a b = true ↔ ∃ x y : ℚ, a.contains x y ∧ b.contains x y := by
  rw [share_point_iff]
  unfold isIntersect2D
  by_cases hdet : determinant a b = 0
  · rw [if_pos hdet, Bool.and_eq_true]
    exact (parallel_share_iff a b hdet).symm
  · rw [if_neg hdet]
    simp only [Bool.and_eq_true, decide_eq_true_eq]
    constructor
    · rintro ⟨⟨⟨ht0, ht1⟩, hu0⟩, hu1⟩
      exact ⟨paramT a b, paramU a b, ht0, ht1, hu0, hu1,
        (crossing_params a b hdet _ _).mpr ⟨rfl, rfl⟩⟩
    · rintro ⟨t, u, ht0, ht1, hu0, hu1, hx, hy⟩
      obtain ⟨ht, hu⟩ := (crossing_params a b hdet t u).mp ⟨hx, hy⟩
      rw [← ht, ← hu]
      exact ⟨⟨⟨ht0, ht1⟩, hu0⟩, hu1⟩

/-! ## Rays to the corners of the grid -/

/-- The rays of `getRayToGridCorner` are four and start at the position of the
origin. -/
theorem Grid.getRayToGridCorner_starts (g : Grid) :
    g.getRayToGridCorner.length = 4 ∧
      ∀ ray ∈ g.getRayToGridCorner, ray.start_point = g.origin_.position := by
  unfold Grid.getRayToGridCorner
  simp

/-- Claim C17, evaluated on the code: with `height = 1` and `width = 2` at the
identity pose the four rays end at the pixels `(3/2, 3/2)`, `(3/2, 1/2)`,
`(-1/2, 1/2)` and `(-1/2, 3/2)`, not at the corners `(2, 1)`, `(2, 0)`, `(0, 0)`
and `(0, 1)`; on the four by four grid turned by half a turn and placed at
`(1, 0, 0)` they end at `(2, 4)`, `(2, 0)`, `(-2, 0)` and `(-2, 4)`, not at
`(4, 4)`, `(4, 0)`, `(0, 0)` and `(0, 4)`, where they do end at the identity
pose. -/
theorem getRayToGridCorner_misses_corners :
    wideGrid.cornerPixels =
        [⟨3 / 2, 3 / 2, 0⟩, ⟨3 / 2, 1 / 2, 0⟩, ⟨-1 / 2, 1 / 2, 0⟩, ⟨-1 / 2, 3 / 2, 0⟩] ∧
      halfTurnGrid.cornerPixels = [⟨2, 4, 0⟩, ⟨2, 0, 0⟩, ⟨-2, 0, 0⟩, ⟨-2, 4, 0⟩] ∧
      squareGrid.cornerPixels = [⟨4, 4, 0⟩, ⟨4, 0, 0⟩, ⟨0, 0, 0⟩, ⟨0, 4, 0⟩] := by
  decide!

/-! ## The intersection queries -/

/-- Claim C18: `isIntersect2D(a, b)` is true if and only if the segments `a`
and `b` have at least one point in common; in particular a segment intersects
itself, the crossing segments of the tests intersect and the disjoint ones do
not. -/
theorem isIntersect2D_share_point (a b : LineSegment) :
    (isIntersect2D a b = true ↔ ∃ x y : ℚ, a.contains x y ∧ b.contains x y) ∧
      isIntersect2D a a = true ∧
      isIntersect2D (segment 0 0 1 1) (segment 1 0 0 1) = true ∧
      isIntersect2D (segment 0 0 1 1) (segment 1 0 2 1) = false :=
  ⟨isIntersect2D_iff a b,
    (isIntersect2D_iff a a).mpr
      ⟨a.start_point.x, a.start_point.y, ⟨0, le_refl 0, zero_le_one, by ring, by ring⟩,
        ⟨0, le_refl 0, zero_le_one, by ring, by ring⟩⟩,
    by decide!, by decide!⟩

/-- Claim C19: when the segments `a` and `b` are not parallel and have a
common point, `getIntersection2D(a, b)` is present and is that point; for the
segments from `(0, 0)` to `(1, 1)` and from `(1, 0)` to `(0, 1)` it is
`(1/2, 1/2)`. -/
theorem getIntersection2D_crossing (a b : LineSegment) (x y : ℚ)
    (hdet : determinant a b ≠ 0) (ha : a.contains x y) (hb : b.contains x y) :
    (∃ p : Point, getIntersection2D a b = Intersection.point p ∧ p.x = x ∧ p.y = y) ∧
      getIntersection2D (segment 0 0 1 1) (segment 1 0 0 1) =
        Intersection.point ⟨1 / 2, 1 / 2, 0⟩ := by
  refine ⟨?_, by decide!⟩
  have hi : isIntersect2D a b = true := (isIntersect2D_iff a b).mpr ⟨x, y, ha, hb⟩
  obtain ⟨t, _, _, hx, hy⟩ := ha
  obtain ⟨u, _, _, hx', hy'⟩ := hb
  obtain ⟨ht, _⟩ := (crossing_params a b hdet t u).mp ⟨by rw [← hx, ← hx'], by rw [← hy, ← hy']⟩
  unfold getIntersection2D
  rw [if_pos hi, if_neg hdet]
  refine ⟨_, rfl, ?_, ?_⟩
  · simp only
    rw [← ht, hx]
  · simp only
    rw [← ht, hy]

/-- The premises of `getIntersection2D_crossing` hold for the crossing
segments of the tests and their common point `(1/2, 1/2)`. -/
theorem getIntersection2D_crossing_witness :
    (determinant (segment 0 0 1 1) (segment 1 0 0 1) ≠ 0 ∧
      (segment 0 0 1 1).contains (1 / 2) (1 / 2) ∧ (segment 1 0 0 1).contains (1 / 2) (1 / 2)) ∧
    ((∃ p : Point, getIntersection2D (segment 0 0 1 1) (segment 1 0 0 1) = Intersection.point p ∧
        p.x = 1 / 2 ∧ p.y = 1 / 2) ∧
      getIntersection2D (segment 0 0 1 1) (segment 1 0 0 1) =
        Intersection.point ⟨1 / 2, 1 / 2, 0⟩) :=
  have ha : (segment 0 0 1 1).contains (1 / 2) (1 / 2) :=
    ⟨1 / 2, by decide!, by decide!, by decide!, by decide!⟩
  have hb : (segment 1 0 0 1).contains (1 / 2) (1 / 2) :=
    ⟨1 / 2, by decide!, by decide!, by decide!, by decide!⟩
  ⟨⟨by decide!, ha, hb⟩,
    getIntersection2D_crossing (segment 0 0 1 1) (segment 1 0 0 1) (1 / 2) (1 / 2) (by decide!)
      ha hb⟩

/-- Claim C20: when the segments `a` and `b` have no point in common,
`getIntersection2D(a, b)` is absent. -/
theorem getIntersection2D_disjoint (a b : LineSegment)
    (h : ¬ ∃ x y : ℚ, a.contains x y ∧ b.contains x y) :
    getIntersection2D a b = Intersection.absent := by
  unfold getIntersection2D
  rw [if_neg (fun hi => h ((isIntersect2D_iff a b).mp hi))]

/-- The premise of `getIntersection2D_disjoint` holds for the disjoint
segments of the tests, from `(0, 0)` to `(1, 1)` and from `(1, 0)` to
`(2, 1)`. -/
theorem getIntersection2D_disjoint_witness :
    (¬ ∃ x y : ℚ, (segment 0 0 1 1).contains x y ∧ (segment 1 0 2 1).contains x y) ∧
      getIntersection2D (segment 0 0 1 1) (segment 1 0 2 1) = Intersection.absent :=
  have h : ¬ ∃ x y : ℚ, (segment 0 0 1 1).contains x y ∧ (segment 1 0 2 1).contains x y :=
    fun hs => absurd ((isIntersect2D_iff _ _).mpr hs) (by decide!)
  ⟨h, getIntersection2D_disjoint (segment 0 0 1 1) (segment 1 0 2 1) h⟩

/-! ## More on the intersection queries -/

theorem determinant_self (a : LineSegment) : determinant a a = 0 := by
  unfold determinant cross
  ring

theorem isIntersect2D_self (a : LineSegment) : isIntersect2D a a = true :=
  (isIntersect2D_iff a a).mpr
    ⟨a.start_point.x, a.start_point.y, ⟨0, le_refl 0, zero_le_one, by ring, by ring⟩,
      ⟨0, le_refl 0, zero_le_one, by ring, by ring⟩⟩

/-- Claim C21: for every segment `a`, `getIntersection2D(a, a)` is present with
undefined (not-a-number) coordinates: it is neither an ordinary point nor
absent. -/
theorem getIntersection2D_self (a : LineSegment) :
    getIntersection2D a a = Intersection.undefined ∧
      getIntersection2D a a ≠ Intersection.absent ∧
      ∀ p : Point, getIntersection2D a a ≠ Intersection.point p := by
  have h : getIntersection2D a a = Intersection.undefined := by
    unfold getIntersection2D
    rw [if_pos (isIntersect2D_self a), if_pos (determinant_self a)]
  rw [h]
  exact ⟨rfl, fun hc => Intersection.noConfusion hc, fun p hc => Intersection.noConfusion hc⟩

/-- Claim C22: for all segments `a` and `b`, `isIntersect2D(a, b)` equals
`isIntersect2D(b, a)`. -/
theorem isIntersect2D_comm (a b : LineSegment) : isIntersect2D a b = isIntersect2D b a := by
  rw [Bool.eq_iff_iff, isIntersect2D_iff, isIntersect2D_iff]
  constructor
  · rintro ⟨x, y, h1, h2⟩
    exact ⟨x, y, h2, h1⟩
  · rintro ⟨x, y, h1, h2⟩
    exact ⟨x, y, h2, h1⟩

/-- The batch test is true exactly when the segments at two different
positions intersect. -/
theorem isIntersect2DVector_iff (lines : List LineSegment) :
    isIntersect2DVector lines = true ↔
      ∃ (i j : Nat) (a b : LineSegment), i ≠ j ∧ lines[i]? = some a ∧ lines[j]? = some b ∧
        isIntersect2D a b = true := by
  unfold isIntersect2DVector
  simp only [List.any_eq_true, List.mem_range]
  constructor
  · rintro ⟨i, _, m, _, h⟩
    cases hi : lines[i]? with
    | none => rw [hi] at h; cases h
    | some a =>
      cases hm : lines[m]? with
      | none => rw [hi, hm] at h; cases h
      | some b =>
        rw [hi, hm] at h
        simp only [Bool.and_eq_true, decide_eq_true_eq] at h
        exact ⟨i, m, a, b, h.1, hi, hm, h.2⟩
  · rintro ⟨i, j, a, b, hne, hi, hj, hab⟩
    have hil : i < lines.length := (List.getElem?_eq_some_iff.mp hi).1
    have hjl : j < lines.length := (List.getElem?_eq_some_iff.mp hj).1
    refine ⟨i, hil, j, hjl, ?_⟩
    rw [hi, hj]
    simp only [Bool.and_eq_true, decide_eq_true_eq]
    exact ⟨hne, hab⟩

/-- Claim C23: the batch `isIntersect2D(segments)` is true if and only if
there are two distinct positions whose segments intersect; in particular a
sequence holding the same segment at two positions, such as `[a, a, a]`, is
intersecting. -/
theorem isIntersect2DVector_pairs (lines : List LineSegment) (a : LineSegment) :
    (isIntersect2DVector lines = true ↔
      ∃ (i j : Nat) (s t : LineSegment), i ≠ j ∧ lines[i]? = some s ∧ lines[j]? = some t ∧
        isIntersect2D s t = true) ∧
    ((∃ i j : Nat, i ≠ j ∧ lines[i]? = some a ∧ lines[j]? = some a) →
      isIntersect2DVector lines = true) ∧
    isIntersect2DVector [a, a, a] = true := by
  refine ⟨isIntersect2DVector_iff lines, ?_, ?_⟩
  · rintro ⟨i, j, hne, hi, hj⟩
    exact (isIntersect2DVector_iff lines).mpr ⟨i, j, a, a, hne, hi, hj, isIntersect2D_self a⟩
  · exact (isIntersect2DVector_iff [a, a, a]).mpr
      ⟨0, 1, a, a, by decide, rfl, rfl, isIntersect2D_self a⟩

/-- The premise of the second part of `isIntersect2DVector_pairs` holds for
the list of the tests, three times the segment from `(0, 0)` to `(1, 1)`. -/
theorem isIntersect2DVector_pairs_witness :
    (∃ i j : Nat, i ≠ j ∧
      [segment 0 0 1 1, segment 0 0 1 1, segment 0 0 1 1][i]? = some (segment 0 0 1 1) ∧
      [segment 0 0 1 1, segment 0 0 1 1, segment 0 0 1 1][j]? = some (segment 0 0 1 1)) ∧
    isIntersect2DVector [segment 0 0 1 1, segment 0 0 1 1, segment 0 0 1 1] = true :=
  ⟨⟨0, 1, by decide, rfl, rfl⟩,
    (isIntersect2DVector_pairs [segment 0 0 1 1, segment 0 0 1 1, segment 0 0 1 1]
      (segment 0 0 1 1)).2.1 ⟨0, 1, by decide, rfl, rfl⟩⟩

/-- Claim C24: on the empty sequence the batch `isIntersect2D` returns false
and the batch `getIntersection2D` returns the empty sequence; on every
sequence of one segment the batch `isIntersect2D` returns false. Both
functions have a result for every sequence. -/
theorem batch_vacuous (a : LineSegment) :
    isIntersect2DVector [] = false ∧ getIntersection2DVector [] = [] ∧
      isIntersect2DVector [a] = false := by
  refine ⟨rfl, rfl, ?_⟩
  rw [← Bool.not_eq_true, isIntersect2DVector_iff]
  rintro ⟨i, j, s, t, hne, hi, hj, _⟩
  have hil := (List.getElem?_eq_some_iff.mp hi).1
  have hjl := (List.getElem?_eq_some_iff.mp hj).1
  simp only [List.length_singleton] at hil hjl
  omega

/-! ## The cells of a segment that is not axis-aligned -/

/-- Claim C25: for a segment that is not axis-aligned in pixel space (its end
points differ in row and in column), the cells `fillByIntersection` hands to
the setter are exactly: for each row `r` with
`min(start_row, end_row) < r <= max(start_row, end_row)`, `0 <= r < width` and
`c = floor(slope * r + intercept)` in `[0, height)`, the cell `(r, c)` and,
when `r` is not the maximum row, the cell `(r - 1, c)`; and for each column `c`
of the symmetric range with `r = floor((c - intercept) / slope)` in
`[0, width)`, the cell `(r, c)` and, when `c` is not the maximum column, the
cell `(r, c - 1)`. The two expressions are evaluated in `double`, as the code
does. The call is the sequence of these calls of the setter, and returns the
accepted ones. -/
theorem fillByIntersection_attempted_cells (g : Grid) (ls : LineSegment) (data : Int)
    (hrow : g.startRow ls ≠ g.endRow ls) (hcol : g.startCol ls ≠ g.endCol ls)
    (a : Int × Int) :
    g.fillByIntersection ls data =
        (g.fillCells ((g.attempts ls).map toCell) data,
          sortAndUnique (((g.attempts ls).map toCell).filter g.accepts)) ∧
    (a ∈ g.attempts ls ↔
      (∃ r : Int, (min (g.startRow ls) (g.endRow ls) < r ∧ r ≤ max (g.startRow ls) (g.endRow ls)) ∧
        (0 ≤ r ∧ r < (g.width : Int)) ∧
        (0 ≤ ⌊binary64.add (binary64.mul (g.pixelLine ls).getSlope (r : ℚ))
            (g.pixelLine ls).getIntercept⌋ ∧
          ⌊binary64.add (binary64.mul (g.pixelLine ls).getSlope (r : ℚ))
            (g.pixelLine ls).getIntercept⌋ < (g.height : Int)) ∧
        (a = (r, ⌊binary64.add (binary64.mul (g.pixelLine ls).getSlope (r : ℚ))
            (g.pixelLine ls).getIntercept⌋) ∨
          (r ≠ max (g.startRow ls) (g.endRow ls) ∧
            a = (r - 1, ⌊binary64.add (binary64.mul (g.pixelLine ls).getSlope (r : ℚ))
              (g.pixelLine ls).getIntercept⌋)))) ∨
      (∃ c : Int, (min (g.startCol ls) (g.endCol ls) < c ∧ c ≤ max (g.startCol ls) (g.endCol ls)) ∧
        (0 ≤ c ∧ c < (g.height : Int)) ∧
        (0 ≤ ⌊binary64.div (binary64.sub (c : ℚ) (g.pixelLine ls).getIntercept)
            (g.pixelLine ls).getSlope⌋ ∧
          ⌊binary64.div (binary64.sub (c : ℚ) (g.pixelLine ls).getIntercept)
            (g.pixelLine ls).getSlope⌋ < (g.width : Int)) ∧
        (a = (⌊binary64.div (binary64.sub (c : ℚ) (g.pixelLine ls).getIntercept)
            (g.pixelLine ls).getSlope⌋, c) ∨
          (c ≠ max (g.startCol ls) (g.endCol ls) ∧
            a = (⌊binary64.div (binary64.sub (c : ℚ) (g.pixelLine ls).getIntercept)
              (g.pixelLine ls).getSlope⌋, c - 1))))) :=
  ⟨g.fillByIntersection_eq ls data, g.mem_attempts_general ls hrow hcol a⟩

/-- The premises of `fillByIntersection_attempted_cells` hold for the segment
from pixel `(1/2, 1/2)` to pixel `(7/2, 5/2)` of the four by four grid, which
hands `(0, 0)`, the cell one row before `(1, 0)`, to the setter. -/
theorem fillByIntersection_attempted_cells_witness :
    (squareGrid.startRow slantedSegment ≠ squareGrid.endRow slantedSegment ∧
      squareGrid.startCol slantedSegment ≠ squareGrid.endCol slantedSegment) ∧
    ((0, 0) ∈ squareGrid.attempts slantedSegment ∧
      squareGrid.attempts slantedSegment =
        [(1, 0), (0, 0), (2, 1), (1, 1), (3, 2), (1, 1), (1, 0), (2, 2)]) :=
  ⟨by decide!,
    ((fillByIntersection_attempted_cells squareGrid slantedSegment 7 (by decide!) (by decide!)
      (0, 0)).2.mpr (Or.inl ⟨1, by decide!⟩)), by decide!⟩

/-! ## The tables of the span fill and the storage index -/

/-- Claim C27, evaluated on the code: with `height = 1` and `width = 2`,
`fillByIntersection` returns the cells `(0, 0)` and `(1, 0)` for the segment
`wideSegment`, both with `row < width` and `col < height`; `fillInside` then
indexes its per-row table, of size `height = 1`, at row `1`, past its end. -/
theorem fillInside_returned_cells_past_table :
    (wideGrid.fillByIntersection wideSegment 100).2 = [(0, 0), (1, 0)] ∧
      (∀ rc ∈ (wideGrid.fillByIntersection wideSegment 100).2,
        rc.1 < wideGrid.width ∧ rc.2 < wideGrid.height) ∧
      (List.replicate wideGrid.height ([] : List Nat)).length = 1 ∧
      pushAt (List.replicate wideGrid.height []) 1 0 = none ∧
      wideGrid.groupByRow (wideGrid.fillByIntersection wideSegment 100).2 = none ∧
      (wideGrid.fillByIntersection wideSegment 100).1.fillInside
        (wideGrid.fillByIntersection wideSegment 100).2 100 = none := by
  decide!

theorem Grid.cellIndex_surjective (g : Grid) (i : Nat) (hi : i < g.height * g.width) :
    g.accepts (i % g.width, i / g.width) = true ∧ g.cellIndex (i % g.width, i / g.width) = i := by
  have hw : 0 < g.width := by
    rcases Nat.eq_zero_or_pos g.width with h | h
    · rw [h] at hi
      simp at hi
    · exact h
  refine ⟨(g.accepts_iff _).mpr ⟨Nat.mod_lt _ hw, ?_⟩, ?_⟩
  · exact (Nat.div_lt_iff_lt_mul hw).mpr hi
  · unfold Grid.cellIndex
    exact Nat.div_add_mod i g.width

/-- Claim C28: the storage index `(row, col) -> width * col + row` is a
bijection from the accepted cells, `row < width` and `col < height`, onto the
positions `[0, height * width)` of the cost array. On a grid whose array has
`height * width` entries, an accepted write lands inside the array, sets that
position and changes no other, so that every other accepted cell keeps its
value. -/
theorem cellIndex_bijection (g : Grid) :
    Set.BijOn g.cellIndex {rc | g.accepts rc = true} {i | i < g.height * g.width} ∧
    ∀ (row col : Nat) (data : Int), g.accepts (row, col) = true →
      g.getData.length = g.height * g.width →
      (g.fillByRowCol row col data).2 = true ∧
        g.cellIndex (row, col) < g.getData.length ∧
        (g.fillByRowCol row col data).1.getData = g.getData.set (g.cellIndex (row, col)) data ∧
        (g.fillByRowCol row col data).1.getData[g.cellIndex (row, col)]? = some data ∧
        (∀ i : Nat, i ≠ g.cellIndex (row, col) →
          (g.fillByRowCol row col data).1.getData[i]? = g.getData[i]?) ∧
        (∀ row' col' : Nat, g.accepts (row', col') = true → (row', col') ≠ (row, col) →
          (g.fillByRowCol row col data).1.cell row' col' = g.cell row' col') := by
  refine ⟨⟨fun rc hrc => g.cellIndex_lt rc hrc,
    fun rc hrc rc' hrc' heq => g.cellIndex_injective rc rc' hrc hrc' heq,
    fun i hi => ⟨_, (g.cellIndex_surjective i hi).1, (g.cellIndex_surjective i hi).2⟩⟩, ?_⟩
  intro row col data hacc hlen
  have hlt : g.cellIndex (row, col) < g.getData.length := by
    rw [hlen]
    exact g.cellIndex_lt (row, col) hacc
  have hget : ∀ i : Nat, (g.fillByRowCol row col data).1.getData[i]? =
      if g.cellIndex (row, col) = i then some data else g.getData[i]? := by
    intro i
    unfold Grid.getData at hlt ⊢
    rw [Grid.fillByRowCol_get]
    by_cases hi : g.cellIndex (row, col) = i
    · rw [if_pos ⟨hacc, hi, by omega⟩, if_pos hi]
    · rw [if_neg (fun h => hi h.2.1), if_neg hi]
  refine ⟨by rw [Grid.fillByRowCol_snd, hacc], hlt, ?_, ?_, ?_, ?_⟩
  · unfold Grid.getData
    rw [Grid.fillByRowCol_fst, if_pos hacc]
  · rw [hget, if_pos rfl]
  · intro i hi
    rw [hget, if_neg (Ne.symm hi)]
  · intro row' col' hacc' hne
    have hidx : g.cellIndex (row, col) ≠ g.cellIndex (row', col') := fun h =>
      hne (g.cellIndex_injective _ _ hacc' hacc h.symm)
    have h1 := hget (g.cellIndex (row', col'))
    rw [if_neg hidx] at h1
    unfold Grid.cell
    have hw : (g.fillByRowCol row col data).1.width = g.width :=
      (g.fillByRowCol_sameFrame row col data).2.2.1
    rw [hw]
    exact h1

/-- The premises of `cellIndex_bijection` hold on the four by four grid: the
write to the accepted cell `(1, 2)` lands at position `9`. -/
theorem cellIndex_bijection_witness :
    (squareGrid.accepts (1, 2) = true ∧
      squareGrid.getData.length = squareGrid.height * squareGrid.width) ∧
    ((squareGrid.fillByRowCol 1 2 7).2 = true ∧
      squareGrid.cellIndex (1, 2) < squareGrid.getData.length ∧
      (squareGrid.fillByRowCol 1 2 7).1.getData[squareGrid.cellIndex (1, 2)]? = some 7) :=
  ⟨by decide!,
    ((cellIndex_bijection squareGrid).2 1 2 7 (by decide!) (by decide!)).1,
    ((cellIndex_bijection squareGrid).2 1 2 7 (by decide!) (by decide!)).2.1,
    ((cellIndex_bijection squareGrid).2 1 2 7 (by decide!) (by decide!)).2.2.2.1⟩

/-! ## The points of the pixel segment behind the cells -/

/-- An integer line strictly after the lower and not after the higher of the
floors of two numbers lies between the numbers. -/
theorem exists_param_of_floor (a b : ℚ) (r : Int) (h1 : min ⌊a⌋ ⌊b⌋ < r)
    (h2 : r ≤ max ⌊a⌋ ⌊b⌋) :
    ∃ t : ℚ, 0 ≤ t ∧ t ≤ 1 ∧ (r : ℚ) = a + t * (b - a) := by
  rcases lt_trichotomy a b with hab | hab | hab
  · have hf : ⌊a⌋ ≤ ⌊b⌋ := Int.floor_mono hab.le
    rw [min_eq_left hf] at h1
    rw [max_eq_right hf] at h2
    have ha : a < (r : ℚ) := Int.floor_lt.mp h1
    have hb : (r : ℚ) ≤ b := Int.le_floor.mp h2
    have hd : 0 < b - a := sub_pos.mpr hab
    refine ⟨((r : ℚ) - a) / (b - a), div_nonneg (by linarith) hd.le,
      (div_le_one hd).mpr (by linarith), ?_⟩
    field_simp
  · subst hab
    rw [min_self] at h1
    rw [max_self] at h2
    omega
  · have hf : ⌊b⌋ ≤ ⌊a⌋ := Int.floor_mono hab.le
    rw [min_eq_right hf] at h1
    rw [max_eq_left hf] at h2
    have hb : b < (r : ℚ) := Int.floor_lt.mp h1
    have ha : (r : ℚ) ≤ a := Int.le_floor.mp h2
    have hd : 0 < a - b := sub_pos.mpr hab
    refine ⟨(a - (r : ℚ)) / (a - b), div_nonneg (by linarith) hd.le,
      (div_le_one hd).mpr (by linarith), ?_⟩
    field_simp
    ring

/-- The pixel segment meets every row line the loop over rows visits, at the
height of the straight line through its end points. -/
theorem Grid.row_line_point (g : Grid) (ls : LineSegment) (r : Int)
    (h1 : min (g.startRow ls) (g.endRow ls) < r) (h2 : r ≤ max (g.startRow ls) (g.endRow ls)) :
    (g.pixelLine ls).contains (r : ℚ)
      ((g.pixelLine ls).lineSlope * (r : ℚ) + (g.pixelLine ls).lineIntercept) := by
  have hne : (g.pixelLine ls).start_point.x ≠ (g.pixelLine ls).end_point.x := by
    intro h
    unfold Grid.startRow Grid.endRow at h1 h2
    rw [h, min_self] at h1
    rw [h, max_self] at h2
    omega
  obtain ⟨t, ht0, ht1, ht⟩ := exists_param_of_floor _ _ r h1 h2
  exact ⟨t, ht0, ht1, ht, (LineSegment_slope_intercept _ _ _ t hne ht rfl).symm ▸ rfl⟩

/-- The pixel segment meets every column line the loop over columns visits, at
the abscissa of the straight line through its end points. -/
theorem Grid.col_line_point (g : Grid) (ls : LineSegment) (c : Int)
    (hrow : g.startRow ls ≠ g.endRow ls)
    (h1 : min (g.startCol ls) (g.endCol ls) < c) (h2 : c ≤ max (g.startCol ls) (g.endCol ls)) :
    (g.pixelLine ls).contains
      (((c : ℚ) - (g.pixelLine ls).lineIntercept) / (g.pixelLine ls).lineSlope) (c : ℚ) := by
  have hne : (g.pixelLine ls).start_point.x ≠ (g.pixelLine ls).end_point.x :=
    floor_ne_imp_ne hrow
  have hne' : (g.pixelLine ls).start_point.y ≠ (g.pixelLine ls).end_point.y := by
    intro h
    unfold Grid.startCol Grid.endCol at h1 h2
    rw [h, min_self] at h1
    rw [h, max_self] at h2
    omega
  obtain ⟨t, ht0, ht1, ht⟩ := exists_param_of_floor _ _ c h1 h2
  exact ⟨t, ht0, ht1, (LineSegment_inverse_slope _ _ _ t hne hne' rfl ht).symm ▸ rfl, ht⟩

/-! ## A written cell has a point of the segment behind it -/

theorem inside_of_floor (x : ℚ) (n : Nat) (h0 : 0 ≤ ⌊x⌋) (h1 : ⌊x⌋ < (n : Int)) :
    0 ≤ x ∧ x < (n : ℚ) := by
  refine ⟨Int.floor_nonneg.mp h0, ?_⟩
  have := Int.floor_lt.mp h1
  exact_mod_cast this

/-- Writes that are all refused leave the grid as it is. -/
theorem Grid.fillCells_refused (g : Grid) (cells : List (Nat × Nat)) (data : Int)
    (h : ∀ rc ∈ cells, g.accepts rc = false) : g.fillCells cells data = g := by
  induction cells with
  | nil => rfl
  | cons rc cells ih =>
    have hrc : g.accepts (rc.1, rc.2) = false := h rc (List.mem_cons_self _ _)
    rw [Grid.fillCells_cons, Grid.fillByRowCol_fst, hrc]
    exact ih (fun rc' hrc' => h rc' (List.mem_cons_of_mem _ hrc'))

/-- Where rounding moves no crossing into another cell, a cell handed to the
setter and accepted has a point of the pixel segment in the rectangle of the
grid behind it. -/
theorem Grid.meetsGrid_of_accepted (g : Grid) (ls : LineSegment) (hex : g.floorsAgree ls)
    (hw : g.width ≤ 2 ^ 63) (hh : g.height ≤ 2 ^ 63)
    (hsr : -(2 ^ 63) ≤ g.startRow ls ∧ g.startRow ls < 2 ^ 63)
    (her : -(2 ^ 63) ≤ g.endRow ls ∧ g.endRow ls < 2 ^ 63)
    (hsc : -(2 ^ 63) ≤ g.startCol ls ∧ g.startCol ls < 2 ^ 63)
    (hec : -(2 ^ 63) ≤ g.endCol ls ∧ g.endCol ls < 2 ^ 63)
    (a : Int × Int) (ha : a ∈ g.attempts ls) (hacc : g.accepts (toCell a) = true) :
    g.meetsGrid ls := by
  rw [Grid.accepts_iff] at hacc
  unfold toCell at hacc
  simp only at hacc
  by_cases hrow : g.startRow ls = g.endRow ls
  · rw [Grid.attempts_eq, if_pos hrow, List.mem_map] at ha
    obtain ⟨c, hc, rfl⟩ := ha
    rw [mem_intRange] at hc
    simp only at hacc
    have hr := (toSizeT_lt_iff _ _ hw hsr.1 hsr.2).mp hacc.1
    have hcc := (toSizeT_lt_iff c _ hh (by omega) (by omega)).mp hacc.2
    by_cases hcs : c = g.startCol ls
    · refine ⟨(g.pixelLine ls).start_point.x, (g.pixelLine ls).start_point.y,
        ⟨0, le_refl 0, zero_le_one, by ring, by ring⟩, ?_⟩
      have hx := inside_of_floor (g.pixelLine ls).start_point.x g.width hr.1 hr.2
      have hy := inside_of_floor (g.pixelLine ls).start_point.y g.height
        (by rw [hcs] at hcc; exact hcc.1) (by rw [hcs] at hcc; exact hcc.2)
      exact ⟨hx.1, hx.2, hy.1, hy.2⟩
    · have hlt : g.startCol ls < c := lt_of_le_of_ne hc.1 (Ne.symm hcs)
      have hle : g.startCol ls ≤ g.endCol ls := by omega
      obtain ⟨t, ht0, ht1, ht⟩ := exists_param_of_floor (g.pixelLine ls).start_point.y
        (g.pixelLine ls).end_point.y c
        (show min (g.startCol ls) (g.endCol ls) < c by rw [min_eq_left hle]; exact hlt)
        (show c ≤ max (g.startCol ls) (g.endCol ls) by rw [max_eq_right hle]; exact hc.2)
      have hf := floor_between (g.pixelLine ls).start_point.x (g.pixelLine ls).end_point.x t
        ht0 ht1
      have hfe : ⌊(g.pixelLine ls).start_point.x +
          t * ((g.pixelLine ls).end_point.x - (g.pixelLine ls).start_point.x)⌋ =
          g.startRow ls := by
        have hrow' : ⌊(g.pixelLine ls).start_point.x⌋ = ⌊(g.pixelLine ls).end_point.x⌋ := hrow
        rw [← hrow', min_self, max_self] at hf
        exact le_antisymm hf.2 hf.1
      refine ⟨_, (c : ℚ), ⟨t, ht0, ht1, rfl, ht⟩, ?_⟩
      have hx := inside_of_floor _ g.width (by rw [hfe]; exact hr.1) (by rw [hfe]; exact hr.2)
      have hy : (0 : ℚ) ≤ (c : ℚ) ∧ (c : ℚ) < (g.height : ℚ) :=
        ⟨by exact_mod_cast hcc.1, by exact_mod_cast hcc.2⟩
      exact ⟨hx.1, hx.2, hy.1, hy.2⟩
  · by_cases hcol : g.startCol ls = g.endCol ls
    · rw [Grid.attempts_eq, if_neg hrow, if_pos hcol, List.mem_map] at ha
      obtain ⟨r, hr, rfl⟩ := ha
      rw [mem_intRange] at hr
      simp only at hacc
      have hrr := (toSizeT_lt_iff r _ hw (by omega) (by omega)).mp hacc.1
      have hc := (toSizeT_lt_iff _ _ hh hsc.1 hsc.2).mp hacc.2
      have hlt : g.startRow ls < r ∨ g.startRow ls = r := by omega
      rcases hlt with hlt | heq
      · have hle : g.startRow ls ≤ g.endRow ls := by omega
        obtain ⟨t, ht0, ht1, ht⟩ := exists_param_of_floor (g.pixelLine ls).start_point.x
          (g.pixelLine ls).end_point.x r
          (show min (g.startRow ls) (g.endRow ls) < r by rw [min_eq_left hle]; exact hlt)
          (show r ≤ max (g.startRow ls) (g.endRow ls) by rw [max_eq_right hle]; exact hr.2)
        have hf := floor_between (g.pixelLine ls).start_point.y (g.pixelLine ls).end_point.y t
          ht0 ht1
        have hfe : ⌊(g.pixelLine ls).start_point.y +
            t * ((g.pixelLine ls).end_point.y - (g.pixelLine ls).start_point.y)⌋ =
            g.startCol ls := by
          have hcol' : ⌊(g.pixelLine ls).start_point.y⌋ = ⌊(g.pixelLine ls).end_point.y⌋ :=
            hcol
          rw [← hcol', min_self, max_self] at hf
          exact le_antisymm hf.2 hf.1
        refine ⟨(r : ℚ), _, ⟨t, ht0, ht1, ht, rfl⟩, ?_⟩
        have hy := inside_of_floor _ g.height (by rw [hfe]; exact hc.1)
          (by rw [hfe]; exact hc.2)
        have hx : (0 : ℚ) ≤ (r : ℚ) ∧ (r : ℚ) < (g.width : ℚ) :=
          ⟨by exact_mod_cast hrr.1, by exact_mod_cast hrr.2⟩
        exact ⟨hx.1, hx.2, hy.1, hy.2⟩
      · refine ⟨(g.pixelLine ls).start_point.x, (g.pixelLine ls).start_point.y,
          ⟨0, le_refl 0, zero_le_one, by ring, by ring⟩, ?_⟩
        have hx := inside_of_floor (g.pixelLine ls).start_point.x g.width
          (by rw [← heq] at hrr; exact hrr.1) (by rw [← heq] at hrr; exact hrr.2)
        have hy := inside_of_floor (g.pixelLine ls).start_point.y g.height hc.1 hc.2
        exact ⟨hx.1, hx.2, hy.1, hy.2⟩
    · rw [g.mem_attempts_general ls hrow hcol] at ha
      rcases ha with ⟨r, hr, hr0, hc0, _⟩ | ⟨c, hc, hc0, hr0, _⟩
      · refine ⟨_, _, g.row_line_point ls r hr.1 hr.2, ?_⟩
        rw [hex.1 r hr.1 hr.2] at hc0
        have hy := inside_of_floor _ g.height hc0.1 hc0.2
        have hx : (0 : ℚ) ≤ (r : ℚ) ∧ (r : ℚ) < (g.width : ℚ) :=
          ⟨by exact_mod_cast hr0.1, by exact_mod_cast hr0.2⟩
        exact ⟨hx.1, hx.2, hy.1, hy.2⟩
      · refine ⟨_, _, g.col_line_point ls c hrow hc.1 hc.2, ?_⟩
        rw [hex.2 c hc.1 hc.2] at hr0
        have hx := inside_of_floor _ g.width hr0.1 hr0.2
        have hy : (0 : ℚ) ≤ (c : ℚ) ∧ (c : ℚ) < (g.height : ℚ) :=
          ⟨by exact_mod_cast hc0.1, by exact_mod_cast hc0.2⟩
        exact ⟨hx.1, hx.2, hy.1, hy.2⟩

/-- Where rounding moves no crossing into another cell, a call of
`fillByIntersection` that writes a cell has a point of the pixel segment in
`[0, width) × [0, height)`, and a segment with no such point returns the empty
list and leaves the grid unchanged. -/
theorem Grid.writes_meet_grid_of_floorsAgree (g : Grid) (ls : LineSegment) (data : Int)
    (hex : g.floorsAgree ls) (hw : g.width ≤ 2 ^ 63) (hh : g.height ≤ 2 ^ 63)
    (hsr : -(2 ^ 63) ≤ g.startRow ls ∧ g.startRow ls < 2 ^ 63)
    (her : -(2 ^ 63) ≤ g.endRow ls ∧ g.endRow ls < 2 ^ 63)
    (hsc : -(2 ^ 63) ≤ g.startCol ls ∧ g.startCol ls < 2 ^ 63)
    (hec : -(2 ^ 63) ≤ g.endCol ls ∧ g.endCol ls < 2 ^ 63) :
    ((g.fillByIntersection ls data).2 ≠ [] → g.meetsGrid ls) ∧
    (¬ g.meetsGrid ls →
      (g.fillByIntersection ls data).2 = [] ∧ (g.fillByIntersection ls data).1 = g) := by
  have key := g.meetsGrid_of_accepted ls hex hw hh hsr her hsc hec
  have hret : (g.fillByIntersection ls data).2 ≠ [] → g.meetsGrid ls := by
    intro hne
    obtain ⟨rc, hrc⟩ := List.exists_mem_of_ne_nil _ hne
    rw [Grid.fillByIntersection_snd] at hrc
    obtain ⟨a, ha, rfl⟩ := List.mem_map.mp hrc.1
    exact key a ha hrc.2
  refine ⟨hret, fun hno => ⟨?_, ?_⟩⟩
  · by_contra hne
    exact hno (hret hne)
  · rw [Grid.fillByIntersection_eq]
    apply g.fillCells_refused
    intro rc hrc
    obtain ⟨a, ha, rfl⟩ := List.mem_map.mp hrc
    rw [← Bool.not_eq_true]
    exact fun hacc => hno (key a ha hacc)

/-- Claim C29, evaluated on the code: on the four by four grid the segment
from `(3.5, -1.4)` to `(2, 1)` has the pixels `(5.5, 0.6000000000000001)` and
`(4, 3)`, so that every point of the pixel segment has `x >= 4` and none lies
in `[0, 4) × [0, 4)`. The straight line meets the column line `3` at `x = 4`,
but the loop over columns computes `(3 - intercept) / slope` in `double` as
`3.9999999999999996`, takes row `3` and writes the cell `(3, 3)`. -/
theorem fillByIntersection_rounding_stray :
    squareGrid.pixelLine straySegment =
        LineSegment.mk ⟨11 / 2, 1351079888211149 / 2251799813685248, 0⟩ ⟨4, 3, 0⟩ ∧
      ¬ squareGrid.meetsGrid straySegment ∧
      squareGrid.lineRowAt straySegment 3 = 4 ∧
      binary64.div (binary64.sub 3 (squareGrid.pixelLine straySegment).getIntercept)
          (squareGrid.pixelLine straySegment).getSlope =
        9007199254740991 / 2251799813685248 ∧
      squareGrid.rowAt straySegment 3 = 3 ∧
      (squareGrid.fillByIntersection straySegment 7).2 = [(3, 3)] ∧
      squareGrid.cell 3 3 = some 0 ∧
      (squareGrid.fillByIntersection straySegment 7).1.cell 3 3 = some 7 := by
  have hpx : squareGrid.pixelLine straySegment =
      LineSegment.mk ⟨11 / 2, 1351079888211149 / 2251799813685248, 0⟩ ⟨4, 3, 0⟩ := by decide!
  refine ⟨hpx, ?_, by decide!, by decide!, by decide!, by decide!, by decide!, by decide!⟩
  rintro ⟨x, y, ⟨t, ht0, ht1, hx, hy⟩, hx0, hx1, hy0, hy1⟩
  have h3 : ((squareGrid.width : Nat) : ℚ) = 4 := by decide!
  rw [hpx] at hx
  rw [h3] at hx1
  simp only at hx
  linarith

/-! ## Connectedness of the cells of a segment -/

/-- Cells that each have a neighbour closer to an anchor are all joined to the
anchor. -/
theorem connected_of_descent {α : Type} (S : α → Prop) (adj : α → α → Prop) (μ : α → Int)
    (anchor : α) (hμ : ∀ a, S a → 0 ≤ μ a)
    (h : ∀ a, S a → a ≠ anchor → ∃ b, S b ∧ adj a b ∧ μ b < μ a) (a : α) (ha : S a) :
    Relation.ReflTransGen (fun x y => S x ∧ S y ∧ adj x y) a anchor := by
  have key : ∀ k : Nat, ∀ a, S a → μ a < (k : Int) →
      Relation.ReflTransGen (fun x y => S x ∧ S y ∧ adj x y) a anchor := by
    intro k
    induction k with
    | zero =>
      intro a ha hk
      have := hμ a ha
      omega
    | succ k ih =>
      intro a ha hk
      by_cases hane : a = anchor
      · rw [hane]
      · obtain ⟨b, hb, hadj, hlt⟩ := h a ha hane
        exact Relation.ReflTransGen.head ⟨ha, hb, hadj⟩ (ih b hb (by omega))
  exact key ((μ a).toNat + 1) a ha (by have := hμ a ha; omega)

/-- On a rising line every cell of the two passes other than `(M, N)` has a
neighbour among them with a larger sum of indices. -/
theorem passCells_step_pos (C Rho : Int → Int) (m M n N : Int)
    (F1 : ∀ r, m < r → r ≤ M → n ≤ C r ∧ C r ≤ N)
    (F2 : ∀ c, n < c → c ≤ N → m ≤ Rho c ∧ Rho c ≤ M)
    (A1 : ∀ r c, c ≤ C r → Rho c ≤ r) (A2 : ∀ r c, r ≤ Rho c → C r ≤ c)
    (A4 : ∀ r c, C r < c → r ≤ Rho c)
    (hC : ∀ r, C r ≤ C (r + 1)) (hR : ∀ c, Rho c ≤ Rho (c + 1))
    (a : Int × Int) (ha : passCells C Rho m M n N a) (hne : a ≠ (M, N)) :
    ∃ b, passCells C Rho m M n N b ∧ adjacentInt a b ∧
      M + N - (b.1 + b.2) < M + N - (a.1 + a.2) := by
  unfold adjacentInt
  rcases ha with ⟨r, ⟨hr1, hr2⟩, rfl | ⟨hrM, rfl⟩⟩ | ⟨c, ⟨hc1, hc2⟩, rfl | ⟨hcN, rfl⟩⟩
  · have hF := F1 r hr1 hr2
    by_cases hrM : r = M
    · subst hrM
      have hcN : C r ≠ N := fun h => hne (Prod.ext rfl h)
      have h1 := A4 r (C r + 1) (by omega)
      have h2 := F2 (C r + 1) (by omega) (by omega)
      exact ⟨(Rho (C r + 1), C r + 1), Or.inr ⟨C r + 1, ⟨by omega, by omega⟩, Or.inl rfl⟩,
        ⟨by simp only; omega, by simp only; omega, by simp only; omega, by simp only; omega⟩,
        by simp only; omega⟩
    · have h1 := hC r
      have hF' := F1 (r + 1) (by omega) (by omega)
      by_cases h2 : C (r + 1) ≤ C r + 1
      · exact ⟨(r + 1, C (r + 1)), Or.inl ⟨r + 1, ⟨by omega, by omega⟩, Or.inl rfl⟩,
          ⟨by simp only; omega, by simp only; omega, by simp only; omega, by simp only; omega⟩,
          by simp only; omega⟩
      · have h3 : Rho (C r + 1) < r + 1 := by
          by_contra hcon
          have := A2 (r + 1) (C r + 1) (by omega)
          omega
        have h4 := A4 r (C r + 1) (by omega)
        exact ⟨(Rho (C r + 1), C r + 1), Or.inr ⟨C r + 1, ⟨by omega, by omega⟩, Or.inl rfl⟩,
          ⟨by simp only; omega, by simp only; omega, by simp only; omega, by simp only; omega⟩,
          by simp only; omega⟩
  · have hF := F1 r hr1 hr2
    exact ⟨(r, C r), Or.inl ⟨r, ⟨hr1, hr2⟩, Or.inl rfl⟩,
      ⟨by simp only; omega, by simp only; omega, by simp only; omega, by simp only; omega⟩,
      by simp only; omega⟩
  · have hF := F2 c hc1 hc2
    by_cases hcN : c = N
    · subst hcN
      have hrM : Rho c ≠ M := fun h => hne (Prod.ext h rfl)
      have hF' := F1 (Rho c + 1) (by omega) (by omega)
      have h1 : c ≤ C (Rho c + 1) := by
        by_contra hcon
        have := A4 (Rho c + 1) c (by omega)
        omega
      exact ⟨(Rho c + 1, C (Rho c + 1)),
        Or.inl ⟨Rho c + 1, ⟨by omega, by omega⟩, Or.inl rfl⟩,
        ⟨by simp only; omega, by simp only; omega, by simp only; omega, by simp only; omega⟩,
        by simp only; omega⟩
    · have h1 := hR c
      have hF' := F2 (c + 1) (by omega) (by omega)
      by_cases h2 : Rho (c + 1) ≤ Rho c + 1
      · exact ⟨(Rho (c + 1), c + 1), Or.inr ⟨c + 1, ⟨by omega, by omega⟩, Or.inl rfl⟩,
          ⟨by simp only; omega, by simp only; omega, by simp only; omega, by simp only; omega⟩,
          by simp only; omega⟩
      · have h3 : C (Rho c + 1) < c + 1 := by
          by_contra hcon
          have := A1 (Rho c + 1) (c + 1) (by omega)
          omega
        have h4 : c ≤ C (Rho c + 1) := by
          by_contra hcon
          have := A4 (Rho c + 1) c (by omega)
          omega
        exact ⟨(Rho c + 1, C (Rho c + 1)),
          Or.inl ⟨Rho c + 1, ⟨by omega, by omega⟩, Or.inl rfl⟩,
          ⟨by simp only; omega, by simp only; omega, by simp only; omega, by simp only; omega⟩,
          by simp only; omega⟩
  · have hF := F2 c hc1 hc2
    exact ⟨(Rho c, c), Or.inr ⟨c, ⟨hc1, hc2⟩, Or.inl rfl⟩,
      ⟨by simp only; omega, by simp only; omega, by simp only; omega, by simp only; omega⟩,
      by simp only; omega⟩

/-- On a falling line every cell of the two passes other than `(M, C M)` has a
neighbour among them that is closer to `(M, C M)`. -/
theorem passCells_step_neg (C Rho : Int → Int) (m M n N : Int) (hmM : m < M)
    (F1 : ∀ r, m < r → r ≤ M → n ≤ C r ∧ C r ≤ N)
    (F2 : ∀ c, n < c → c ≤ N → m ≤ Rho c ∧ Rho c ≤ M)
    (K : ∀ r c, c ≤ C r ↔ r ≤ Rho c)
    (a : Int × Int) (ha : passCells C Rho m M n N a) (hne : a ≠ (M, C M)) :
    ∃ b, passCells C Rho m M n N b ∧ adjacentInt a b ∧
      (M - b.1) + max (b.2 - C M) (C M - b.2) < (M - a.1) + max (a.2 - C M) (C M - a.2) := by
  have anti : ∀ r r', r ≤ r' → C r' ≤ C r := by
    intro r r' hrr
    have h1 := (K r' (C r')).mp (le_refl _)
    exact (K r (C r')).mpr (by omega)
  have hFM := F1 M hmM (le_refl _)
  unfold adjacentInt
  rcases ha with ⟨r, ⟨hr1, hr2⟩, rfl | ⟨hrM, rfl⟩⟩ | ⟨c, ⟨hc1, hc2⟩, rfl | ⟨hcN, rfl⟩⟩
  · have hF := F1 r hr1 hr2
    have hrM : r ≠ M := fun h => hne (by rw [h])
    have hF' := F1 (r + 1) (by omega) (by omega)
    have h0 := anti r (r + 1) (by omega)
    have h0' := anti (r + 1) M (by omega)
    by_cases h2 : C r - 1 ≤ C (r + 1)
    · exact ⟨(r + 1, C (r + 1)), Or.inl ⟨r + 1, ⟨by omega, by omega⟩, Or.inl rfl⟩,
        ⟨by simp only; omega, by simp only; omega, by simp only; omega, by simp only; omega⟩,
        by simp only; omega⟩
    · have h3 := (K r (C r - 1)).mp (by omega)
      have h4 : Rho (C r - 1) < r + 1 := by
        by_contra hcon
        have := (K (r + 1) (C r - 1)).mpr (by omega)
        omega
      exact ⟨(Rho (C r - 1), C r - 1), Or.inr ⟨C r - 1, ⟨by omega, by omega⟩, Or.inl rfl⟩,
        ⟨by simp only; omega, by simp only; omega, by simp only; omega, by simp only; omega⟩,
        by simp only; omega⟩
  · have hF := F1 r hr1 hr2
    have h0 := anti r M (by omega)
    exact ⟨(r, C r), Or.inl ⟨r, ⟨hr1, hr2⟩, Or.inl rfl⟩,
      ⟨by simp only; omega, by simp only; omega, by simp only; omega, by simp only; omega⟩,
      by simp only; omega⟩
  · have hF := F2 c hc1 hc2
    have hK := (K (Rho c) c).mpr (le_refl _)
    by_cases hρ : Rho c = M
    · have h1 := (K M c).mpr (by omega)
      have h2 : c ≠ C M := fun h => hne (Prod.ext hρ h)
      have h3 := (K M (c + 1)).mp (by omega)
      have h4 := F2 (c + 1) (by omega) (by omega)
      exact ⟨(Rho (c + 1), c + 1), Or.inr ⟨c + 1, ⟨by omega, by omega⟩, Or.inl rfl⟩,
        ⟨by simp only; omega, by simp only; omega, by simp only; omega, by simp only; omega⟩,
        by simp only; omega⟩
    · have h1 : C (Rho c + 1) < c := by
        by_contra hcon
        have := (K (Rho c + 1) c).mp (by omega)
        omega
      have h0 := anti (Rho c + 1) M (by omega)
      have hF' := F1 (Rho c + 1) (by omega) (by omega)
      by_cases hcN : c = N
      · by_cases h2 : C (Rho c + 1) = c - 1
        · exact ⟨(Rho c + 1, C (Rho c + 1)),
            Or.inl ⟨Rho c + 1, ⟨by omega, by omega⟩, Or.inl rfl⟩,
            ⟨by simp only; omega, by simp only; omega, by simp only; omega,
              by simp only; omega⟩,
            by simp only; omega⟩
        · have h3 := (K (Rho c) (c - 1)).mp (by omega)
          have h4 : Rho (c - 1) < Rho c + 1 := by
            by_contra hcon
            have := (K (Rho c + 1) (c - 1)).mpr (by omega)
            omega
          exact ⟨(Rho (c - 1), c - 1), Or.inr ⟨c - 1, ⟨by omega, by omega⟩, Or.inl rfl⟩,
            ⟨by simp only; omega, by simp only; omega, by simp only; omega,
              by simp only; omega⟩,
            by simp only; omega⟩
      · exact ⟨(Rho c, c - 1), Or.inr ⟨c, ⟨hc1, hc2⟩, Or.inr ⟨hcN, rfl⟩⟩,
          ⟨by simp only; omega, by simp only; omega, by simp only; omega, by simp only; omega⟩,
          by simp only; omega⟩
  · have hF := F2 c hc1 hc2
    have hK := (K (Rho c) c).mpr (le_refl _)
    by_cases hρ : Rho c = M
    · have h1 := (K M c).mpr (by omega)
      exact ⟨(Rho c, c), Or.inr ⟨c, ⟨hc1, hc2⟩, Or.inl rfl⟩,
        ⟨by simp only; omega, by simp only; omega, by simp only; omega, by simp only; omega⟩,
        by simp only; omega⟩
    · have h1 : C (Rho c + 1) < c := by
        by_contra hcon
        have := (K (Rho c + 1) c).mp (by omega)
        omega
      have h0 := anti (Rho c + 1) M (by omega)
      have hF' := F1 (Rho c + 1) (by omega) (by omega)
      by_cases h2 : c - 2 ≤ C (Rho c + 1)
      · exact ⟨(Rho c + 1, C (Rho c + 1)),
          Or.inl ⟨Rho c + 1, ⟨by omega, by omega⟩, Or.inl rfl⟩,
          ⟨by simp only; omega, by simp only; omega, by simp only; omega, by simp only; omega⟩,
          by simp only; omega⟩
      · have h3 := (K (Rho c) (c - 1)).mp (by omega)
        have h4 : Rho (c - 1) < Rho c + 1 := by
          by_contra hcon
          have := (K (Rho c + 1) (c - 1)).mpr (by omega)
          omega
        exact ⟨(Rho (c - 1), c - 1 - 1),
          Or.inr ⟨c - 1, ⟨by omega, by omega⟩, Or.inr ⟨by omega, rfl⟩⟩,
          ⟨by simp only; omega, by simp only; omega, by simp only; omega, by simp only; omega⟩,
          by simp only; omega⟩

/-- The floors of the heights of a rising line at integer abscissas and the
floors of its abscissas at integer heights bound each other. -/
theorem floor_line_pos (s i : ℚ) (hs : 0 < s) (r c : Int) :
    (c ≤ ⌊s * (r : ℚ) + i⌋ → ⌊((c : ℚ) - i) / s⌋ ≤ r) ∧
    (r ≤ ⌊((c : ℚ) - i) / s⌋ → ⌊s * (r : ℚ) + i⌋ ≤ c) ∧
    (⌊s * (r : ℚ) + i⌋ < c → r ≤ ⌊((c : ℚ) - i) / s⌋) := by
  refine ⟨fun h => ?_, fun h => ?_, fun h => ?_⟩
  · have h1 : (c : ℚ) ≤ s * (r : ℚ) + i := Int.le_floor.mp h
    have h2 : ((c : ℚ) - i) / s ≤ (r : ℚ) := by
      rw [div_le_iff₀ hs]
      linarith
    have h3 := le_trans (Int.floor_le (((c : ℚ) - i) / s)) h2
    exact_mod_cast h3
  · have h1 : (r : ℚ) ≤ ((c : ℚ) - i) / s := Int.le_floor.mp h
    rw [le_div_iff₀ hs] at h1
    have h2 : s * (r : ℚ) + i ≤ (c : ℚ) := by linarith
    have h3 := le_trans (Int.floor_le (s * (r : ℚ) + i)) h2
    exact_mod_cast h3
  · have h1 : s * (r : ℚ) + i < (c : ℚ) := Int.floor_lt.mp h
    apply Int.le_floor.mpr
    rw [le_div_iff₀ hs]
    linarith

theorem floor_line_mono_pos (s i : ℚ) (hs : 0 < s) (r c : Int) :
    ⌊s * (r : ℚ) + i⌋ ≤ ⌊s * ((r + 1 : Int) : ℚ) + i⌋ ∧
      ⌊((c : ℚ) - i) / s⌋ ≤ ⌊(((c + 1 : Int) : ℚ) - i) / s⌋ := by
  constructor
  · apply Int.floor_mono
    push_cast
    nlinarith
  · apply Int.floor_mono
    push_cast
    apply div_le_div_of_nonneg_right _ hs.le
    linarith

/-- On a falling line, the floor of the height at an integer abscissa reaches
an integer height exactly when the floor of the abscissa at that height
reaches the abscissa. -/
theorem floor_line_neg (s i : ℚ) (hs : s < 0) (r c : Int) :
    c ≤ ⌊s * (r : ℚ) + i⌋ ↔ r ≤ ⌊((c : ℚ) - i) / s⌋ := by
  rw [Int.le_floor, Int.le_floor, le_div_iff_of_neg hs]
  constructor
  · intro h
    linarith
  · intro h
    linarith

theorem floor_inside (x : ℚ) (n : Nat) (h0 : 0 ≤ x) (h1 : x < (n : ℚ)) :
    0 ≤ ⌊x⌋ ∧ ⌊x⌋ < (n : Int) := by
  refine ⟨Int.floor_nonneg.mpr h0, Int.floor_lt.mpr ?_⟩
  exact_mod_cast h1

/-- The floors of the coordinates of a point of a segment lie between the
floors of the coordinates of its end points. -/
theorem contains_floor_box (l : LineSegment) (x y : ℚ) (h : l.contains x y) :
    (min ⌊l.start_point.x⌋ ⌊l.end_point.x⌋ ≤ ⌊x⌋ ∧
      ⌊x⌋ ≤ max ⌊l.start_point.x⌋ ⌊l.end_point.x⌋) ∧
    (min ⌊l.start_point.y⌋ ⌊l.end_point.y⌋ ≤ ⌊y⌋ ∧
      ⌊y⌋ ≤ max ⌊l.start_point.y⌋ ⌊l.end_point.y⌋) := by
  obtain ⟨t, ht0, ht1, hx, hy⟩ := h
  rw [hx, hy]
  exact ⟨floor_between _ _ t ht0 ht1, floor_between _ _ t ht0 ht1⟩

/-- A segment whose end points lie in a rectangle lies in the rectangle. -/
theorem contains_inside (l : LineSegment) (w h : ℚ)
    (hs : 0 ≤ l.start_point.x ∧ l.start_point.x < w ∧ 0 ≤ l.start_point.y ∧ l.start_point.y < h)
    (he : 0 ≤ l.end_point.x ∧ l.end_point.x < w ∧ 0 ≤ l.end_point.y ∧ l.end_point.y < h)
    (x y : ℚ) (hxy : l.contains x y) : 0 ≤ x ∧ x < w ∧ 0 ≤ y ∧ y < h := by
  obtain ⟨t, ht0, ht1, hx, hy⟩ := hxy
  have h1 : 0 ≤ 1 - t := sub_nonneg.mpr ht1
  have ex : x = (1 - t) * l.start_point.x + t * l.end_point.x := by rw [hx]; ring
  have ey : y = (1 - t) * l.start_point.y + t * l.end_point.y := by rw [hy]; ring
  rcases eq_or_lt_of_le ht0 with h0 | h0
  · rw [← h0] at ex ey
    simp only [sub_zero, one_mul, zero_mul, add_zero] at ex ey
    rw [ex, ey]
    exact hs
  · refine ⟨?_, ?_, ?_, ?_⟩
    · rw [ex]
      exact add_nonneg (mul_nonneg h1 hs.1) (mul_nonneg ht0 he.1)
    · rw [ex]
      nlinarith [mul_le_mul_of_nonneg_left hs.2.1.le h1, mul_lt_mul_of_pos_left he.2.1 h0]
    · rw [ey]
      exact add_nonneg (mul_nonneg h1 hs.2.2.1) (mul_nonneg ht0 he.2.2.1)
    · rw [ey]
      nlinarith [mul_le_mul_of_nonneg_left hs.2.2.2.le h1, mul_lt_mul_of_pos_left he.2.2.2 h0]

theorem Grid.liesInside_ends (g : Grid) (ls : LineSegment) (h : g.liesInside ls) :
    ((0 ≤ g.startRow ls ∧ g.startRow ls < (g.width : Int)) ∧
      (0 ≤ g.endRow ls ∧ g.endRow ls < (g.width : Int))) ∧
    ((0 ≤ g.startCol ls ∧ g.startCol ls < (g.height : Int)) ∧
      (0 ≤ g.endCol ls ∧ g.endCol ls < (g.height : Int))) := by
  have hs := h (g.pixelLine ls).start_point.x (g.pixelLine ls).start_point.y
    ⟨0, le_refl 0, zero_le_one, by ring, by ring⟩
  have he := h (g.pixelLine ls).end_point.x (g.pixelLine ls).end_point.y
    ⟨1, zero_le_one, le_refl 1, by ring, by ring⟩
  exact ⟨⟨floor_inside _ _ hs.1 hs.2.1, floor_inside _ _ he.1 he.2.1⟩,
    floor_inside _ _ hs.2.2.1 hs.2.2.2, floor_inside _ _ he.2.2.1 he.2.2.2⟩

theorem Grid.lineColAt_box (g : Grid) (ls : LineSegment) (r : Int)
    (h1 : min (g.startRow ls) (g.endRow ls) < r) (h2 : r ≤ max (g.startRow ls) (g.endRow ls)) :
    min (g.startCol ls) (g.endCol ls) ≤ g.lineColAt ls r ∧
      g.lineColAt ls r ≤ max (g.startCol ls) (g.endCol ls) :=
  (contains_floor_box _ _ _ (g.row_line_point ls r h1 h2)).2

theorem Grid.lineRowAt_box (g : Grid) (ls : LineSegment) (hrow : g.startRow ls ≠ g.endRow ls)
    (c : Int) (h1 : min (g.startCol ls) (g.endCol ls) < c)
    (h2 : c ≤ max (g.startCol ls) (g.endCol ls)) :
    min (g.startRow ls) (g.endRow ls) ≤ g.lineRowAt ls c ∧
      g.lineRowAt ls c ≤ max (g.startRow ls) (g.endRow ls) :=
  (contains_floor_box _ _ _ (g.col_line_point ls c hrow h1 h2)).1

/-- For a segment inside the grid whose end points differ in row and in
column, where rounding moves no crossing into another cell, no guard of the
two passes refuses a line and the cells are those of the straight line. -/
theorem Grid.attempts_passCells (g : Grid) (ls : LineSegment) (h : g.liesInside ls)
    (hex : g.floorsAgree ls)
    (hrow : g.startRow ls ≠ g.endRow ls) (hcol : g.startCol ls ≠ g.endCol ls)
    (a : Int × Int) :
    a ∈ g.attempts ls ↔
      passCells (g.lineColAt ls) (g.lineRowAt ls) (min (g.startRow ls) (g.endRow ls))
        (max (g.startRow ls) (g.endRow ls)) (min (g.startCol ls) (g.endCol ls))
        (max (g.startCol ls) (g.endCol ls)) a := by
  have he := g.liesInside_ends ls h
  rw [g.mem_attempts_general ls hrow hcol]
  unfold passCells
  apply or_congr
  · constructor
    · rintro ⟨r, hr, _, _, ha⟩
      rw [hex.1 r hr.1 hr.2] at ha
      exact ⟨r, hr, ha⟩
    · rintro ⟨r, hr, ha⟩
      have hb := g.lineColAt_box ls r hr.1 hr.2
      rw [← hex.1 r hr.1 hr.2] at ha hb
      exact ⟨r, hr, ⟨by omega, by omega⟩, ⟨by omega, by omega⟩, ha⟩
  · constructor
    · rintro ⟨c, hc, _, _, ha⟩
      rw [hex.2 c hc.1 hc.2] at ha
      exact ⟨c, hc, ha⟩
    · rintro ⟨c, hc, ha⟩
      have hb := g.lineRowAt_box ls hrow c hc.1 hc.2
      rw [← hex.2 c hc.1 hc.2] at ha hb
      exact ⟨c, hc, ⟨by omega, by omega⟩, ⟨by omega, by omega⟩, ha⟩

/-- Every cell handed to the setter for a segment inside the grid is a cell of
the grid. -/
theorem Grid.attempts_inBounds (g : Grid) (ls : LineSegment) (h : g.liesInside ls)
    (a : Int × Int) (ha : a ∈ g.attempts ls) :
    (0 ≤ a.1 ∧ a.1 < (g.width : Int)) ∧ (0 ≤ a.2 ∧ a.2 < (g.height : Int)) := by
  have he := g.liesInside_ends ls h
  by_cases hrow : g.startRow ls = g.endRow ls
  · rw [Grid.attempts_eq, if_pos hrow, List.mem_map] at ha
    obtain ⟨c, hc, rfl⟩ := ha
    rw [mem_intRange] at hc
    exact ⟨⟨by simp only; omega, by simp only; omega⟩, by simp only; omega, by simp only; omega⟩
  · by_cases hcol : g.startCol ls = g.endCol ls
    · rw [Grid.attempts_eq, if_neg hrow, if_pos hcol, List.mem_map] at ha
      obtain ⟨r, hr, rfl⟩ := ha
      rw [mem_intRange] at hr
      exact ⟨⟨by simp only; omega, by simp only; omega⟩, by simp only; omega,
        by simp only; omega⟩
    · rw [g.mem_attempts_general ls hrow hcol] at ha
      rcases ha with ⟨r, ⟨hr1, hr2⟩, hr0, hc0, rfl | ⟨hrM, rfl⟩⟩ |
          ⟨c, ⟨hc1, hc2⟩, hc0, hr0, rfl | ⟨hcN, rfl⟩⟩
      · exact ⟨hr0, hc0⟩
      · exact ⟨⟨by simp only; omega, by simp only; omega⟩, hc0⟩
      · exact ⟨hr0, hc0⟩
      · exact ⟨hr0, by simp only; omega, by simp only; omega⟩

/-- Where rounding moves no crossing into another cell, the cells handed to the
setter for a segment inside the grid are all joined to one of them. -/
theorem Grid.attempts_connected (g : Grid) (ls : LineSegment) (h : g.liesInside ls)
    (hex : g.floorsAgree ls) :
    ∃ anchor : Int × Int, ∀ a ∈ g.attempts ls,
      Relation.ReflTransGen
        (fun x y => x ∈ g.attempts ls ∧ y ∈ g.attempts ls ∧ adjacentInt x y) a anchor := by
  by_cases hrow : g.startRow ls = g.endRow ls
  · have hmem : ∀ a : Int × Int, a ∈ g.attempts ls ↔
        a.1 = g.startRow ls ∧ g.startCol ls ≤ a.2 ∧ a.2 ≤ g.endCol ls := by
      intro a
      rw [Grid.attempts_eq, if_pos hrow, List.mem_map]
      constructor
      · rintro ⟨c, hc, rfl⟩
        rw [mem_intRange] at hc
        exact ⟨rfl, hc⟩
      · rintro ⟨h1, h2⟩
        exact ⟨a.2, (mem_intRange _ _ _).mpr h2, Prod.ext h1.symm rfl⟩
    refine ⟨(g.startRow ls, g.startCol ls), fun a ha =>
      connected_of_descent (fun x => x ∈ g.attempts ls) adjacentInt
        (fun x => x.2 - g.startCol ls) _ ?_ ?_ a ha⟩
    · intro x hx
      have := (hmem x).mp hx
      simp only
      omega
    · intro x hx hne
      have hx' := (hmem x).mp hx
      have hc : x.2 ≠ g.startCol ls := fun hc => hne (Prod.ext hx'.1 hc)
      refine ⟨(x.1, x.2 - 1), (hmem _).mpr ⟨hx'.1, by simp only; omega, by simp only; omega⟩,
        ?_, by simp only; omega⟩
      unfold adjacentInt
      exact ⟨by simp only; omega, by simp only; omega, by simp only; omega,
        by simp only; omega⟩
  · by_cases hcol : g.startCol ls = g.endCol ls
    · have hmem : ∀ a : Int × Int, a ∈ g.attempts ls ↔
          a.2 = g.startCol ls ∧ g.startRow ls ≤ a.1 ∧ a.1 ≤ g.endRow ls := by
        intro a
        rw [Grid.attempts_eq, if_neg hrow, if_pos hcol, List.mem_map]
        constructor
        · rintro ⟨r, hr, rfl⟩
          rw [mem_intRange] at hr
          exact ⟨rfl, hr⟩
        · rintro ⟨h1, h2⟩
          exact ⟨a.1, (mem_intRange _ _ _).mpr h2, Prod.ext rfl h1.symm⟩
      refine ⟨(g.startRow ls, g.startCol ls), fun a ha =>
        connected_of_descent (fun x => x ∈ g.attempts ls) adjacentInt
          (fun x => x.1 - g.startRow ls) _ ?_ ?_ a ha⟩
      · intro x hx
        have := (hmem x).mp hx
        simp only
        omega
      · intro x hx hne
        have hx' := (hmem x).mp hx
        have hc : x.1 ≠ g.startRow ls := fun hc => hne (Prod.ext hc hx'.1)
        refine ⟨(x.1 - 1, x.2), (hmem _).mpr ⟨hx'.1, by simp only; omega, by simp only; omega⟩,
          ?_, by simp only; omega⟩
        unfold adjacentInt
        exact ⟨by simp only; omega, by simp only; omega, by simp only; omega,
          by simp only; omega⟩
    · have hmem := g.attempts_passCells ls h hex hrow hcol
      have hF1 := fun r h1 h2 => g.lineColAt_box ls r h1 h2
      have hF2 := fun c h1 h2 => g.lineRowAt_box ls hrow c h1 h2
      have hbox : ∀ x : Int × Int, x ∈ g.attempts ls →
          (min (g.startRow ls) (g.endRow ls) ≤ x.1 ∧ x.1 ≤ max (g.startRow ls) (g.endRow ls)) ∧
          (min (g.startCol ls) (g.endCol ls) ≤ x.2 ∧
            x.2 ≤ max (g.startCol ls) (g.endCol ls)) := by
        intro x hx
        rw [hmem] at hx
        rcases hx with ⟨r, ⟨hr1, hr2⟩, rfl | ⟨hrM, rfl⟩⟩ | ⟨c, ⟨hc1, hc2⟩, rfl | ⟨hcN, rfl⟩⟩
        · have hb := hF1 r hr1 hr2
          exact ⟨⟨by simp only; omega, by simp only; omega⟩, by simp only; omega,
            by simp only; omega⟩
        · have hb := hF1 r hr1 hr2
          exact ⟨⟨by simp only; omega, by simp only; omega⟩, by simp only; omega,
            by simp only; omega⟩
        · have hb := hF2 c hc1 hc2
          exact ⟨⟨by simp only; omega, by simp only; omega⟩, by simp only; omega,
            by simp only; omega⟩
        · have hb := hF2 c hc1 hc2
          exact ⟨⟨by simp only; omega, by simp only; omega⟩, by simp only; omega,
            by simp only; omega⟩
      have hs0 : (g.pixelLine ls).lineSlope ≠ 0 := by
        unfold LineSegment.lineSlope
        exact div_ne_zero (sub_ne_zero.mpr (Ne.symm (floor_ne_imp_ne hcol)))
          (sub_ne_zero.mpr (Ne.symm (floor_ne_imp_ne hrow)))
      rcases lt_or_gt_of_ne hs0 with hs | hs
      · refine ⟨(max (g.startRow ls) (g.endRow ls),
          g.lineColAt ls (max (g.startRow ls) (g.endRow ls))), fun a ha =>
          connected_of_descent (fun x => x ∈ g.attempts ls) adjacentInt
            (fun x => (max (g.startRow ls) (g.endRow ls) - x.1) +
              max (x.2 - g.lineColAt ls (max (g.startRow ls) (g.endRow ls)))
                (g.lineColAt ls (max (g.startRow ls) (g.endRow ls)) - x.2)) _ ?_ ?_ a ha⟩
        · intro x hx
          have := hbox x hx
          simp only
          omega
        · intro x hx hne
          obtain ⟨b, hb, hadj, hlt⟩ := passCells_step_neg (g.lineColAt ls) (g.lineRowAt ls) _ _ _ _
            (by omega) hF1 hF2 (fun r c => floor_line_neg _ _ hs r c) x ((hmem x).mp hx) hne
          exact ⟨b, (hmem b).mpr hb, hadj, hlt⟩
      · refine ⟨(max (g.startRow ls) (g.endRow ls), max (g.startCol ls) (g.endCol ls)),
          fun a ha =>
          connected_of_descent (fun x => x ∈ g.attempts ls) adjacentInt
            (fun x => max (g.startRow ls) (g.endRow ls) + max (g.startCol ls) (g.endCol ls) -
              (x.1 + x.2)) _ ?_ ?_ a ha⟩
        · intro x hx
          have := hbox x hx
          simp only
          omega
        · intro x hx hne
          obtain ⟨b, hb, hadj, hlt⟩ := passCells_step_pos (g.lineColAt ls) (g.lineRowAt ls) _ _ _ _
            hF1 hF2 (fun r c => (floor_line_pos _ _ hs r c).1)
            (fun r c => (floor_line_pos _ _ hs r c).2.1)
            (fun r c => (floor_line_pos _ _ hs r c).2.2)
            (fun r => (floor_line_mono_pos _ _ hs r 0).1)
            (fun c => (floor_line_mono_pos _ _ hs 0 c).2) x ((hmem x).mp hx) hne
          exact ⟨b, (hmem b).mpr hb, hadj, hlt⟩

theorem toSizeT_cast (x : Int) (h0 : 0 ≤ x) (h1 : x < 2 ^ 64) : ((toSizeT x : Nat) : Int) = x := by
  unfold toSizeT
  rw [Int.emod_eq_of_lt h0 h1]
  exact Int.toNat_of_nonneg h0

theorem adjacentInt_symm (a b : Int × Int) (h : adjacentInt a b) : adjacentInt b a :=
  ⟨h.2.1, h.1, h.2.2.2, h.2.2.1⟩

/-- Cells related through steps between neighbours of a list are joined by a
chain of cells of the list. -/
theorem joined8_of_steps (cells : List (Nat × Nat)) (a b : Nat × Nat) (hb : b ∈ cells)
    (h : Relation.ReflTransGen (fun x y => x ∈ cells ∧ y ∈ cells ∧ adjacent8 x y) a b) :
    joined8 cells a b := by
  induction h using Relation.ReflTransGen.head_induction_on with
  | refl =>
    refine ⟨[b], rfl, rfl, ?_, List.chain'_singleton b⟩
    intro c hc
    rw [List.mem_singleton] at hc
    rw [hc]
    exact hb
  | head hac _ ih =>
    obtain ⟨chain, hhead, hlast, hall, hchain⟩ := ih
    cases chain with
    | nil => simp at hhead
    | cons c' rest =>
      simp only [List.head?_cons, Option.some.injEq] at hhead
      subst hhead
      refine ⟨_ :: c' :: rest, rfl, ?_, ?_, ?_⟩
      · rw [List.getLast?_cons_cons]
        exact hlast
      · intro c hc
        rcases List.mem_cons.mp hc with hc | hc
        · rw [hc]
          exact hac.1
        · exact hall c hc
      · exact List.chain'_cons.mpr ⟨hac.2.2, hchain⟩

/-- Where rounding moves no crossing into another cell, the cells returned for
a segment whose pixel-space image lies inside the grid are 8-connected: any
two of them are joined by a chain of returned cells in which consecutive
cells differ by at most one in row and by at most one in column. -/
theorem Grid.connected_of_floorsAgree (g : Grid) (ls : LineSegment) (data : Int)
    (hw : g.width ≤ 2 ^ 64) (hh : g.height ≤ 2 ^ 64) (hin : g.liesInside ls)
    (hex : g.floorsAgree ls)
    (a b : Nat × Nat) (ha : a ∈ (g.fillByIntersection ls data).2)
    (hb : b ∈ (g.fillByIntersection ls data).2) :
    joined8 (g.fillByIntersection ls data).2 a b := by
  have hw' : (g.width : Int) ≤ 2 ^ 64 := by exact_mod_cast hw
  have hh' : (g.height : Int) ≤ 2 ^ 64 := by exact_mod_cast hh
  have hcast : ∀ x : Int × Int, x ∈ g.attempts ls →
      (((toCell x).1 : Nat) : Int) = x.1 ∧ (((toCell x).2 : Nat) : Int) = x.2 := by
    intro x hx
    have hbx := g.attempts_inBounds ls hin x hx
    unfold toCell
    exact ⟨toSizeT_cast x.1 hbx.1.1 (by omega), toSizeT_cast x.2 hbx.2.1 (by omega)⟩
  have hret : ∀ x : Int × Int, x ∈ g.attempts ls →
      toCell x ∈ (g.fillByIntersection ls data).2 := by
    intro x hx
    rw [Grid.fillByIntersection_snd]
    refine ⟨List.mem_map_of_mem _ hx, (g.accepts_iff _).mpr ?_⟩
    have hbx := g.attempts_inBounds ls hin x hx
    have hc := hcast x hx
    omega
  have hlift : ∀ x y : Int × Int,
      (x ∈ g.attempts ls ∧ y ∈ g.attempts ls ∧ adjacentInt x y) →
      (toCell x ∈ (g.fillByIntersection ls data).2 ∧
        toCell y ∈ (g.fillByIntersection ls data).2 ∧ adjacent8 (toCell x) (toCell y)) := by
    rintro x y ⟨hx, hy, hadj⟩
    refine ⟨hret x hx, hret y hy, ?_⟩
    have hcx := hcast x hx
    have hcy := hcast y hy
    unfold adjacentInt at hadj
    unfold adjacent8
    omega
  rw [Grid.fillByIntersection_snd] at ha hb
  obtain ⟨a', ha', rfl⟩ := List.mem_map.mp ha.1
  obtain ⟨b', hb', rfl⟩ := List.mem_map.mp hb.1
  obtain ⟨anchor, hanchor⟩ := g.attempts_connected ls hin hex
  have hsymm : Symmetric
      (fun x y : Int × Int => x ∈ g.attempts ls ∧ y ∈ g.attempts ls ∧ adjacentInt x y) :=
    fun x y hxy => ⟨hxy.2.1, hxy.1, adjacentInt_symm x y hxy.2.2⟩
  have hab := (hanchor a' ha').trans
    (Relation.ReflTransGen.symmetric hsymm (hanchor b' hb'))
  exact joined8_of_steps _ _ _ (hret b' hb') (Relation.ReflTransGen.lift toCell hlift hab)

/-- The premises of `Grid.connected_of_floorsAgree` can hold: for the segment
from pixel `(1/2, 1/2)` to pixel `(7/2, 5/2)` of the four by four grid the
loops compute the cells of the straight line. -/
theorem floorsAgree_slantedSegment : squareGrid.floorsAgree slantedSegment := by
  have h1 : min (squareGrid.startRow slantedSegment) (squareGrid.endRow slantedSegment) = 0 := by
    decide!
  have h2 : max (squareGrid.startRow slantedSegment) (squareGrid.endRow slantedSegment) = 3 := by
    decide!
  have h3 : min (squareGrid.startCol slantedSegment) (squareGrid.endCol slantedSegment) = 0 := by
    decide!
  have h4 : max (squareGrid.startCol slantedSegment) (squareGrid.endCol slantedSegment) = 2 := by
    decide!
  constructor
  · intro r hr1 hr2
    rw [h1] at hr1
    rw [h2] at hr2
    have hr : r = 1 ∨ r = 2 ∨ r = 3 := by omega
    rcases hr with rfl | rfl | rfl <;> decide!
  · intro c hc1 hc2
    rw [h3] at hc1
    rw [h4] at hc2
    have hc : c = 1 ∨ c = 2 := by omega
    rcases hc with rfl | rfl <;> decide!

/-- A cell whose only neighbour in the list is itself is joined to no other
cell. -/
theorem not_joined8_of_isolated (cells : List (Nat × Nat)) (a b : Nat × Nat)
    (hiso : ∀ c ∈ cells, adjacent8 a c → c = a) (hab : b ≠ a) : ¬ joined8 cells a b := by
  rintro ⟨chain, hhead, hlast, hall, hchain⟩
  have key : ∀ l : List (Nat × Nat), l.head? = some a → (∀ c ∈ l, c ∈ cells) →
      l.Chain' adjacent8 → ∀ c ∈ l, c = a := by
    intro l
    induction l with
    | nil => intro _ _ _ c hc; cases hc
    | cons x rest ih =>
      intro hh hin hch c hc
      simp only [List.head?_cons, Option.some.injEq] at hh
      subst hh
      rcases List.mem_cons.mp hc with hc | hc
      · exact hc
      · cases rest with
        | nil => cases hc
        | cons y rest' =>
          rw [List.chain'_cons] at hch
          have hy : y = x := hiso y (hin y (List.mem_cons_of_mem _ (List.mem_cons_self _ _)))
            hch.1
          exact ih (by rw [hy]; rfl) (fun c hc => hin c (List.mem_cons_of_mem _ hc)) hch.2 c hc
  exact hab (key chain hhead hall hchain b (List.mem_of_getLast?_eq_some hlast))

/-- Claim C26, evaluated on the code: on the four by four grid the segment
from `(1.2, -0.8)` to `(0, 0)` has the pixels `(3.2, 1.2)` and `(2, 2)`, inside
the grid. The straight line meets the column line `2` at `x = 2`, but the loop
over columns computes `(2 - intercept) / slope` in `double` as
`1.9999999999999996` and takes row `1`: the returned cells are `(1, 2)` and
`(3, 1)`, two rows apart, and no chain of returned cells joins them. -/
theorem fillByIntersection_rounding_gap :
    squareGrid.pixelLine gapSegment =
        LineSegment.mk ⟨3602879701896397 / 1125899906842624,
          5404319552844595 / 4503599627370496, 0⟩ ⟨2, 2, 0⟩ ∧
      squareGrid.liesInside gapSegment ∧
      squareGrid.lineRowAt gapSegment 2 = 2 ∧
      binary64.div (binary64.sub 2 (squareGrid.pixelLine gapSegment).getIntercept)
          (squareGrid.pixelLine gapSegment).getSlope =
        4503599627370495 / 2251799813685248 ∧
      squareGrid.rowAt gapSegment 2 = 1 ∧
      (squareGrid.fillByIntersection gapSegment 7).2 = [(1, 2), (3, 1)] ∧
      ¬ adjacent8 (1, 2) (3, 1) ∧
      ¬ joined8 (squareGrid.fillByIntersection gapSegment 7).2 (1, 2) (3, 1) := by
  have hret : (squareGrid.fillByIntersection gapSegment 7).2 = [(1, 2), (3, 1)] := by decide!
  have hadj : ¬ adjacent8 (1, 2) (3, 1) := by
    unfold adjacent8
    omega
  refine ⟨by decide!,
    contains_inside (squareGrid.pixelLine gapSegment) _ _ (by decide!) (by decide!),
    by decide!, by decide!, by decide!, hret, hadj, ?_⟩
  rw [hret]
  apply not_joined8_of_isolated
  · intro c hc hc'
    rcases List.mem_cons.mp hc with h | h
    · exact h
    · rw [List.mem_singleton] at h
      rw [h] at hc'
      exact absurd hc' hadj
  · decide

end simple_sensor_simulator

/-! ## `Entities::flatten` -/

namespace openscenario_interpreter

theorem Entities.find_key (e : Entities) (current key : String) (object : Object)
    (h : e.find current = some (key, object)) : key = current := by
  unfold Entities.find at h
  have := List.find?_some h
  simpa using this

/-- While every reference from the iterator on names a scenario object, the
loop of `flatten` never ends: whatever the fuel, it runs out. -/
theorem Entities.flattenLoop_diverges (e : Entities) (entity_ref : EntityRef) (fuel : Nat)
    (before after : List EntityRef) (hne : after ≠ [])
    (hall : ∀ r ∈ after, ∃ key, e.find r = some (key, Object.ScenarioObject)) :
    e.flattenLoop entity_ref fuel before after = none := by
  induction fuel generalizing before after with
  | zero => rfl
  | succ fuel ih =>
    match after, hne, hall with
    | current :: rest, _, hall =>
      obtain ⟨key, hk⟩ := hall current (List.mem_cons_self _ _)
      have hkey := e.find_key current key _ hk
      unfold Entities.flattenLoop
      rw [hk]
      apply ih
      · simp
      · intro r hr
        rcases List.mem_append.mp hr with h | h
        · exact hall r (List.mem_cons_of_mem _ h)
        · rw [List.mem_singleton] at h
          rw [h, hkey]
          exact ⟨key, hk⟩

/-- A reference to a scenario object makes `flatten` loop for ever. -/
theorem Entities.flatten_scenarioObject (e : Entities) (entity_ref : EntityRef) (key : String)
    (h : e.find entity_ref = some (key, Object.ScenarioObject)) (fuel : Nat) :
    e.flatten entity_ref fuel = none := by
  unfold Entities.flatten
  apply e.flattenLoop_diverges entity_ref fuel [] [entity_ref] (by simp)
  intro r hr
  rw [List.mem_singleton] at hr
  rw [hr]
  exact ⟨key, h⟩

/-- The other references end the loop: an undeclared entity and an entity of
an unsupported type throw at the first test, an entity selection is erased and
the empty list is returned at the second. -/
theorem Entities.flatten_terminates_otherwise (e : Entities) (entity_ref : EntityRef)
    (fuel : Nat) :
    (e.find entity_ref = none →
      e.flatten entity_ref (fuel + 1) =
        some (Except.error (FlattenError.undeclared entity_ref))) ∧
    (∀ key, e.find entity_ref = some (key, Object.EntitySelection) →
      e.flatten entity_ref (fuel + 2) = some (Except.ok [])) ∧
    (∀ key type_name, e.find entity_ref = some (key, Object.other type_name) →
      e.flatten entity_ref (fuel + 1) =
        some (Except.error (FlattenError.unsupported type_name))) := by
  refine ⟨fun h => ?_, fun key h => ?_, fun key type_name h => ?_⟩
  · unfold Entities.flatten Entities.flattenLoop
    rw [h]
  · unfold Entities.flatten Entities.flattenLoop
    rw [h]
    rfl
  · unfold Entities.flatten Entities.flattenLoop
    rw [h]

/-- Claim C30, evaluated on the code: with a table that declares the scenario
object `ego`, `flatten("ego")` does not terminate: the loop appends `ego` to
the list each time it passes over it, so that no number of loop tests reaches
the last element of the list. -/
theorem flatten_ego_diverges (fuel : Nat) :
    egoEntities.find "ego" = some ("ego", Object.ScenarioObject) ∧
      egoEntities.flatten "ego" fuel = none ∧
      egoEntities.flattenLoop "ego" 3 [] ["ego"] = none ∧
      egoEntities.flattenLoop "ego" 1 ["ego", "ego"] [] = some (Except.ok ["ego", "ego"]) :=
  ⟨by decide, Entities.flatten_scenarioObject egoEntities "ego" "ego" (by decide) fuel,
    rfl, rfl⟩

end openscenario_interpreter
